import Mathlib

/-!
# BVH construction of `demo-raytracer`, embedded in Lean

Shallow embedding of `src/include/bvh_accelerator.h` (`BVH_Accelerator`) and of the
`BoundingBox` value type of `src/include/mesh.h`.

Modelling conventions

* `float` coordinates of the input are finite rationals (`ℚ`); infinities and NaN as
  inputs are outside the model.  The centroid stored by the constructor of `BVH_Item` is
  rounded as binary32 arithmetic rounds it (`F32.roundFinite`).  The arithmetic of
  `recursiveBuild` (differences, offsets, surface areas, costs) is carried out exactly, and
  the division by `bbox.surfaceArea()` in the SAH cost has its IEEE results for a zero
  divisor (`FloatVal`).  Where binary32 leaves the exact result, by overflow in the bucket
  index, the computation is given a second time in binary32 (`offsetF32`, `bucketOfF32`,
  `fillBucketsF32`).
* `int` / `size_t` values are natural numbers; every range reachable from `buildTree`
  satisfies `start ≤ end`, and sizes stay far below `2^31`.
* `std::vector` is `List`; an access outside the vector, a bucket index outside `0..11`
  and a null dereference are reported as a `Fault`.
* `std::shared_ptr<BVH_Node>` is the type `BVH_Node`, with `BVH_Node.null` for `nullptr`.
* `std::shared_ptr<Object>` is identified with the position of the object in the input
  sequence; an object is represented by its bounding box.
* What C++ leaves to the implementation is collected in `Platform`: the results of
  `std::nth_element` and `std::partition`, the order in which the two recursive calls in
  `createNode(nodeId, recursiveBuild(..), recursiveBuild(..))` are evaluated, and the value
  of a `BoundingBox` that has no initializer (`BucketInfo::boundingBox`).
* Recursion depth is bounded by a fuel argument; that a given amount of fuel suffices is
  proved where it is used, not assumed.
* Console tracing (`std::cout`) is omitted.
-/

namespace BVH

/-! ## glm::vec3 -/

/-- The type `glm::vec3`. -/
structure Vec3 where
  x : ℚ
  y : ℚ
  z : ℚ
deriving DecidableEq, Repr

namespace Vec3

/-- Component access `v[i]`; callers only use `i ∈ {0, 1, 2}`. -/
def get (v : Vec3) (i : Nat) : ℚ :=
  match i with
  | 0 => v.x
  | 1 => v.y
  | _ => v.z

/-- Componentwise `a - b`. -/
def sub (a b : Vec3) : Vec3 := ⟨a.x - b.x, a.y - b.y, a.z - b.z⟩

/-- Componentwise `a + b`. -/
def add (a b : Vec3) : Vec3 := ⟨a.x + b.x, a.y + b.y, a.z + b.z⟩

/-- Scaling `k * v`. -/
def smul (k : ℚ) (v : Vec3) : Vec3 := ⟨k * v.x, k * v.y, k * v.z⟩

/-- Componentwise minimum, `glm::min`. -/
def min (a b : Vec3) : Vec3 := ⟨Min.min a.x b.x, Min.min a.y b.y, Min.min a.z b.z⟩

/-- Componentwise maximum, `glm::max`. -/
def max (a b : Vec3) : Vec3 := ⟨Max.max a.x b.x, Max.max a.y b.y, Max.max a.z b.z⟩

end Vec3

/-! ## BoundingBox (mesh.h) -/

/-- The struct `BoundingBox` of `mesh.h`. -/
structure BoundingBox where
  Pmin : Vec3
  Pmax : Vec3
deriving DecidableEq, Repr

namespace BoundingBox

/-- `diagonal()`: `Pmax - Pmin`. -/
def diagonal (b : BoundingBox) : Vec3 := b.Pmax.sub b.Pmin

/-- `maximumExtent()`. -/
def maximumExtent (b : BoundingBox) : Nat :=
  let d := b.diagonal
  if d.x > d.y ∧ d.x > d.z then 0
  else if d.y > d.z then 1
  else 2

/-- `offset(point)`. -/
def offset (b : BoundingBox) (point : Vec3) : Vec3 :=
  let o := point.sub b.Pmin
  let ox := if b.Pmax.x > b.Pmin.x then o.x / (b.Pmax.x - b.Pmin.x) else o.x
  let oy := if b.Pmax.y > b.Pmin.y then o.y / (b.Pmax.y - b.Pmin.y) else o.y
  let oz := if b.Pmax.z > b.Pmin.z then o.z / (b.Pmax.z - b.Pmin.z) else o.z
  ⟨ox, oy, oz⟩

/-- `surfaceArea()`. -/
def surfaceArea (b : BoundingBox) : ℚ :=
  let d := b.diagonal
  2 * (d.x * d.y + d.x * d.z + d.y * d.z)

end BoundingBox

/-- `getTotalBoundingBox(BoundingBox, BoundingBox)`. -/
def getTotalBoundingBox (bbox1 bbox2 : BoundingBox) : BoundingBox :=
  { Pmin := Vec3.min bbox1.Pmin bbox2.Pmin, Pmax := Vec3.max bbox1.Pmax bbox2.Pmax }

/-- `getTotalBoundingBox(BoundingBox, glm::vec3)`. -/
def getTotalBoundingBoxPoint (bbox1 : BoundingBox) (p : Vec3) : BoundingBox :=
  { Pmin := Vec3.min bbox1.Pmin p, Pmax := Vec3.max bbox1.Pmax p }

/-! ## BVH_Item, BVH_Node -/

/-- The struct `BVH_Item`. -/
structure BVH_Item where
  index : Nat
  boundingBox : BoundingBox
  center : Vec3
deriving DecidableEq, Repr

/-! ## Rounding to binary32 -/

/-- The number of binary digits of `n` (0 for 0); `fuel` bounds the recursion and is
enough when it is at least the number of digits. -/
def bitLength : Nat → Nat → Nat
  | 0, _ => 0
  | fuel + 1, n => if n = 0 then 0 else bitLength fuel (n / 2) + 1

/-- The rational `2 ^ k` for an integer `k`. -/
def pow2 (k : Int) : ℚ :=
  if 0 ≤ k then ((2 ^ k.toNat : Nat) : ℚ) else 1 / ((2 ^ (-k).toNat : Nat) : ℚ)

/-- Rounding to the nearest integer, a tie going to the even one. -/
def roundEven (q : ℚ) : Int :=
  if q - ⌊q⌋ < 1 / 2 then ⌊q⌋
  else if 1 / 2 < q - ⌊q⌋ then ⌊q⌋ + 1
  else if ⌊q⌋ % 2 = 0 then ⌊q⌋
  else ⌊q⌋ + 1

namespace F32

/-- The binary exponent that decides the spacing of binary32 values at `q`: the `e` with
`2 ^ e ≤ |q| < 2 ^ (e + 1)`, but not less than -126 (below `2 ^ -126` the values are
subnormal and keep the spacing `2 ^ -149`). -/
def exponent (q : ℚ) : Int :=
  let e0 : Int :=
    (bitLength q.num.natAbs q.num.natAbs : Int) - (bitLength q.den q.den : Int)
  let e := if pow2 e0 ≤ |q| then e0 else e0 - 1
  if e < -126 then -126 else e

/-- The distance between neighbouring binary32 values around `q` (24 significant bits). -/
def spacing (q : ℚ) : ℚ := pow2 (exponent q - 23)

/-- The binary32 value nearest to `q`, ties to even, as long as the result is finite
(a result above the largest finite binary32 value stands for an overflow). -/
def roundFinite (q : ℚ) : ℚ :=
  if q = 0 then 0 else (roundEven (q / spacing q) : ℚ) * spacing q

/-- The product `a * b` of two `float`s, rounded. -/
def fmul (a b : ℚ) : ℚ := roundFinite (a * b)

/-- The sum `a + b` of two `float`s, rounded. -/
def fadd (a b : ℚ) : ℚ := roundFinite (a + b)

end F32

/-- The centroid computed by the constructor of `BVH_Item`:
`0.5f * Pmin + 0.5f * Pmax`, each product and each sum rounded to binary32 (`glm`
multiplies and adds componentwise, one operation at a time).  For coordinates that are
binary32 values neither the halves nor their sum can overflow. -/
def centroid (boundingBox : BoundingBox) : Vec3 :=
  { x := F32.fadd (F32.fmul (1 / 2) boundingBox.Pmin.x) (F32.fmul (1 / 2) boundingBox.Pmax.x),
    y := F32.fadd (F32.fmul (1 / 2) boundingBox.Pmin.y) (F32.fmul (1 / 2) boundingBox.Pmax.y),
    z := F32.fadd (F32.fmul (1 / 2) boundingBox.Pmin.z) (F32.fmul (1 / 2) boundingBox.Pmax.z) }

/-- The constructor `BVH_Item(index, boundingBox)`. -/
def BVH_Item.make (index : Nat) (boundingBox : BoundingBox) : BVH_Item :=
  { index := index, boundingBox := boundingBox, center := centroid boundingBox }

/-- A `std::shared_ptr<BVH_Node>`: `null`, or a node with the fields of the struct
`BVH_Node` in declaration order. -/
inductive BVH_Node where
  | null : BVH_Node
  | mk (id : Nat) (child0 child1 : BVH_Node) (objectOffset objectCount splitAxis : Nat)
      (bbox : BoundingBox) : BVH_Node
deriving DecidableEq, Repr

/-! ## Floating-point results that may be non-finite -/

/-- A `float` value of the cost computation: a finite number, an infinity, or NaN. -/
inductive FloatVal where
  | finite (q : ℚ) : FloatVal
  | posInf : FloatVal
  | negInf : FloatVal
  | nan : FloatVal
deriving DecidableEq, Repr

namespace FloatVal

/-- IEEE division `a / b` of two finite values (a zero divisor counts as `+0`). -/
def div (a b : ℚ) : FloatVal :=
  if b = 0 then
    if 0 < a then posInf else if a < 0 then negInf else nan
  else finite (a / b)

/-- The sum `c + v` with a finite constant `c`. -/
def addConst (c : ℚ) : FloatVal → FloatVal
  | finite q => finite (c + q)
  | posInf => posInf
  | negInf => negInf
  | nan => nan

/-- The comparison `a < b` of IEEE floats (false whenever an operand is NaN). -/
def lt : FloatVal → FloatVal → Bool
  | finite a, finite b => decide (a < b)
  | finite _, posInf => true
  | negInf, finite _ => true
  | negInf, posInf => true
  | _, _ => false

end FloatVal

/-- Conversion `float → int`: truncation toward zero. -/
def ftoi (q : ℚ) : Int :=
  if 0 ≤ q then ⌊q⌋ else ⌈q⌉

/-! ## What the C++ implementation decides -/

/-- Implementation-defined behaviour the build depends on. -/
structure Platform where
  /-- `std::nth_element(first, first + nth, last, cmp)` on the segment `[first, last)`,
  with `cmp a b = a.center[dim] < b.center[dim]`: the reordered segment. -/
  nth_element : (dim : Nat) → (nth : Nat) → List BVH_Item → List BVH_Item
  /-- `std::partition(first, last, pred)` on the segment `[first, last)`: the reordered
  segment and the distance of the returned iterator from `first`. -/
  partition : (BVH_Item → Bool) → List BVH_Item → List BVH_Item × Nat
  /-- Whether, for the range `[start, end)`, the argument `recursiveBuild(start, mid)` of
  `createNode` is evaluated before `recursiveBuild(mid, end)`. -/
  leftFirst : (start : Nat) → (end_ : Nat) → Bool
  /-- The value found in `buckets[i].boundingBox` before the first assignment.  The member
  has no initializer, so this is whatever the stack holds; a `Platform` describes one call
  of `buildTree`, and the next call may find other contents there. -/
  bucketInit : (i : Nat) → BoundingBox

/-- The guarantees the C++ standard gives for `std::nth_element` and `std::partition`. -/
structure Platform.Conforms (env : Platform) : Prop where
  nth_element_perm : ∀ dim nth seg, List.Perm (env.nth_element dim nth seg) seg
  nth_element_ordered : ∀ dim nth seg i j a b, i < nth → nth ≤ j →
    (env.nth_element dim nth seg)[i]? = some a →
    (env.nth_element dim nth seg)[j]? = some b →
    ¬ (b.center.get dim < a.center.get dim)
  partition_perm : ∀ p seg, List.Perm (env.partition p seg).1 seg
  partition_bound : ∀ p seg, (env.partition p seg).2 ≤ seg.length
  partition_left : ∀ p seg x,
    x ∈ (env.partition p seg).1.take (env.partition p seg).2 → p x = true
  partition_right : ∀ p seg x,
    x ∈ (env.partition p seg).1.drop (env.partition p seg).2 → p x = false

/-- One conforming implementation: `nth_element` sorts the segment by the key, `partition`
keeps the relative order on both sides, arguments are evaluated left to right and a
`BoundingBox` without initializer is all zero. -/
def Platform.reference : Platform where
  nth_element := fun dim _ seg =>
    List.insertionSort (fun a b => a.center.get dim ≤ b.center.get dim) seg
  partition := fun p seg =>
    (seg.filter p ++ seg.filter (fun x => !p x), (seg.filter p).length)
  leftFirst := fun _ _ => true
  bucketInit := fun _ => ⟨⟨0, 0, 0⟩, ⟨0, 0, 0⟩⟩

/-! ## The builder -/

/-- Why a call does not return. -/
inductive Fault where
  | outOfBounds : Fault
  | nullDeref : Fault
  | outOfFuel : Fault
deriving DecidableEq, Repr

/-- The members `recursiveBuild` reads and writes. -/
structure BuildState where
  items : List BVH_Item
  orderedObjects : List Nat
  totalNodes : Nat
deriving DecidableEq, Repr

/-- The loop `for (int i = lo; i < lo + n; ++i) acc = body(acc, items[i]);`. -/
def forItems {σ : Type} (items : List BVH_Item) (body : σ → BVH_Item → Option σ) :
    Nat → Nat → σ → Option σ
  | 0, _, acc => some acc
  | n + 1, i, acc =>
    match items[i]? with
    | none => none
    | some it =>
      match body acc it with
      | none => none
      | some acc1 => forItems items body n (i + 1) acc1

/-- Lines 63-65: `bbox = items[start].boundingBox`, then the union with
`items[start+1 .. end)`.  A read of `items[start]` outside the vector gives `none`: C++
leaves it undefined, and an implementation may trap or return what the storage still
holds. -/
def rangeBounds (items : List BVH_Item) (start end_ : Nat) : Option BoundingBox :=
  match items[start]? with
  | none => none
  | some it0 =>
    forItems items (fun b it => some (getTotalBoundingBox b it.boundingBox))
      (end_ - (start + 1)) (start + 1) it0.boundingBox

/-- Lines 87-89: the bounds of the centroids of `items[start .. end)`. -/
def rangeCenterBounds (items : List BVH_Item) (start end_ : Nat) : Option BoundingBox :=
  match items[start]? with
  | none => none
  | some it0 =>
    forItems items (fun b it => some (getTotalBoundingBoxPoint b it.center))
      (end_ - (start + 1)) (start + 1) ⟨it0.center, it0.center⟩

/-- The segment `items[start .. end)`. -/
def sliceRange (items : List BVH_Item) (start end_ : Nat) : List BVH_Item :=
  (items.drop start).take (end_ - start)

/-- The array after the segment `[start, end)` has been overwritten by `seg`. -/
def spliceRange (items : List BVH_Item) (start end_ : Nat) (seg : List BVH_Item) :
    List BVH_Item :=
  items.take start ++ seg ++ items.drop end_

/-- `createLeaf(first, n, bbox)`; `make_shared<BVH_Node>()` zeroes `splitAxis`. -/
def createLeaf (first n : Nat) (bbox : BoundingBox) (st : BuildState) :
    BVH_Node × BuildState :=
  (BVH_Node.mk st.totalNodes BVH_Node.null BVH_Node.null first n 0 bbox,
    { st with totalNodes := st.totalNodes + 1 })

/-- `createNode(id, c0, c1)`; reading `c0->bbox` or `c1->bbox` of a null pointer is a
fault. `make_shared<BVH_Node>()` zeroes `objectOffset` and `splitAxis`. -/
def createNode (id : Nat) (c0 c1 : BVH_Node) : Option BVH_Node :=
  match c0, c1 with
  | BVH_Node.mk _ _ _ _ _ _ bb0, BVH_Node.mk _ _ _ _ _ _ bb1 =>
    some (BVH_Node.mk id c0 c1 0 0 0 (getTotalBoundingBox bb0 bb1))
  | _, _ => none

/-- The struct `BucketInfo`. -/
structure BucketInfo where
  count : Nat
  boundingBox : BoundingBox
deriving DecidableEq, Repr

/-- The constant `nBuckets`. -/
def nBuckets : Nat := 12

/-- The bucket of an item, `int b = nBuckets * centerBbox.offset(center)[dim];
if (b == nBuckets) b = nBuckets - 1;`, with the difference, the quotient and the product
carried out exactly.  `bucketOfF32` is the same computation in binary32, where the
difference can overflow. -/
def bucketOf (centerBbox : BoundingBox) (dim : Nat) (it : BVH_Item) : Int :=
  let b := ftoi ((nBuckets : ℚ) * (centerBbox.offset it.center).get dim)
  if b = (nBuckets : Int) then (nBuckets : Int) - 1 else b

/-- One iteration of the loop of lines 143-151; an index outside `buckets[0..12)` is a
fault. -/
def addToBucket (centerBbox : BoundingBox) (dim : Nat) (buckets : Nat → BucketInfo)
    (it : BVH_Item) : Option (Nat → BucketInfo) :=
  let b := bucketOf centerBbox dim it
  if 0 ≤ b ∧ b < (nBuckets : Int) then
    some (Function.update buckets b.toNat
      { count := (buckets b.toNat).count + 1,
        boundingBox := getTotalBoundingBox (buckets b.toNat).boundingBox it.boundingBox })
  else none

/-- Lines 140-151: `BucketInfo buckets[nBuckets]` filled from `items[start .. end)`. -/
def fillBuckets (env : Platform) (centerBbox : BoundingBox) (dim : Nat)
    (items : List BVH_Item) (start end_ : Nat) : Option (Nat → BucketInfo) :=
  forItems items (addToBucket centerBbox dim) (end_ - start) start
    (fun i => { count := 0, boundingBox := env.bucketInit i })

/-- Lines 157-172: `cost[i]`. -/
def sahCost (buckets : Nat → BucketInfo) (bbox : BoundingBox) (i : Nat) : FloatVal :=
  let left := (List.range' 1 i).foldl
    (fun (acc : BoundingBox × Nat) j =>
      (getTotalBoundingBox acc.1 (buckets j).boundingBox, acc.2 + (buckets j).count))
    ((buckets 0).boundingBox, 0)
  let right := (List.range' (i + 2) (nBuckets - (i + 2))).foldl
    (fun (acc : BoundingBox × Nat) j =>
      (getTotalBoundingBox acc.1 (buckets j).boundingBox, acc.2 + (buckets j).count))
    ((buckets (i + 1)).boundingBox, 0)
  FloatVal.addConst (1 / 8)
    (FloatVal.div
      ((left.2 : ℚ) * left.1.surfaceArea + (right.2 : ℚ) * right.1.surfaceArea)
      bbox.surfaceArea)

/-- Lines 178-189: `(minCost, minCostSplitBucket)`. -/
def findMinCost (cost : Nat → FloatVal) : FloatVal × Nat :=
  (List.range' 1 (nBuckets - 2)).foldl
    (fun (acc : FloatVal × Nat) i => if (cost i).lt acc.1 then (cost i, i) else acc)
    (cost 0, 0)

/-- What one activation of `recursiveBuild` does before it recurses. -/
inductive Step where
  /-- It returns a leaf. -/
  | leaf (node : BVH_Node) (st : BuildState) : Step
  /-- It has reordered `items[start .. end)`, taken `nodeId` from the counter, and is
  about to call `recursiveBuild(start, mid)` and `recursiveBuild(mid, end)`. -/
  | split (mid nodeId : Nat) (st : BuildState) : Step
deriving DecidableEq, Repr

/-- The statement `orderedObjects.push_back(objects[item.index])`; reading `objects`
outside its bounds is a fault. -/
def pushObject (objects : List BoundingBox) (orderedObjects : List Nat) (item : BVH_Item) :
    Option (List Nat) :=
  match objects[item.index]? with
  | none => none
  | some _ => some (orderedObjects ++ [item.index])

/-- The three identical "Create leaf node" blocks: append `objects[items[i].index]` for
`i` in `[start, end)` to `orderedObjects`, then `createLeaf(firstItemOffset, nItems, bbox)`. -/
def emitLeaf (objects : List BoundingBox) (start end_ : Nat) (bbox : BoundingBox)
    (st : BuildState) : Except Fault Step :=
  let firstItemOffset := st.orderedObjects.length
  match forItems st.items (pushObject objects) (end_ - start) start st.orderedObjects with
  | none => Except.error Fault.outOfBounds
  | some ord =>
    let r := createLeaf firstItemOffset (end_ - start) bbox { st with orderedObjects := ord }
    Except.ok (Step.leaf r.1 r.2)

/-- The body of `recursiveBuild(start, end, objects)` up to the recursive calls. -/
def buildStep (env : Platform) (objects : List BoundingBox) (maxNodeItems : Int)
    (start end_ : Nat) (st : BuildState) : Except Fault Step :=
  match rangeBounds st.items start end_ with
  | none => Except.error Fault.outOfBounds
  | some bbox =>
    let nItems := end_ - start
    if nItems = 1 then emitLeaf objects start end_ bbox st
    else
      match rangeCenterBounds st.items start end_ with
      | none => Except.error Fault.outOfBounds
      | some centerBbox =>
        let dim := centerBbox.maximumExtent
        if centerBbox.Pmax.get dim = centerBbox.Pmin.get dim then
          emitLeaf objects start end_ bbox st
        else if nItems ≤ 4 then
          let mid := (start + end_) / 2
          let seg := env.nth_element dim (mid - start) (sliceRange st.items start end_)
          Except.ok (Step.split mid st.totalNodes
            { st with items := spliceRange st.items start end_ seg,
                      totalNodes := st.totalNodes + 1 })
        else
          match fillBuckets env centerBbox dim st.items start end_ with
          | none => Except.error Fault.outOfBounds
          | some buckets =>
            let best := findMinCost (sahCost buckets bbox)
            let minCost := best.1
            let minCostSplitBucket := best.2
            let leafCost := FloatVal.finite (nItems : ℚ)
            if (nItems : Int) > maxNodeItems ∨ minCost.lt leafCost = true then
              let r := env.partition
                (fun pi => decide (bucketOf centerBbox dim pi ≤ (minCostSplitBucket : Int)))
                (sliceRange st.items start end_)
              let mid := start + r.2
              Except.ok (Step.split mid st.totalNodes
                { st with items := spliceRange st.items start end_ r.1,
                          totalNodes := st.totalNodes + 1 })
            else emitLeaf objects start end_ bbox st

/-- `recursiveBuild(start, end, objects)`, with at most `fuel` nested activations.
A fault is reported together with the state in which the faulting activation started. -/
def recursiveBuild (env : Platform) (objects : List BoundingBox) (maxNodeItems : Int) :
    Nat → Nat → Nat → BuildState → Except (Fault × BuildState) (BVH_Node × BuildState)
  | 0, _, _, st => Except.error (Fault.outOfFuel, st)
  | fuel + 1, start, end_, st =>
    match buildStep env objects maxNodeItems start end_ st with
    | Except.error f => Except.error (f, st)
    | Except.ok (Step.leaf node st1) => Except.ok (node, st1)
    | Except.ok (Step.split mid nodeId st1) =>
      if env.leftFirst start end_ then
        match recursiveBuild env objects maxNodeItems fuel start mid st1 with
        | Except.error e => Except.error e
        | Except.ok (c0, st2) =>
          match recursiveBuild env objects maxNodeItems fuel mid end_ st2 with
          | Except.error e => Except.error e
          | Except.ok (c1, st3) =>
            match createNode nodeId c0 c1 with
            | none => Except.error (Fault.nullDeref, st3)
            | some node => Except.ok (node, st3)
      else
        match recursiveBuild env objects maxNodeItems fuel mid end_ st1 with
        | Except.error e => Except.error e
        | Except.ok (c1, st2) =>
          match recursiveBuild env objects maxNodeItems fuel start mid st2 with
          | Except.error e => Except.error e
          | Except.ok (c0, st3) =>
            match createNode nodeId c0 c1 with
            | none => Except.error (Fault.nullDeref, st3)
            | some node => Except.ok (node, st3)

/-- The data members of the class `BVH_Accelerator`. -/
structure BVH_Accelerator where
  items : List BVH_Item
  orderedObjects : List Nat
  maxNodeItems : Int
  totalNodes : Nat
  root : BVH_Node
  tree : List BVH_Node
deriving DecidableEq, Repr

namespace BVH_Accelerator

/-- A freshly constructed builder; `maxNodeItems` has no initializer and holds `k`. -/
def fresh (k : Int) : BVH_Accelerator :=
  { items := [], orderedObjects := [], maxNodeItems := k, totalNodes := 0,
    root := BVH_Node.null, tree := [] }

/-- The descriptors pushed by the loop of lines 50-53, for objects numbered from `i`. -/
def loadItems : Nat → List BoundingBox → List BVH_Item
  | _, [] => []
  | i, b :: bs => BVH_Item.make i b :: loadItems (i + 1) bs

/-- Lines 42-54 of `buildTree`: the state in which `recursiveBuild(0, objects.size())`
is entered. -/
def prepare (self : BVH_Accelerator) (objects : List BoundingBox) (maxNodeItems : Int) :
    BVH_Accelerator :=
  let s1 :=
    if self.root ≠ BVH_Node.null then
      { self with items := [], orderedObjects := [], totalNodes := 0, tree := [] }
    else self
  { s1 with items := s1.items ++ loadItems 0 objects, maxNodeItems := maxNodeItems }

/-- The members `recursiveBuild` works on. -/
def buildState (self : BVH_Accelerator) : BuildState :=
  { items := self.items, orderedObjects := self.orderedObjects,
    totalNodes := self.totalNodes }

/-- The builder with the members `recursiveBuild` works on replaced by `st`. -/
def withBuildState (self : BVH_Accelerator) (st : BuildState) : BVH_Accelerator :=
  { self with items := st.items, orderedObjects := st.orderedObjects,
              totalNodes := st.totalNodes }

/-- `buildTree(objects, maxNodeItems)`.  A completed call returns the builder with the
new root; a call that does not complete reports the fault and the builder as it was when
the faulting activation started (`root` not yet assigned). -/
def buildTree (env : Platform) (self : BVH_Accelerator) (objects : List BoundingBox)
    (maxNodeItems : Int) (fuel : Nat) : Except (Fault × BVH_Accelerator) BVH_Accelerator :=
  let s := self.prepare objects maxNodeItems
  match recursiveBuild env objects maxNodeItems fuel 0 objects.length s.buildState with
  | Except.error (f, st) => Except.error (f, s.withBuildState st)
  | Except.ok (node, st) => Except.ok { s.withBuildState st with root := node }

/-- `getOrderedObjects()`: the objects are identified by their original indices. -/
def getOrderedObjects (self : BVH_Accelerator) : List Nat := self.orderedObjects

end BVH_Accelerator

/-! ## Notions used to state the properties of a built tree -/

namespace BVH_Node

/-- Whether the pointer is null. -/
def isNull : BVH_Node → Bool
  | null => true
  | mk _ _ _ _ _ _ _ => false

/-- A node is a leaf when both `children` are null. -/
def isLeaf : BVH_Node → Bool
  | mk _ null null _ _ _ _ => true
  | _ => false

/-- The field `objectOffset` (0 for a null pointer). -/
def objectOffset : BVH_Node → Nat
  | null => 0
  | mk _ _ _ off _ _ _ => off

/-- The field `objectCount` (0 for a null pointer). -/
def objectCount : BVH_Node → Nat
  | null => 0
  | mk _ _ _ _ cnt _ _ => cnt

/-- All nodes reachable from a pointer, the node itself first. -/
def nodes : BVH_Node → List BVH_Node
  | null => []
  | mk id c0 c1 off cnt ax bb => mk id c0 c1 off cnt ax bb :: (nodes c0 ++ nodes c1)

/-- The leaves reachable from a pointer, `children[0]` before `children[1]`. -/
def leaves (n : BVH_Node) : List BVH_Node := n.nodes.filter isLeaf

/-- The number of primitives referenced below a node. -/
def primCount : BVH_Node → Nat
  | null => 0
  | mk _ c0 c1 _ cnt _ _ => cnt + primCount c0 + primCount c1

/-- Every leaf below a node paired with the first index of its working-array range, when
the node stands for the range that starts at `a` and the ranges of `children[0]` and
`children[1]` follow one another. -/
def leafSpans : BVH_Node → Nat → List (BVH_Node × Nat)
  | null, _ => []
  | mk id c0 c1 off cnt ax bb, a =>
    if isLeaf (mk id c0 c1 off cnt ax bb) then [(mk id c0 c1 off cnt ax bb, a)]
    else leafSpans c0 a ++ leafSpans c1 (a + primCount c0)

end BVH_Node

/-- The union of a non-empty sequence of boxes, accumulated with `getTotalBoundingBox`
from the first box on, as `recursiveBuild` does. -/
def unionOfBoxes : List BoundingBox → Option BoundingBox
  | [] => none
  | b :: bs => some (bs.foldl getTotalBoundingBox b)

/-- The union as the specification words it: componentwise minimum of the `Pmin`s and
componentwise maximum of the `Pmax`s of the boxes `b, bs`. -/
def specUnion (b : BoundingBox) (bs : List BoundingBox) : BoundingBox :=
  { Pmin := ⟨(bs.map fun c => c.Pmin.x).foldl Min.min b.Pmin.x,
             (bs.map fun c => c.Pmin.y).foldl Min.min b.Pmin.y,
             (bs.map fun c => c.Pmin.z).foldl Min.min b.Pmin.z⟩,
    Pmax := ⟨(bs.map fun c => c.Pmax.x).foldl Max.max b.Pmax.x,
             (bs.map fun c => c.Pmax.y).foldl Max.max b.Pmax.y,
             (bs.map fun c => c.Pmax.z).foldl Max.max b.Pmax.z⟩ }

/-- The bounds of the centroids of a non-empty segment, as lines 87-89 compute them. -/
def centerBounds (it0 : BVH_Item) (rest : List BVH_Item) : BoundingBox :=
  rest.foldl (fun b it => getTotalBoundingBoxPoint b it.center) ⟨it0.center, it0.center⟩

/-- The descriptors of a segment agree with the input: each carries the box of the object
it names and the centroid of that box. -/
def ItemsOK (objects : List BoundingBox) (seg : List BVH_Item) : Prop :=
  ∀ it ∈ seg, objects[it.index]? = some it.boundingBox ∧ it.center = centroid it.boundingBox

/-- Why `recursiveBuild` may turn a segment into a leaf: it has one item, or all its
centroids coincide, or it has more than four items and no more than `maxNodeItems`. -/
def LeafReason (maxNodeItems : Int) (seg : List BVH_Item) : Prop :=
  seg.length = 1 ∨ (∀ a ∈ seg, ∀ b ∈ seg, a.center = b.center) ∨
    (4 < seg.length ∧ (seg.length : Int) ≤ maxNodeItems)

/-- `Covers m node seg base added t t1`: `node` is a tree built over the final working-array
segment `seg`; its leaves appended `added` to a permutation that had `base` entries; the
node counter went from `t` to `t1`. -/
inductive Covers (maxNodeItems : Int) :
    BVH_Node → List BVH_Item → Nat → List Nat → Nat → Nat → Prop where
  | leaf (it0 : BVH_Item) (rest : List BVH_Item) (base t : Nat) :
      LeafReason maxNodeItems (it0 :: rest) →
      Covers maxNodeItems
        (BVH_Node.mk t BVH_Node.null BVH_Node.null base (it0 :: rest).length 0
          (rest.foldl (fun b it => getTotalBoundingBox b it.boundingBox) it0.boundingBox))
        (it0 :: rest) base ((it0 :: rest).map fun it => it.index) t (t + 1)
  | nodeLR (c0 c1 n : BVH_Node) (segL segR : List BVH_Item) (base : Nat)
      (addL addR : List Nat) (t t1 t2 : Nat) :
      Covers maxNodeItems c0 segL base addL (t + 1) t1 →
      Covers maxNodeItems c1 segR (base + addL.length) addR t1 t2 →
      createNode t c0 c1 = some n →
      Covers maxNodeItems n (segL ++ segR) base (addL ++ addR) t t2
  | nodeRL (c0 c1 n : BVH_Node) (segL segR : List BVH_Item) (base : Nat)
      (addL addR : List Nat) (t t1 t2 : Nat) :
      Covers maxNodeItems c1 segR base addR (t + 1) t1 →
      Covers maxNodeItems c0 segL (base + addR.length) addL t1 t2 →
      createNode t c0 c1 = some n →
      Covers maxNodeItems n (segL ++ segR) base (addR ++ addL) t t2

/-- What `Covers` says about one leaf: it stands for a block of the final segment, its
range of the permutation holds the indices of that block in array order, and its box is
the union of the boxes of the block. -/
def LeafBlock (m : Int) (seg : List BVH_Item) (base : Nat) (added : List Nat)
    (L : BVH_Node) (a s0 : Nat) : Prop :=
  ∃ (ps : List BVH_Item) (it0 : BVH_Item) (rest ss : List BVH_Item) (pa sa : List Nat)
    (id : Nat),
    seg = ps ++ it0 :: rest ++ ss ∧ a = s0 + ps.length ∧
    added = pa ++ (it0 :: rest).map (fun it => it.index) ++ sa ∧
    L = BVH_Node.mk id BVH_Node.null BVH_Node.null (base + pa.length) (it0 :: rest).length 0
      (rest.foldl (fun b it => getTotalBoundingBox b it.boundingBox) it0.boundingBox) ∧
    LeafReason m (it0 :: rest)

/-- Every interior node carries the union of the boxes of its two children and
`objectCount = 0`. -/
def InteriorExact (root : BVH_Node) : Prop :=
  ∀ id c0 c1 off cnt ax bb, BVH_Node.mk id c0 c1 off cnt ax bb ∈ root.nodes →
    ¬ (c0 = BVH_Node.null ∧ c1 = BVH_Node.null) →
    ∃ i0 a0 b0 o0 k0 x0 bb0 i1 a1 b1 o1 k1 x1 bb1,
      c0 = BVH_Node.mk i0 a0 b0 o0 k0 x0 bb0 ∧ c1 = BVH_Node.mk i1 a1 b1 o1 k1 x1 bb1 ∧
      bb = getTotalBoundingBox bb0 bb1 ∧ cnt = 0

/-- A builder as the class keeps it between calls: without a root it holds nothing. -/
def BVH_Accelerator.Valid (self : BVH_Accelerator) : Prop :=
  self.root = BVH_Node.null →
    self.items = [] ∧ self.orderedObjects = [] ∧ self.totalNodes = 0

/-! ## Concrete inputs used to instantiate the theorems -/

/-- Two unit boxes side by side on the x axis. -/
def exampleObjects : List BoundingBox :=
  [⟨⟨0, 0, 0⟩, ⟨1, 1, 1⟩⟩, ⟨⟨2, 0, 0⟩, ⟨3, 1, 1⟩⟩]

/-- A builder that holds the completed tree of a build over one unit box. -/
def exampleBuilt : BVH_Accelerator :=
  { items := [BVH_Item.make 0 ⟨⟨0, 0, 0⟩, ⟨1, 1, 1⟩⟩], orderedObjects := [0],
    maxNodeItems := 4, totalNodes := 1,
    root := BVH_Node.mk 0 BVH_Node.null BVH_Node.null 0 1 0 ⟨⟨0, 0, 0⟩, ⟨1, 1, 1⟩⟩,
    tree := [] }

/-! ## Tree extraction and the notions of the second group of properties -/

/-- The field `id` (0 for a null pointer). -/
def BVH_Node.id : BVH_Node → Nat
  | BVH_Node.null => 0
  | BVH_Node.mk i _ _ _ _ _ _ => i

/-- `getBVHSubTree(node)`: the node, and unless `children[0]` is null the list of
`children[0]` followed by the list of `children[1]`; dereferencing a null `node` is a
fault. -/
def getBVHSubTree : BVH_Node → Option (List BVH_Node)
  | BVH_Node.null => none
  | BVH_Node.mk id c0 c1 off cnt ax bb =>
    if c0 = BVH_Node.null then some [BVH_Node.mk id c0 c1 off cnt ax bb]
    else
      match getBVHSubTree c0, getBVHSubTree c1 with
      | some rightTree, some leftTree =>
        some (BVH_Node.mk id c0 c1 off cnt ax bb :: (rightTree ++ leftTree))
      | _, _ => none

/-- `getBVHTree()`. -/
def BVH_Accelerator.getBVHTree (self : BVH_Accelerator) : Option (List BVH_Node) :=
  getBVHSubTree self.root

/-- The descriptors of a segment whose bucket index is `b`, in array order. -/
def bucketMembers (centerBbox : BoundingBox) (dim : Nat) (seg : List BVH_Item) (b : Nat) :
    List BVH_Item :=
  seg.filter fun it => decide (bucketOf centerBbox dim it = (b : Int))

/-- The cost of splitting after bucket `i` as the specification words it: `leftCount` and
`leftBox` are the count and the union of buckets `0..i`, `rightCount` and `rightBox` those
of buckets `i+1..11`. -/
def specCost (buckets : Nat → BucketInfo) (bbox : BoundingBox) (i : Nat) : FloatVal :=
  let leftCount := ((List.range' 0 (i + 1)).map fun j => (buckets j).count).sum
  let leftBox := (List.range' 1 i).foldl
    (fun b j => getTotalBoundingBox b (buckets j).boundingBox) (buckets 0).boundingBox
  let rightCount :=
    ((List.range' (i + 1) (nBuckets - (i + 1))).map fun j => (buckets j).count).sum
  let rightBox := (List.range' (i + 2) (nBuckets - (i + 2))).foldl
    (fun b j => getTotalBoundingBox b (buckets j).boundingBox) (buckets (i + 1)).boundingBox
  FloatVal.addConst (1 / 8)
    (FloatVal.div
      ((leftCount : ℚ) * leftBox.surfaceArea + (rightCount : ℚ) * rightBox.surfaceArea)
      bbox.surfaceArea)

/-- Five unit boxes in a row on the x axis, the first at the origin. -/
def lineObjects : List BoundingBox :=
  [⟨⟨0, 0, 0⟩, ⟨1, 1, 1⟩⟩, ⟨⟨1, 0, 0⟩, ⟨2, 1, 1⟩⟩, ⟨⟨2, 0, 0⟩, ⟨3, 1, 1⟩⟩,
   ⟨⟨3, 0, 0⟩, ⟨4, 1, 1⟩⟩, ⟨⟨4, 0, 0⟩, ⟨5, 1, 1⟩⟩]

/-- Five unit boxes in a row on the x axis, away from the origin. -/
def farObjects : List BoundingBox :=
  [⟨⟨10, 10, 10⟩, ⟨11, 11, 11⟩⟩, ⟨⟨11, 10, 10⟩, ⟨12, 11, 11⟩⟩,
   ⟨⟨12, 10, 10⟩, ⟨13, 11, 11⟩⟩, ⟨⟨13, 10, 10⟩, ⟨14, 11, 11⟩⟩,
   ⟨⟨14, 10, 10⟩, ⟨15, 11, 11⟩⟩]

/-- Three unit boxes on the x axis, given out of order. -/
def threeObjects : List BoundingBox :=
  [⟨⟨3, 0, 0⟩, ⟨4, 1, 1⟩⟩, ⟨⟨1, 0, 0⟩, ⟨2, 1, 1⟩⟩, ⟨⟨2, 0, 0⟩, ⟨3, 1, 1⟩⟩]

/-! ## Notions used by the third group of properties -/

/-- The comparison `a <= b` of IEEE floats (false whenever an operand is NaN). -/
def FloatVal.le : FloatVal → FloatVal → Bool
  | FloatVal.finite a, FloatVal.finite b => decide (a ≤ b)
  | FloatVal.finite _, FloatVal.posInf => true
  | FloatVal.negInf, FloatVal.finite _ => true
  | FloatVal.negInf, FloatVal.posInf => true
  | FloatVal.negInf, FloatVal.negInf => true
  | FloatVal.posInf, FloatVal.posInf => true
  | _, _ => false

/-- `B` is the union of the non-empty family `l` of boxes: on every axis its lower face is
the least lower face and its upper face the greatest upper face of the members. -/
def IsUnionOf (B : BoundingBox) (l : List BoundingBox) : Prop :=
  ∀ k, (∀ b ∈ l, B.Pmin.get k ≤ b.Pmin.get k) ∧ (∃ b ∈ l, b.Pmin.get k = B.Pmin.get k) ∧
    (∀ b ∈ l, b.Pmax.get k ≤ B.Pmax.get k) ∧ (∃ b ∈ l, b.Pmax.get k = B.Pmax.get k)

/-- `Covers` for a build whose activations all run the call for `children[0]` before the
call for `children[1]`. -/
inductive CoversLR (maxNodeItems : Int) :
    BVH_Node → List BVH_Item → Nat → List Nat → Nat → Nat → Prop where
  | leaf (it0 : BVH_Item) (rest : List BVH_Item) (base t : Nat) :
      LeafReason maxNodeItems (it0 :: rest) →
      CoversLR maxNodeItems
        (BVH_Node.mk t BVH_Node.null BVH_Node.null base (it0 :: rest).length 0
          (rest.foldl (fun b it => getTotalBoundingBox b it.boundingBox) it0.boundingBox))
        (it0 :: rest) base ((it0 :: rest).map fun it => it.index) t (t + 1)
  | node (c0 c1 n : BVH_Node) (segL segR : List BVH_Item) (base : Nat)
      (addL addR : List Nat) (t t1 t2 : Nat) :
      CoversLR maxNodeItems c0 segL base addL (t + 1) t1 →
      CoversLR maxNodeItems c1 segR (base + addL.length) addR t1 t2 →
      createNode t c0 c1 = some n →
      CoversLR maxNodeItems n (segL ++ segR) base (addL ++ addR) t t2

/-- The primitives referenced below a node: the entries of the permutation `ordered` in the
ranges `[objectOffset, objectOffset + objectCount)` of its leaves. -/
def BVH_Node.primitives (n : BVH_Node) (ordered : List Nat) : List Nat :=
  n.leaves.flatMap fun L => (ordered.drop L.objectOffset).take L.objectCount

/-- The field `bbox` of a node. -/
def BVH_Node.bbox : BVH_Node → Option BoundingBox
  | BVH_Node.null => none
  | BVH_Node.mk _ _ _ _ _ _ bb => some bb

namespace F32

/-- The largest finite binary32 value, `(2 - 2^-23) * 2^127`. -/
def maxFinite : ℚ := (2 ^ 24 - 1) * 2 ^ 104

/-- An exact result rounded to binary32: to nearest, ties to even, and to an infinity when
the rounded value exceeds the largest finite one. -/
def round (q : ℚ) : FloatVal :=
  if maxFinite < roundFinite q then FloatVal.posInf
  else if roundFinite q < -maxFinite then FloatVal.negInf
  else FloatVal.finite (roundFinite q)

/-- IEEE `a - b`. -/
def sub : FloatVal → FloatVal → FloatVal
  | FloatVal.finite a, FloatVal.finite b => round (a - b)
  | FloatVal.finite _, FloatVal.posInf => FloatVal.negInf
  | FloatVal.finite _, FloatVal.negInf => FloatVal.posInf
  | FloatVal.posInf, FloatVal.finite _ => FloatVal.posInf
  | FloatVal.posInf, FloatVal.negInf => FloatVal.posInf
  | FloatVal.negInf, FloatVal.finite _ => FloatVal.negInf
  | FloatVal.negInf, FloatVal.posInf => FloatVal.negInf
  | _, _ => FloatVal.nan

/-- IEEE `a / b` (a zero counts as `+0`). -/
def div : FloatVal → FloatVal → FloatVal
  | FloatVal.finite a, FloatVal.finite b =>
    if b = 0 then
      if 0 < a then FloatVal.posInf else if a < 0 then FloatVal.negInf else FloatVal.nan
    else round (a / b)
  | FloatVal.finite _, FloatVal.posInf => FloatVal.finite 0
  | FloatVal.finite _, FloatVal.negInf => FloatVal.finite 0
  | FloatVal.posInf, FloatVal.finite b => if 0 ≤ b then FloatVal.posInf else FloatVal.negInf
  | FloatVal.negInf, FloatVal.finite b => if 0 ≤ b then FloatVal.negInf else FloatVal.posInf
  | _, _ => FloatVal.nan

/-- IEEE `a * b` (a zero counts as `+0`). -/
def mul : FloatVal → FloatVal → FloatVal
  | FloatVal.finite a, FloatVal.finite b => round (a * b)
  | FloatVal.finite a, FloatVal.posInf =>
    if 0 < a then FloatVal.posInf else if a < 0 then FloatVal.negInf else FloatVal.nan
  | FloatVal.finite a, FloatVal.negInf =>
    if 0 < a then FloatVal.negInf else if a < 0 then FloatVal.posInf else FloatVal.nan
  | FloatVal.posInf, FloatVal.finite b =>
    if 0 < b then FloatVal.posInf else if b < 0 then FloatVal.negInf else FloatVal.nan
  | FloatVal.negInf, FloatVal.finite b =>
    if 0 < b then FloatVal.negInf else if b < 0 then FloatVal.posInf else FloatVal.nan
  | FloatVal.posInf, FloatVal.posInf => FloatVal.posInf
  | FloatVal.posInf, FloatVal.negInf => FloatVal.negInf
  | FloatVal.negInf, FloatVal.posInf => FloatVal.negInf
  | FloatVal.negInf, FloatVal.negInf => FloatVal.posInf
  | _, _ => FloatVal.nan

/-- The conversion `float → int`: truncation toward zero.  For NaN, an infinity or a value
whose truncation is not an `int`, C++ leaves the behaviour undefined (`none`). -/
def toInt : FloatVal → Option Int
  | FloatVal.finite q =>
    if -(2 : Int) ^ 31 ≤ ftoi q ∧ ftoi q < (2 : Int) ^ 31 then some (ftoi q) else none
  | _ => none

end F32

/-- One component of `BoundingBox::offset(point)` as binary32 arithmetic computes it:
`o = point - Pmin; if (Pmax > Pmin) o /= Pmax - Pmin;`. -/
def offsetF32 (b : BoundingBox) (p : Vec3) (k : Nat) : FloatVal :=
  let o := F32.sub (FloatVal.finite (p.get k)) (FloatVal.finite (b.Pmin.get k))
  if b.Pmax.get k > b.Pmin.get k then
    F32.div o (F32.sub (FloatVal.finite (b.Pmax.get k)) (FloatVal.finite (b.Pmin.get k)))
  else o

/-- The bucket of an item as binary32 arithmetic computes it:
`int b = nBuckets * centerBbox.offset(center)[dim]; if (b == nBuckets) b = nBuckets - 1;`,
`none` when the conversion to `int` is undefined. -/
def bucketOfF32 (centerBbox : BoundingBox) (dim : Nat) (it : BVH_Item) : Option Int :=
  match F32.toInt (F32.mul (FloatVal.finite (nBuckets : ℚ))
      (offsetF32 centerBbox it.center dim)) with
  | none => none
  | some b => some (if b = (nBuckets : Int) then (nBuckets : Int) - 1 else b)

/-- One iteration of the loop of lines 143-151 with the index of `bucketOfF32`; an undefined
index and an index outside `buckets[0..12)` are faults. -/
def addToBucketF32 (centerBbox : BoundingBox) (dim : Nat) (buckets : Nat → BucketInfo)
    (it : BVH_Item) : Option (Nat → BucketInfo) :=
  match bucketOfF32 centerBbox dim it with
  | none => none
  | some b =>
    if 0 ≤ b ∧ b < (nBuckets : Int) then
      some (Function.update buckets b.toNat
        { count := (buckets b.toNat).count + 1,
          boundingBox := getTotalBoundingBox (buckets b.toNat).boundingBox it.boundingBox })
    else none

/-- Lines 140-151 with the index of `bucketOfF32`. -/
def fillBucketsF32 (env : Platform) (centerBbox : BoundingBox) (dim : Nat)
    (items : List BVH_Item) (start end_ : Nat) : Option (Nat → BucketInfo) :=
  forItems items (addToBucketF32 centerBbox dim) (end_ - start) start
    (fun i => { count := 0, boundingBox := env.bucketInit i })

/-- The body of `recursiveBuild(start, end, objects)` up to the recursive calls, as
`buildStep`, with the bucket index of the loop of lines 143-151 and of the predicate of
`std::partition` computed in binary32 (`bucketOfF32`).  The predicate is only evaluated on
descriptors for which the loop has already computed the same index. -/
def buildStepF32 (env : Platform) (objects : List BoundingBox) (maxNodeItems : Int)
    (start end_ : Nat) (st : BuildState) : Except Fault Step :=
  match rangeBounds st.items start end_ with
  | none => Except.error Fault.outOfBounds
  | some bbox =>
    let nItems := end_ - start
    if nItems = 1 then emitLeaf objects start end_ bbox st
    else
      match rangeCenterBounds st.items start end_ with
      | none => Except.error Fault.outOfBounds
      | some centerBbox =>
        let dim := centerBbox.maximumExtent
        if centerBbox.Pmax.get dim = centerBbox.Pmin.get dim then
          emitLeaf objects start end_ bbox st
        else if nItems ≤ 4 then
          let mid := (start + end_) / 2
          let seg := env.nth_element dim (mid - start) (sliceRange st.items start end_)
          Except.ok (Step.split mid st.totalNodes
            { st with items := spliceRange st.items start end_ seg,
                      totalNodes := st.totalNodes + 1 })
        else
          match fillBucketsF32 env centerBbox dim st.items start end_ with
          | none => Except.error Fault.outOfBounds
          | some buckets =>
            let best := findMinCost (sahCost buckets bbox)
            let minCost := best.1
            let minCostSplitBucket := best.2
            let leafCost := FloatVal.finite (nItems : ℚ)
            if (nItems : Int) > maxNodeItems ∨ minCost.lt leafCost = true then
              let r := env.partition
                (fun pi =>
                  match bucketOfF32 centerBbox dim pi with
                  | some b => decide (b ≤ (minCostSplitBucket : Int))
                  | none => false)
                (sliceRange st.items start end_)
              let mid := start + r.2
              Except.ok (Step.split mid st.totalNodes
                { st with items := spliceRange st.items start end_ r.1,
                          totalNodes := st.totalNodes + 1 })
            else emitLeaf objects start end_ bbox st

/-- Five point boxes on the x axis whose centroids span more than the largest finite
binary32 value: x = -3 * 2^126, -1, 0, 1, 3 * 2^126 (all binary32 values). -/
def overflowObjects : List BoundingBox :=
  [⟨⟨-(3 * 2 ^ 126), 0, 0⟩, ⟨-(3 * 2 ^ 126), 0, 0⟩⟩, ⟨⟨-1, 0, 0⟩, ⟨-1, 0, 0⟩⟩,
   ⟨⟨0, 0, 0⟩, ⟨0, 0, 0⟩⟩, ⟨⟨1, 0, 0⟩, ⟨1, 0, 0⟩⟩,
   ⟨⟨3 * 2 ^ 126, 0, 0⟩, ⟨3 * 2 ^ 126, 0, 0⟩⟩]

/-- The reference platform with other contents in the uninitialised bucket boxes: every
`buckets[i].boundingBox` starts as the box [-100, 100]^3. -/
def Platform.dirtyStack : Platform :=
  { Platform.reference with
    bucketInit := fun _ => ⟨⟨-100, -100, -100⟩, ⟨100, 100, 100⟩⟩ }

/-! # Theorems -/

/-! ## Loops over a segment of the working array -/

theorem getElem?_mid (pre seg post : List BVH_Item) (it : BVH_Item) :
    (pre ++ it :: seg ++ post)[pre.length]? = some it := by
  rw [List.append_assoc, List.getElem?_append_right (le_refl _)]
  simp

theorem forItems_segment {σ : Type} (body : σ → BVH_Item → Option σ) (seg : List BVH_Item) :
    ∀ (pre post : List BVH_Item) (acc : σ),
      forItems (pre ++ seg ++ post) body seg.length pre.length acc = seg.foldlM body acc := by
  induction seg with
  | nil => intro pre post acc; simp [forItems]
  | cons it rest ih =>
    intro pre post acc
    have h := ih (pre ++ [it]) post
    simp only [List.length_append, List.length_singleton, List.append_assoc,
      List.singleton_append] at h
    simp only [List.length_cons, forItems]
    have hget : (pre ++ it :: rest ++ post)[pre.length]? = some it := getElem?_mid pre rest post it
    rw [hget]
    cases hb : body acc it with
    | none => simp [List.foldlM, hb]
    | some acc1 =>
      simp only [List.foldlM, hb]
      simpa using h acc1

theorem foldlM_some {σ : Type} (f : σ → BVH_Item → σ) (seg : List BVH_Item) :
    ∀ acc : σ, seg.foldlM (fun b it => some (f b it)) acc = some (seg.foldl f acc) := by
  induction seg with
  | nil => intro acc; rfl
  | cons it rest ih => intro acc; simp [List.foldlM, ih]

theorem rangeBounds_segment (pre rest post : List BVH_Item) (it0 : BVH_Item) :
    rangeBounds (pre ++ it0 :: rest ++ post) pre.length (pre.length + (it0 :: rest).length) =
      some (rest.foldl (fun b it => getTotalBoundingBox b it.boundingBox) it0.boundingBox) := by
  unfold rangeBounds
  rw [getElem?_mid]
  have h := forItems_segment (fun b it => some (getTotalBoundingBox b it.boundingBox)) rest
    (pre ++ [it0]) post it0.boundingBox
  simp only [List.length_append, List.length_singleton, List.append_assoc,
    List.singleton_append] at h
  have e : pre.length + (it0 :: rest).length - (pre.length + 1) = rest.length := by
    simp only [List.length_cons]; omega
  simp only [e]
  rw [foldlM_some] at h
  simpa using h

theorem rangeCenterBounds_segment (pre rest post : List BVH_Item) (it0 : BVH_Item) :
    rangeCenterBounds (pre ++ it0 :: rest ++ post) pre.length
        (pre.length + (it0 :: rest).length) = some (centerBounds it0 rest) := by
  unfold rangeCenterBounds centerBounds
  rw [getElem?_mid]
  have h := forItems_segment (fun b it => some (getTotalBoundingBoxPoint b it.center)) rest
    (pre ++ [it0]) post ⟨it0.center, it0.center⟩
  simp only [List.length_append, List.length_singleton, List.append_assoc,
    List.singleton_append] at h
  have e : pre.length + (it0 :: rest).length - (pre.length + 1) = rest.length := by
    simp only [List.length_cons]; omega
  simp only [e]
  rw [foldlM_some] at h
  simpa using h

theorem sliceRange_segment (pre seg post : List BVH_Item) :
    sliceRange (pre ++ seg ++ post) pre.length (pre.length + seg.length) = seg := by
  simp [sliceRange, List.drop_append, List.take_append]

theorem spliceRange_segment (pre seg post seg1 : List BVH_Item) :
    spliceRange (pre ++ seg ++ post) pre.length (pre.length + seg.length) seg1 =
      pre ++ seg1 ++ post := by
  simp [spliceRange, List.take_append, List.drop_append]

theorem emitLeaf_segment (objects : List BoundingBox) (pre seg post : List BVH_Item)
    (ord : List Nat) (t : Nat) (bbox : BoundingBox) (hok : ItemsOK objects seg) :
    emitLeaf objects pre.length (pre.length + seg.length) bbox ⟨pre ++ seg ++ post, ord, t⟩ =
      Except.ok (Step.leaf
        (BVH_Node.mk t BVH_Node.null BVH_Node.null ord.length seg.length 0 bbox)
        ⟨pre ++ seg ++ post, ord ++ seg.map (fun it => it.index), t + 1⟩) := by
  unfold emitLeaf
  simp only [Nat.add_sub_cancel_left]
  rw [forItems_segment]
  have key : ∀ (s : List BVH_Item), ItemsOK objects s → ∀ acc : List Nat,
      s.foldlM (pushObject objects) acc
        = some (acc ++ s.map (fun it => it.index)) := by
    intro s
    induction s with
    | nil => intro _ acc; simp
    | cons a r ih =>
      intro h acc
      have ha := (h a (List.mem_cons_self a r)).1
      have hr : ItemsOK objects r := fun it hit => h it (List.mem_cons_of_mem a hit)
      simp only [List.foldlM, pushObject, ha]
      simpa [pushObject] using ih hr (acc ++ [a.index])
  rw [key seg hok]
  simp [createLeaf]

/-! ## Componentwise facts about boxes -/

theorem Vec3.get_min (a b : Vec3) (k : Nat) :
    (Vec3.min a b).get k = Min.min (a.get k) (b.get k) := by
  unfold Vec3.min Vec3.get
  split <;> rfl

theorem Vec3.get_max (a b : Vec3) (k : Nat) :
    (Vec3.max a b).get k = Max.max (a.get k) (b.get k) := by
  unfold Vec3.max Vec3.get
  split <;> rfl

theorem Vec3.ext_get (a b : Vec3) (h : ∀ k, a.get k = b.get k) : a = b := by
  have h0 := h 0
  have h1 := h 1
  have h2 := h 2
  simp only [Vec3.get] at h0 h1 h2
  cases a; cases b; simp_all

theorem offset_get (b : BoundingBox) (p : Vec3) (k : Nat) :
    (b.offset p).get k =
      if b.Pmax.get k > b.Pmin.get k then
        (p.get k - b.Pmin.get k) / (b.Pmax.get k - b.Pmin.get k)
      else p.get k - b.Pmin.get k := by
  unfold BoundingBox.offset Vec3.get Vec3.sub
  split <;> simp

theorem pointUnion_Pmin_get (b : BoundingBox) (p : Vec3) (k : Nat) :
    (getTotalBoundingBoxPoint b p).Pmin.get k = Min.min (b.Pmin.get k) (p.get k) := by
  simp [getTotalBoundingBoxPoint, Vec3.get_min]

theorem pointUnion_Pmax_get (b : BoundingBox) (p : Vec3) (k : Nat) :
    (getTotalBoundingBoxPoint b p).Pmax.get k = Max.max (b.Pmax.get k) (p.get k) := by
  simp [getTotalBoundingBoxPoint, Vec3.get_max]

/-- The fold of lines 88-89 keeps every centroid it has seen inside the box, and the faces
of the box are coordinates of the start box or of a centroid seen. -/
theorem centerFold_bounds (k : Nat) (rest : List BVH_Item) :
    ∀ b0 : BoundingBox,
      let cb := rest.foldl (fun b it => getTotalBoundingBoxPoint b it.center) b0
      cb.Pmin.get k ≤ b0.Pmin.get k ∧ b0.Pmax.get k ≤ cb.Pmax.get k ∧
      (∀ it ∈ rest, cb.Pmin.get k ≤ it.center.get k ∧ it.center.get k ≤ cb.Pmax.get k) ∧
      (cb.Pmin.get k = b0.Pmin.get k ∨ ∃ it ∈ rest, it.center.get k = cb.Pmin.get k) ∧
      (cb.Pmax.get k = b0.Pmax.get k ∨ ∃ it ∈ rest, it.center.get k = cb.Pmax.get k) := by
  induction rest with
  | nil => intro b0; simp
  | cons a r ih =>
    intro b0
    have h := ih (getTotalBoundingBoxPoint b0 a.center)
    simp only [List.foldl_cons]
    simp only [pointUnion_Pmin_get, pointUnion_Pmax_get] at h
    obtain ⟨h1, h2, h3, h4, h5⟩ := h
    refine ⟨le_trans h1 (min_le_left _ _), le_trans (le_max_left _ _) h2, ?_, ?_, ?_⟩
    · intro it hit
      rcases List.mem_cons.mp hit with rfl | hr
      · exact ⟨le_trans h1 (min_le_right _ _), le_trans (le_max_right _ _) h2⟩
      · exact h3 it hr
    · rcases h4 with h4 | ⟨it, hit, e⟩
      · rcases min_choice (b0.Pmin.get k) (a.center.get k) with hm | hm
        · left; rw [h4, hm]
        · right; exact ⟨a, List.mem_cons_self _ _, by rw [h4, hm]⟩
      · right; exact ⟨it, List.mem_cons_of_mem _ hit, e⟩
    · rcases h5 with h5 | ⟨it, hit, e⟩
      · rcases max_choice (b0.Pmax.get k) (a.center.get k) with hm | hm
        · left; rw [h5, hm]
        · right; exact ⟨a, List.mem_cons_self _ _, by rw [h5, hm]⟩
      · right; exact ⟨it, List.mem_cons_of_mem _ hit, e⟩

theorem centerBounds_contains (k : Nat) (it0 : BVH_Item) (rest : List BVH_Item) :
    ∀ it ∈ it0 :: rest, (centerBounds it0 rest).Pmin.get k ≤ it.center.get k ∧
      it.center.get k ≤ (centerBounds it0 rest).Pmax.get k := by
  have h := centerFold_bounds k rest ⟨it0.center, it0.center⟩
  obtain ⟨h1, h2, h3, _, _⟩ := h
  intro it hit
  rcases List.mem_cons.mp hit with rfl | hr
  · exact ⟨h1, h2⟩
  · exact h3 it hr

theorem centerBounds_min_attained (k : Nat) (it0 : BVH_Item) (rest : List BVH_Item) :
    ∃ it ∈ it0 :: rest, it.center.get k = (centerBounds it0 rest).Pmin.get k := by
  have h := centerFold_bounds k rest ⟨it0.center, it0.center⟩
  obtain ⟨_, _, _, h4, _⟩ := h
  rcases h4 with h4 | ⟨it, hit, e⟩
  · exact ⟨it0, List.mem_cons_self _ _, h4.symm⟩
  · exact ⟨it, List.mem_cons_of_mem _ hit, e⟩

theorem centerBounds_max_attained (k : Nat) (it0 : BVH_Item) (rest : List BVH_Item) :
    ∃ it ∈ it0 :: rest, it.center.get k = (centerBounds it0 rest).Pmax.get k := by
  have h := centerFold_bounds k rest ⟨it0.center, it0.center⟩
  obtain ⟨_, _, _, _, h5⟩ := h
  rcases h5 with h5 | ⟨it, hit, e⟩
  · exact ⟨it0, List.mem_cons_self _ _, h5.symm⟩
  · exact ⟨it, List.mem_cons_of_mem _ hit, e⟩

theorem centerBounds_ordered (k : Nat) (it0 : BVH_Item) (rest : List BVH_Item) :
    (centerBounds it0 rest).Pmin.get k ≤ (centerBounds it0 rest).Pmax.get k := by
  have h := centerBounds_contains k it0 rest it0 (List.mem_cons_self _ _)
  exact le_trans h.1 h.2

/-- A box with ordered faces is degenerate on its `maximumExtent` axis only if it is a
single point. -/
theorem degenerate_all_axes (b : BoundingBox) (hord : ∀ k, b.Pmin.get k ≤ b.Pmax.get k)
    (hdeg : b.Pmax.get b.maximumExtent = b.Pmin.get b.maximumExtent) :
    ∀ k, b.Pmax.get k = b.Pmin.get k := by
  have hx := hord 0
  have hy := hord 1
  have hz := hord 2
  simp only [Vec3.get] at hx hy hz
  have key : b.Pmax.x = b.Pmin.x ∧ b.Pmax.y = b.Pmin.y ∧ b.Pmax.z = b.Pmin.z := by
    unfold BoundingBox.maximumExtent BoundingBox.diagonal Vec3.sub at hdeg
    simp only [gt_iff_lt] at hdeg
    split_ifs at hdeg with c1 c2
    · simp only [Vec3.get] at hdeg
      obtain ⟨c1a, c1b⟩ := c1
      exfalso; linarith
    · simp only [Vec3.get] at hdeg
      exfalso; linarith
    · simp only [Vec3.get] at hdeg
      have hyz : b.Pmax.y - b.Pmin.y ≤ b.Pmax.z - b.Pmin.z := not_lt.mp c2
      have hy0 : b.Pmax.y = b.Pmin.y := by linarith
      refine ⟨?_, hy0, hdeg⟩
      by_contra hne
      have hxpos : b.Pmin.x < b.Pmax.x := lt_of_le_of_ne hx (fun e => hne e.symm)
      apply c1
      constructor <;> linarith
  intro k
  unfold Vec3.get
  split
  · exact key.1
  · exact key.2.1
  · exact key.2.2

theorem degenerate_same_center (it0 : BVH_Item) (rest : List BVH_Item)
    (hdeg : (centerBounds it0 rest).Pmax.get (centerBounds it0 rest).maximumExtent =
      (centerBounds it0 rest).Pmin.get (centerBounds it0 rest).maximumExtent) :
    ∀ a ∈ it0 :: rest, ∀ b ∈ it0 :: rest, a.center = b.center := by
  have hall := degenerate_all_axes (centerBounds it0 rest)
    (fun k => centerBounds_ordered k it0 rest) hdeg
  have hpt : ∀ a ∈ it0 :: rest, a.center = (centerBounds it0 rest).Pmin := by
    intro a ha
    apply Vec3.ext_get
    intro k
    have h := centerBounds_contains k it0 rest a ha
    have e := hall k
    exact le_antisymm (e ▸ h.2) h.1
  intro a ha b hb
  rw [hpt a ha, hpt b hb]

/-! ## Bucket indices -/

theorem bucketOf_eq (cb : BoundingBox) (dim : Nat) (it : BVH_Item)
    (hlt : cb.Pmin.get dim < cb.Pmax.get dim) (hlo : cb.Pmin.get dim ≤ it.center.get dim) :
    bucketOf cb dim it =
      if ⌊12 * ((it.center.get dim - cb.Pmin.get dim) / (cb.Pmax.get dim - cb.Pmin.get dim))⌋
          = 12 then 11
      else ⌊12 * ((it.center.get dim - cb.Pmin.get dim) /
          (cb.Pmax.get dim - cb.Pmin.get dim))⌋ := by
  have hpos : 0 < cb.Pmax.get dim - cb.Pmin.get dim := by linarith
  have hnum : 0 ≤ it.center.get dim - cb.Pmin.get dim := by linarith
  have ht : 0 ≤ 12 * ((it.center.get dim - cb.Pmin.get dim) /
      (cb.Pmax.get dim - cb.Pmin.get dim)) := by positivity
  unfold bucketOf ftoi
  simp only [offset_get, gt_iff_lt, hlt, if_true, nBuckets]
  norm_num
  have ho : 0 ≤ (it.center.get dim - cb.Pmin.get dim) / (cb.Pmax.get dim - cb.Pmin.get dim) := by
    positivity
  rw [if_pos ho]

theorem bucketOf_range (cb : BoundingBox) (dim : Nat) (it : BVH_Item)
    (hlt : cb.Pmin.get dim < cb.Pmax.get dim) (hlo : cb.Pmin.get dim ≤ it.center.get dim)
    (hhi : it.center.get dim ≤ cb.Pmax.get dim) :
    0 ≤ bucketOf cb dim it ∧ bucketOf cb dim it < 12 := by
  have hpos : 0 < cb.Pmax.get dim - cb.Pmin.get dim := by linarith
  have hnum : 0 ≤ it.center.get dim - cb.Pmin.get dim := by linarith
  have ht : 0 ≤ 12 * ((it.center.get dim - cb.Pmin.get dim) /
      (cb.Pmax.get dim - cb.Pmin.get dim)) := by positivity
  have ho : (it.center.get dim - cb.Pmin.get dim) / (cb.Pmax.get dim - cb.Pmin.get dim) ≤ 1 := by
    rw [div_le_one hpos]; linarith
  have ht12 : 12 * ((it.center.get dim - cb.Pmin.get dim) /
      (cb.Pmax.get dim - cb.Pmin.get dim)) ≤ ((12 : Int) : ℚ) := by
    push_cast; linarith
  have hf0 : 0 ≤ ⌊12 * ((it.center.get dim - cb.Pmin.get dim) /
      (cb.Pmax.get dim - cb.Pmin.get dim))⌋ := Int.floor_nonneg.mpr ht
  have hf12 : ⌊12 * ((it.center.get dim - cb.Pmin.get dim) /
      (cb.Pmax.get dim - cb.Pmin.get dim))⌋ ≤ 12 := by
    have := Int.floor_le_floor ht12
    simpa using this
  rw [bucketOf_eq cb dim it hlt hlo]
  split_ifs with h
  · constructor <;> norm_num
  · constructor
    · exact hf0
    · omega

theorem bucketOf_at_min (cb : BoundingBox) (dim : Nat) (it : BVH_Item)
    (hlt : cb.Pmin.get dim < cb.Pmax.get dim) (hv : it.center.get dim = cb.Pmin.get dim) :
    bucketOf cb dim it = 0 := by
  rw [bucketOf_eq cb dim it hlt (le_of_eq hv.symm), hv]
  simp

theorem bucketOf_at_max (cb : BoundingBox) (dim : Nat) (it : BVH_Item)
    (hlt : cb.Pmin.get dim < cb.Pmax.get dim) (hv : it.center.get dim = cb.Pmax.get dim) :
    bucketOf cb dim it = 11 := by
  have hpos : cb.Pmax.get dim - cb.Pmin.get dim ≠ 0 := by
    have : 0 < cb.Pmax.get dim - cb.Pmin.get dim := by linarith
    exact ne_of_gt this
  rw [bucketOf_eq cb dim it hlt (by rw [hv]; exact le_of_lt hlt), hv, div_self hpos]
  have : ⌊(12 : ℚ) * 1⌋ = 12 := by
    rw [mul_one]
    exact Int.floor_natCast 12
  simp [this]

theorem findMinCost_index (cost : Nat → FloatVal) : (findMinCost cost).2 ≤ 10 := by
  unfold findMinCost
  have key : ∀ (l : List Nat) (acc : FloatVal × Nat), (∀ i ∈ l, i ≤ 10) → acc.2 ≤ 10 →
      (l.foldl (fun (acc : FloatVal × Nat) i =>
        if (cost i).lt acc.1 then (cost i, i) else acc) acc).2 ≤ 10 := by
    intro l
    induction l with
    | nil => intro acc _ h; simpa using h
    | cons a r ih =>
      intro acc hl hacc
      simp only [List.foldl_cons]
      apply ih
      · intro i hi; exact hl i (List.mem_cons_of_mem _ hi)
      · split_ifs
        · exact hl a (List.mem_cons_self _ _)
        · exact hacc
  apply key
  · intro i hi
    simp only [nBuckets, List.mem_range'_1] at hi
    omega
  · simp

theorem fillBuckets_segment (env : Platform) (cb : BoundingBox) (dim : Nat)
    (pre seg post : List BVH_Item)
    (hb : ∀ it ∈ seg, 0 ≤ bucketOf cb dim it ∧ bucketOf cb dim it < 12) :
    ∃ buckets, fillBuckets env cb dim (pre ++ seg ++ post) pre.length
      (pre.length + seg.length) = some buckets := by
  unfold fillBuckets
  simp only [Nat.add_sub_cancel_left]
  rw [forItems_segment]
  have key : ∀ (s : List BVH_Item),
      (∀ it ∈ s, 0 ≤ bucketOf cb dim it ∧ bucketOf cb dim it < 12) →
      ∀ acc, ∃ buckets, s.foldlM (addToBucket cb dim) acc = some buckets := by
    intro s
    induction s with
    | nil => intro _ acc; exact ⟨acc, rfl⟩
    | cons a r ih =>
      intro h acc
      have ha := h a (List.mem_cons_self _ _)
      have hr : ∀ it ∈ r, 0 ≤ bucketOf cb dim it ∧ bucketOf cb dim it < 12 :=
        fun it hit => h it (List.mem_cons_of_mem _ hit)
      have hstep : ∃ acc1, addToBucket cb dim acc a = some acc1 := by
        unfold addToBucket
        simp only [nBuckets]
        rw [if_pos]
        · exact ⟨_, rfl⟩
        · exact ⟨ha.1, by simpa using ha.2⟩
      obtain ⟨acc1, h1⟩ := hstep
      simp only [List.foldlM, h1]
      simpa using ih hr acc1
  exact key seg hb _

/-! ## One activation of `recursiveBuild` on a segment -/

theorem partition_inner (env : Platform) (henv : env.Conforms) (p : BVH_Item → Bool)
    (seg : List BVH_Item) (a b : BVH_Item) (ha : a ∈ seg) (hb : b ∈ seg)
    (hpa : p a = true) (hpb : p b = false) :
    0 < (env.partition p seg).2 ∧ (env.partition p seg).2 < seg.length := by
  have hperm := henv.partition_perm p seg
  have hlen : (env.partition p seg).1.length = seg.length := hperm.length_eq
  have ha1 : a ∈ (env.partition p seg).1 := hperm.mem_iff.mpr ha
  have hb1 : b ∈ (env.partition p seg).1 := hperm.mem_iff.mpr hb
  constructor
  · by_contra h0
    have hk : (env.partition p seg).2 = 0 := by omega
    have := henv.partition_right p seg a (by rw [hk]; simpa using ha1)
    rw [hpa] at this
    exact Bool.noConfusion this
  · by_contra hn
    have hk : seg.length ≤ (env.partition p seg).2 := by omega
    have := henv.partition_left p seg b (by
      rw [List.take_of_length_le (by omega)]; exact hb1)
    rw [hpb] at this
    exact Bool.noConfusion this

theorem buildStep_cases (env : Platform) (henv : env.Conforms) (objects : List BoundingBox)
    (m : Int) (pre post : List BVH_Item) (it0 : BVH_Item) (rest : List BVH_Item)
    (ord : List Nat) (t : Nat) :
    (buildStep env objects m pre.length (pre.length + (it0 :: rest).length)
        ⟨pre ++ it0 :: rest ++ post, ord, t⟩ =
      emitLeaf objects pre.length (pre.length + (it0 :: rest).length)
        (rest.foldl (fun b it => getTotalBoundingBox b it.boundingBox) it0.boundingBox)
        ⟨pre ++ it0 :: rest ++ post, ord, t⟩ ∧
      LeafReason m (it0 :: rest)) ∨
    (∃ seg1 k, buildStep env objects m pre.length (pre.length + (it0 :: rest).length)
        ⟨pre ++ it0 :: rest ++ post, ord, t⟩ =
      Except.ok (Step.split (pre.length + k) t ⟨pre ++ seg1 ++ post, ord, t + 1⟩) ∧
      List.Perm seg1 (it0 :: rest) ∧ 0 < k ∧ k < (it0 :: rest).length) := by
  unfold buildStep
  rw [rangeBounds_segment]
  simp only [Nat.add_sub_cancel_left]
  by_cases h1 : (it0 :: rest).length = 1
  · left
    rw [if_pos h1]
    exact ⟨rfl, Or.inl h1⟩
  · rw [if_neg h1, rangeCenterBounds_segment]
    simp only []
    by_cases hdeg : (centerBounds it0 rest).Pmax.get (centerBounds it0 rest).maximumExtent =
        (centerBounds it0 rest).Pmin.get (centerBounds it0 rest).maximumExtent
    · left
      rw [if_pos hdeg]
      exact ⟨rfl, Or.inr (Or.inl (degenerate_same_center it0 rest hdeg))⟩
    · rw [if_neg hdeg]
      have hlt : (centerBounds it0 rest).Pmin.get (centerBounds it0 rest).maximumExtent <
          (centerBounds it0 rest).Pmax.get (centerBounds it0 rest).maximumExtent :=
        lt_of_le_of_ne (centerBounds_ordered _ it0 rest) (fun e => hdeg e.symm)
      by_cases h4 : (it0 :: rest).length ≤ 4
      · right
        rw [if_pos h4]
        refine ⟨env.nth_element (centerBounds it0 rest).maximumExtent
          ((pre.length + (pre.length + (it0 :: rest).length)) / 2 - pre.length)
          (it0 :: rest), (it0 :: rest).length / 2, ?_, henv.nth_element_perm _ _ _, ?_, ?_⟩
        · rw [sliceRange_segment, spliceRange_segment]
          have e : (pre.length + (pre.length + (it0 :: rest).length)) / 2 =
              pre.length + (it0 :: rest).length / 2 := by omega
          rw [e]
        · simp only [List.length_cons] at h1 ⊢; omega
        · simp only [List.length_cons] at h1 ⊢; omega
      · rw [if_neg h4]
        have hbk : ∀ it ∈ it0 :: rest,
            0 ≤ bucketOf (centerBounds it0 rest) (centerBounds it0 rest).maximumExtent it ∧
            bucketOf (centerBounds it0 rest) (centerBounds it0 rest).maximumExtent it < 12 := by
          intro it hit
          have hc := centerBounds_contains (centerBounds it0 rest).maximumExtent it0 rest it hit
          exact bucketOf_range _ _ it hlt hc.1 hc.2
        obtain ⟨buckets, hfill⟩ := fillBuckets_segment env (centerBounds it0 rest)
          (centerBounds it0 rest).maximumExtent pre (it0 :: rest) post hbk
        rw [hfill]
        simp only []
        split_ifs with hsplit
        · right
          rw [sliceRange_segment, spliceRange_segment]
          refine ⟨_, _, rfl, henv.partition_perm _ _, ?_⟩
          obtain ⟨a, ha, hav⟩ := centerBounds_min_attained
            (centerBounds it0 rest).maximumExtent it0 rest
          obtain ⟨b, hb, hbv⟩ := centerBounds_max_attained
            (centerBounds it0 rest).maximumExtent it0 rest
          have hidx := findMinCost_index (sahCost buckets
            (rest.foldl (fun b it => getTotalBoundingBox b it.boundingBox) it0.boundingBox))
          apply partition_inner env henv _ _ a b ha hb
          · rw [bucketOf_at_min _ _ a hlt hav]
            exact decide_eq_true (by exact_mod_cast Nat.zero_le _)
          · rw [bucketOf_at_max _ _ b hlt hbv]
            apply decide_eq_false
            have : (((findMinCost (sahCost buckets
              (rest.foldl (fun b it => getTotalBoundingBox b it.boundingBox)
                it0.boundingBox))).2 : Nat) : Int) ≤ 10 := by exact_mod_cast hidx
            omega
        · left
          refine ⟨rfl, Or.inr (Or.inr ⟨by omega, ?_⟩)⟩
          push_neg at hsplit
          exact hsplit.1

theorem buildStep_segment (env : Platform) (henv : env.Conforms) (objects : List BoundingBox)
    (m : Int) (pre post : List BVH_Item) (it0 : BVH_Item) (rest : List BVH_Item)
    (ord : List Nat) (t : Nat) (hok : ItemsOK objects (it0 :: rest)) :
    (buildStep env objects m pre.length (pre.length + (it0 :: rest).length)
        ⟨pre ++ it0 :: rest ++ post, ord, t⟩ =
      Except.ok (Step.leaf
        (BVH_Node.mk t BVH_Node.null BVH_Node.null ord.length (it0 :: rest).length 0
          (rest.foldl (fun b it => getTotalBoundingBox b it.boundingBox) it0.boundingBox))
        ⟨pre ++ it0 :: rest ++ post, ord ++ (it0 :: rest).map (fun it => it.index), t + 1⟩) ∧
      LeafReason m (it0 :: rest)) ∨
    (∃ seg1 k, buildStep env objects m pre.length (pre.length + (it0 :: rest).length)
        ⟨pre ++ it0 :: rest ++ post, ord, t⟩ =
      Except.ok (Step.split (pre.length + k) t ⟨pre ++ seg1 ++ post, ord, t + 1⟩) ∧
      List.Perm seg1 (it0 :: rest) ∧ 0 < k ∧ k < (it0 :: rest).length) := by
  rcases buildStep_cases env henv objects m pre post it0 rest ord t with ⟨h, hr⟩ | h
  · left
    refine ⟨?_, hr⟩
    rw [h]
    exact emitLeaf_segment objects pre (it0 :: rest) post ord t _ hok
  · right
    exact h

/-! ## The recursion -/

theorem createNode_some (id : Nat) (c0 c1 n : BVH_Node) (h : createNode id c0 c1 = some n) :
    ∃ i0 a0 b0 o0 k0 x0 bb0 i1 a1 b1 o1 k1 x1 bb1,
      c0 = BVH_Node.mk i0 a0 b0 o0 k0 x0 bb0 ∧ c1 = BVH_Node.mk i1 a1 b1 o1 k1 x1 bb1 ∧
      n = BVH_Node.mk id c0 c1 0 0 0 (getTotalBoundingBox bb0 bb1) := by
  unfold createNode at h
  split at h
  · rename_i i0 a0 b0 o0 k0 x0 bb0 i1 a1 b1 o1 k1 x1 bb1
    exact ⟨i0, a0, b0, o0, k0, x0, bb0, i1, a1, b1, o1, k1, x1, bb1, rfl, rfl,
      (Option.some.inj h).symm⟩
  · exact Option.noConfusion h

theorem Covers.not_null {m : Int} {node : BVH_Node} {seg : List BVH_Item} {base : Nat}
    {added : List Nat} {t t1 : Nat} (h : Covers m node seg base added t t1) :
    ∃ i a b o k x bb, node = BVH_Node.mk i a b o k x bb := by
  cases h with
  | leaf it0 rest base t hr => exact ⟨_, _, _, _, _, _, _, rfl⟩
  | nodeLR c0 c1 n segL segR base addL addR t t1 t2 h0 h1 hc =>
    obtain ⟨_, _, _, _, _, _, _, _, _, _, _, _, _, _, _, _, e⟩ := createNode_some _ _ _ _ hc
    exact ⟨_, _, _, _, _, _, _, e⟩
  | nodeRL c0 c1 n segL segR base addL addR t t1 t2 h0 h1 hc =>
    obtain ⟨_, _, _, _, _, _, _, _, _, _, _, _, _, _, _, _, e⟩ := createNode_some _ _ _ _ hc
    exact ⟨_, _, _, _, _, _, _, e⟩

theorem createNode_of_covers {m : Int} {c0 c1 : BVH_Node} {s0 s1 : List BVH_Item}
    {b0 b1 : Nat} {a0 a1 : List Nat} {t0 t0e t1 t1e : Nat} (id : Nat)
    (h0 : Covers m c0 s0 b0 a0 t0 t0e) (h1 : Covers m c1 s1 b1 a1 t1 t1e) :
    ∃ n, createNode id c0 c1 = some n := by
  obtain ⟨_, _, _, _, _, _, _, e0⟩ := h0.not_null
  obtain ⟨_, _, _, _, _, _, _, e1⟩ := h1.not_null
  subst e0 e1
  exact ⟨_, rfl⟩

theorem ItemsOK.of_perm {objects : List BoundingBox} {s s1 : List BVH_Item}
    (h : ItemsOK objects s) (hp : List.Perm s1 s) : ItemsOK objects s1 :=
  fun it hit => h it (hp.mem_iff.mp hit)

theorem ItemsOK.of_subset {objects : List BoundingBox} {s s1 : List BVH_Item}
    (h : ItemsOK objects s) (hs : ∀ it ∈ s1, it ∈ s) : ItemsOK objects s1 :=
  fun it hit => h it (hs it hit)

/-- Every activation of `recursiveBuild` on a non-empty segment of well-formed descriptors
returns, given fuel for the length of the segment: it permutes the segment in place,
leaves the rest of the array alone, appends to the permutation and returns a tree that
covers the segment. -/
theorem recursiveBuild_segment (env : Platform) (henv : env.Conforms)
    (objects : List BoundingBox) (m : Int) :
    ∀ (fuel start end_ : Nat) (items : List BVH_Item) (ord : List Nat) (t : Nat)
      (pre seg post : List BVH_Item),
      items = pre ++ seg ++ post → start = pre.length → end_ = start + seg.length →
      seg ≠ [] → seg.length ≤ fuel → ItemsOK objects seg →
      ∃ node seg1 added t1,
        recursiveBuild env objects m fuel start end_ ⟨items, ord, t⟩ =
          Except.ok (node, ⟨pre ++ seg1 ++ post, ord ++ added, t1⟩) ∧
        List.Perm seg1 seg ∧ Covers m node seg1 ord.length added t t1 := by
  intro fuel
  induction fuel with
  | zero =>
    intro start end_ items ord t pre seg post _ _ _ hne hlen _
    exfalso
    exact hne (List.length_eq_zero.mp (Nat.le_zero.mp hlen))
  | succ fuel ih =>
    intro start end_ items ord t pre seg post hitems hstart hend hne hlen hok
    subst hitems hstart hend
    cases seg with
    | nil => exact absurd rfl hne
    | cons it0 rest =>
      rcases buildStep_segment env henv objects m pre post it0 rest ord t hok with
        ⟨hstep, hreason⟩ | ⟨seg1, k, hstep, hperm, hk0, hklt⟩
      · refine ⟨_, it0 :: rest, _, t + 1, ?_, List.Perm.refl _,
          Covers.leaf it0 rest ord.length t hreason⟩
        simp only [recursiveBuild, hstep]
      · have hlen1 : seg1.length = (it0 :: rest).length := hperm.length_eq
        have hsplit : seg1 = seg1.take k ++ seg1.drop k := (List.take_append_drop k seg1).symm
        have hLlen : (seg1.take k).length = k := by
          rw [List.length_take]; simp only [List.length_cons] at *; omega
        have hRlen : (seg1.drop k).length = (it0 :: rest).length - k := by
          rw [List.length_drop]; simp only [List.length_cons] at *; omega
        have hLne : seg1.take k ≠ [] := by
          intro e; rw [e] at hLlen; simp only [List.length_nil] at hLlen; omega
        have hRne : seg1.drop k ≠ [] := by
          intro e; rw [e] at hRlen; simp only [List.length_nil, List.length_cons] at *; omega
        have hok1 : ItemsOK objects seg1 := hok.of_perm hperm
        have hokL : ItemsOK objects (seg1.take k) :=
          hok1.of_subset (fun it h => List.mem_of_mem_take h)
        have hokR : ItemsOK objects (seg1.drop k) :=
          hok1.of_subset (fun it h => List.mem_of_mem_drop h)
        simp only [recursiveBuild, hstep]
        cases hord : env.leftFirst pre.length (pre.length + (it0 :: rest).length) with
        | true =>
          simp only [if_true]
          obtain ⟨c0, segL1, addL, t1, hrun0, hpermL, hcov0⟩ :=
            ih pre.length (pre.length + k) (pre ++ seg1 ++ post) ord (t + 1)
              pre (seg1.take k) (seg1.drop k ++ post)
              (by rw [List.append_assoc pre, List.append_assoc pre, ← List.append_assoc (seg1.take k),
                    List.take_append_drop])
              rfl (by rw [hLlen]) hLne (by simp only [List.length_cons] at *; omega) hokL
          rw [hrun0]
          simp only []
          obtain ⟨c1, segR1, addR, t2, hrun1, hpermR, hcov1⟩ :=
            ih (pre.length + k) (pre.length + (it0 :: rest).length)
              (pre ++ segL1 ++ (seg1.drop k ++ post)) (ord ++ addL) t1
              (pre ++ segL1) (seg1.drop k) post
              (by simp only [List.append_assoc])
              (by rw [List.length_append, hpermL.length_eq, hLlen])
              (by rw [hRlen]; simp only [List.length_cons] at *; omega) hRne (by simp only [List.length_cons] at *; omega) hokR
          rw [hrun1]
          simp only []
          have hcov1b : Covers m c1 segR1 (ord.length + addL.length) addR t1 t2 := by
            rw [List.length_append] at hcov1; exact hcov1
          obtain ⟨n, hn⟩ := createNode_of_covers t hcov0 hcov1b
          rw [hn]
          refine ⟨n, segL1 ++ segR1, addL ++ addR, t2, ?_, ?_, ?_⟩
          · simp only [List.append_assoc]
          · rw [hsplit] at hperm
            exact (List.Perm.append hpermL hpermR).trans hperm
          · exact Covers.nodeLR c0 c1 n segL1 segR1 ord.length addL addR t t1 t2 hcov0 hcov1b hn
        | false =>
          simp only [Bool.false_eq_true, if_false]
          obtain ⟨c1, segR1, addR, t1, hrun1, hpermR, hcov1⟩ :=
            ih (pre.length + k) (pre.length + (it0 :: rest).length)
              (pre ++ seg1 ++ post) ord (t + 1)
              (pre ++ seg1.take k) (seg1.drop k) post
              (by rw [List.append_assoc pre (seg1.take k), List.take_append_drop])
              (by rw [List.length_append, hLlen])
              (by rw [hRlen]; simp only [List.length_cons] at *; omega) hRne (by simp only [List.length_cons] at *; omega) hokR
          rw [hrun1]
          simp only []
          obtain ⟨c0, segL1, addL, t2, hrun0, hpermL, hcov0⟩ :=
            ih pre.length (pre.length + k) (pre ++ seg1.take k ++ segR1 ++ post)
              (ord ++ addR) t1
              pre (seg1.take k) (segR1 ++ post)
              (by simp only [List.append_assoc])
              rfl (by rw [hLlen]) hLne (by simp only [List.length_cons] at *; omega) hokL
          rw [hrun0]
          simp only []
          have hcov0b : Covers m c0 segL1 (ord.length + addR.length) addL t1 t2 := by
            rw [List.length_append] at hcov0; exact hcov0
          obtain ⟨n, hn⟩ := createNode_of_covers t hcov0b hcov1
          rw [hn]
          refine ⟨n, segL1 ++ segR1, addR ++ addL, t2, ?_, ?_, ?_⟩
          · simp only [List.append_assoc]
          · rw [hsplit] at hperm
            exact (List.Perm.append hpermL hpermR).trans hperm
          · exact Covers.nodeRL c0 c1 n segL1 segR1 ord.length addL addR t t1 t2 hcov1 hcov0b hn

/-! ## Consequences of `Covers` -/

theorem isLeaf_children (id : Nat) (c0 c1 : BVH_Node) (off cnt ax : Nat) (bb : BoundingBox)
    (h : BVH_Node.isLeaf (BVH_Node.mk id c0 c1 off cnt ax bb) = true) :
    c0 = BVH_Node.null ∧ c1 = BVH_Node.null := by
  cases c0 <;> cases c1 <;> simp [BVH_Node.isLeaf] at h ⊢

theorem isLeaf_of_child0 (id : Nat) (c0 c1 : BVH_Node) (off cnt ax : Nat) (bb : BoundingBox)
    (h : c0 ≠ BVH_Node.null) :
    BVH_Node.isLeaf (BVH_Node.mk id c0 c1 off cnt ax bb) = false := by
  cases c0 with
  | null => exact absurd rfl h
  | mk _ _ _ _ _ _ _ => rfl

theorem leaves_leaf (id off cnt ax : Nat) (bb : BoundingBox) :
    BVH_Node.leaves (BVH_Node.mk id BVH_Node.null BVH_Node.null off cnt ax bb) =
      [BVH_Node.mk id BVH_Node.null BVH_Node.null off cnt ax bb] := by
  simp [BVH_Node.leaves, BVH_Node.nodes, BVH_Node.isLeaf]

theorem leaves_interior (id : Nat) (c0 c1 : BVH_Node) (off cnt ax : Nat) (bb : BoundingBox)
    (h : c0 ≠ BVH_Node.null) :
    BVH_Node.leaves (BVH_Node.mk id c0 c1 off cnt ax bb) =
      BVH_Node.leaves c0 ++ BVH_Node.leaves c1 := by
  simp [BVH_Node.leaves, BVH_Node.nodes, isLeaf_of_child0 id c0 c1 off cnt ax bb h]

theorem leafSpans_fst (n : BVH_Node) :
    ∀ a, (BVH_Node.leafSpans n a).map Prod.fst = BVH_Node.leaves n := by
  induction n with
  | null => intro a; simp [BVH_Node.leafSpans, BVH_Node.leaves, BVH_Node.nodes]
  | mk id c0 c1 off cnt ax bb ih0 ih1 =>
    intro a
    by_cases hl : BVH_Node.isLeaf (BVH_Node.mk id c0 c1 off cnt ax bb) = true
    · obtain ⟨e0, e1⟩ := isLeaf_children _ _ _ _ _ _ _ hl
      subst e0 e1
      simp [BVH_Node.leafSpans, BVH_Node.isLeaf, leaves_leaf]
    · have hl2 : BVH_Node.isLeaf (BVH_Node.mk id c0 c1 off cnt ax bb) = false := by
        simpa using hl
      simp only [BVH_Node.leafSpans, hl2, Bool.false_eq_true, if_false, List.map_append,
        ih0, ih1]
      simp [BVH_Node.leaves, BVH_Node.nodes, hl2]

theorem Covers.perm {m : Int} {node : BVH_Node} {seg : List BVH_Item} {base : Nat}
    {added : List Nat} {t t1 : Nat} (h : Covers m node seg base added t t1) :
    List.Perm added (seg.map fun it => it.index) := by
  induction h with
  | leaf it0 rest base t hr => exact List.Perm.refl _
  | nodeLR c0 c1 n segL segR base addL addR t t1 t2 h0 h1 hc ih0 ih1 =>
    rw [List.map_append]
    exact List.Perm.append ih0 ih1
  | nodeRL c0 c1 n segL segR base addL addR t t1 t2 h1 h0 hc ih1 ih0 =>
    rw [List.map_append]
    exact List.perm_append_comm.trans (List.Perm.append ih0 ih1)

theorem Covers.length_eq {m : Int} {node : BVH_Node} {seg : List BVH_Item} {base : Nat}
    {added : List Nat} {t t1 : Nat} (h : Covers m node seg base added t t1) :
    added.length = seg.length := by
  have := h.perm.length_eq
  simpa using this

theorem Covers.primCount_eq {m : Int} {node : BVH_Node} {seg : List BVH_Item} {base : Nat}
    {added : List Nat} {t t1 : Nat} (h : Covers m node seg base added t t1) :
    node.primCount = seg.length := by
  induction h with
  | leaf it0 rest base t hr => simp [BVH_Node.primCount]
  | nodeLR c0 c1 n segL segR base addL addR t t1 t2 h0 h1 hc ih0 ih1 =>
    obtain ⟨_, _, _, _, _, _, _, _, _, _, _, _, _, _, _, _, e⟩ := createNode_some _ _ _ _ hc
    subst e
    simp [BVH_Node.primCount, ih0, ih1]
  | nodeRL c0 c1 n segL segR base addL addR t t1 t2 h1 h0 hc ih1 ih0 =>
    obtain ⟨_, _, _, _, _, _, _, _, _, _, _, _, _, _, _, _, e⟩ := createNode_some _ _ _ _ hc
    subst e
    simp [BVH_Node.primCount, ih0, ih1]

theorem Covers.spans {m : Int} {node : BVH_Node} {seg : List BVH_Item} {base : Nat}
    {added : List Nat} {t t1 : Nat} (h : Covers m node seg base added t t1) :
    ∀ s0, ∀ p ∈ BVH_Node.leafSpans node s0, LeafBlock m seg base added p.1 p.2 s0 := by
  induction h with
  | leaf it0 rest base t hr =>
    intro s0 p hp
    simp only [BVH_Node.leafSpans, BVH_Node.isLeaf, if_true, List.mem_singleton] at hp
    subst hp
    exact ⟨[], it0, rest, [], [], [], t, by simp, by simp, by simp, by simp, hr⟩
  | nodeLR c0 c1 n segL segR base addL addR t t1 t2 h0 h1 hc ih0 ih1 =>
    intro s0 p hp
    obtain ⟨_, _, _, _, _, _, _, _, _, _, _, _, _, _, e0, _, e⟩ := createNode_some _ _ _ _ hc
    have hnl : BVH_Node.isLeaf n = false := by
      rw [e]; exact isLeaf_of_child0 _ _ _ _ _ _ _ (by rw [e0]; exact fun h => BVH_Node.noConfusion h)
    rw [e] at hp hnl
    simp only [BVH_Node.leafSpans, hnl, Bool.false_eq_true, if_false, List.mem_append] at hp
    rcases hp with hp | hp
    · obtain ⟨ps, i0, r, ss, pa, sa, id, hs, ha, had, hL, hr⟩ := ih0 s0 p hp
      exact ⟨ps, i0, r, ss ++ segR, pa, sa ++ addR, id, by rw [hs]; simp, ha,
        by rw [had]; simp, hL, hr⟩
    · obtain ⟨ps, i0, r, ss, pa, sa, id, hs, ha, had, hL, hr⟩ := ih1 _ p hp
      refine ⟨segL ++ ps, i0, r, ss, addL ++ pa, sa, id, by rw [hs]; simp, ?_,
        by rw [had]; simp, ?_, hr⟩
      · rw [ha, h0.primCount_eq, List.length_append]; omega
      · rw [hL, List.length_append, Nat.add_assoc]
  | nodeRL c0 c1 n segL segR base addL addR t t1 t2 h1 h0 hc ih1 ih0 =>
    intro s0 p hp
    obtain ⟨_, _, _, _, _, _, _, _, _, _, _, _, _, _, e0, _, e⟩ := createNode_some _ _ _ _ hc
    have hnl : BVH_Node.isLeaf n = false := by
      rw [e]; exact isLeaf_of_child0 _ _ _ _ _ _ _ (by rw [e0]; exact fun h => BVH_Node.noConfusion h)
    rw [e] at hp hnl
    simp only [BVH_Node.leafSpans, hnl, Bool.false_eq_true, if_false, List.mem_append] at hp
    rcases hp with hp | hp
    · obtain ⟨ps, i0, r, ss, pa, sa, id, hs, ha, had, hL, hr⟩ := ih0 s0 p hp
      refine ⟨ps, i0, r, ss ++ segR, addR ++ pa, sa, id, by rw [hs]; simp, ha,
        by rw [had]; simp, ?_, hr⟩
      rw [hL, List.length_append, Nat.add_assoc]
    · obtain ⟨ps, i0, r, ss, pa, sa, id, hs, ha, had, hL, hr⟩ := ih1 _ p hp
      refine ⟨segL ++ ps, i0, r, ss, pa, sa ++ addL, id, by rw [hs]; simp, ?_,
        by rw [had]; simp, hL, hr⟩
      rw [ha, h0.primCount_eq, List.length_append]; omega

theorem Covers.positions {m : Int} {node : BVH_Node} {seg : List BVH_Item} {base : Nat}
    {added : List Nat} {t t1 : Nat} (h : Covers m node seg base added t t1) :
    List.Perm (node.leaves.flatMap fun L => List.range' L.objectOffset L.objectCount)
      (List.range' base added.length) := by
  induction h with
  | leaf it0 rest base t hr =>
    rw [leaves_leaf]
    simp [BVH_Node.objectOffset, BVH_Node.objectCount]
  | nodeLR c0 c1 n segL segR base addL addR t t1 t2 h0 h1 hc ih0 ih1 =>
    obtain ⟨_, _, _, _, _, _, _, _, _, _, _, _, _, _, e0, _, e⟩ := createNode_some _ _ _ _ hc
    rw [e, leaves_interior _ _ _ _ _ _ _ (by rw [e0]; exact fun h => BVH_Node.noConfusion h),
      List.flatMap_append, List.length_append]
    have := List.range'_append base addL.length addR.length 1
    rw [Nat.one_mul] at this
    rw [Nat.add_comm addL.length, ← this]
    exact List.Perm.append ih0 ih1
  | nodeRL c0 c1 n segL segR base addL addR t t1 t2 h1 h0 hc ih1 ih0 =>
    obtain ⟨_, _, _, _, _, _, _, _, _, _, _, _, _, _, e0, _, e⟩ := createNode_some _ _ _ _ hc
    rw [e, leaves_interior _ _ _ _ _ _ _ (by rw [e0]; exact fun h => BVH_Node.noConfusion h),
      List.flatMap_append, List.length_append]
    have := List.range'_append base addR.length addL.length 1
    rw [Nat.one_mul] at this
    rw [Nat.add_comm addR.length, ← this]
    exact List.perm_append_comm.trans (List.Perm.append ih1 ih0)

theorem Covers.interiorExact {m : Int} {node : BVH_Node} {seg : List BVH_Item} {base : Nat}
    {added : List Nat} {t t1 : Nat} (h : Covers m node seg base added t t1) :
    InteriorExact node := by
  induction h with
  | leaf it0 rest base t hr =>
    intro id c0 c1 off cnt ax bb hmem hint
    simp only [BVH_Node.nodes, List.append_nil, List.mem_singleton] at hmem
    injection hmem with _ h0 h1
    exact absurd ⟨h0, h1⟩ hint
  | nodeLR c0 c1 n segL segR base addL addR t t1 t2 h0 h1 hc ih0 ih1 =>
    intro id d0 d1 off cnt ax bb hmem hint
    obtain ⟨i0, a0, b0, o0, k0, x0, bb0, i1, a1, b1, o1, k1, x1, bb1, e0, e1, e⟩ :=
      createNode_some _ _ _ _ hc
    rw [e] at hmem
    simp only [BVH_Node.nodes, List.mem_cons, List.mem_append] at hmem
    rcases hmem with hm | hm | hm
    · injection hm with _ hd0 hd1 _ hcnt _ hbb
      exact ⟨i0, a0, b0, o0, k0, x0, bb0, i1, a1, b1, o1, k1, x1, bb1,
        hd0.trans e0, hd1.trans e1, hbb, hcnt⟩
    · exact ih0 _ _ _ _ _ _ _ hm hint
    · exact ih1 _ _ _ _ _ _ _ hm hint
  | nodeRL c0 c1 n segL segR base addL addR t t1 t2 h1 h0 hc ih1 ih0 =>
    intro id d0 d1 off cnt ax bb hmem hint
    obtain ⟨i0, a0, b0, o0, k0, x0, bb0, i1, a1, b1, o1, k1, x1, bb1, e0, e1, e⟩ :=
      createNode_some _ _ _ _ hc
    rw [e] at hmem
    simp only [BVH_Node.nodes, List.mem_cons, List.mem_append] at hmem
    rcases hmem with hm | hm | hm
    · injection hm with _ hd0 hd1 _ hcnt _ hbb
      exact ⟨i0, a0, b0, o0, k0, x0, bb0, i1, a1, b1, o1, k1, x1, bb1,
        hd0.trans e0, hd1.trans e1, hbb, hcnt⟩
    · exact ih0 _ _ _ _ _ _ _ hm hint
    · exact ih1 _ _ _ _ _ _ _ hm hint

open BVH_Accelerator

/-! ## The reference platform conforms -/

theorem Platform.reference_conforms : Platform.reference.Conforms where
  nth_element_perm := by
    intro dim nth seg
    exact List.perm_insertionSort _ seg
  nth_element_ordered := by
    intro dim nth seg i j a b hi hj ha hb
    have hs : List.Sorted (fun a b : BVH_Item => a.center.get dim ≤ b.center.get dim)
        (List.insertionSort (fun a b : BVH_Item => a.center.get dim ≤ b.center.get dim) seg) := by
      haveI : IsTotal BVH_Item (fun a b => a.center.get dim ≤ b.center.get dim) :=
        ⟨fun a b => le_total _ _⟩
      haveI : IsTrans BVH_Item (fun a b => a.center.get dim ≤ b.center.get dim) :=
        ⟨fun a b c h1 h2 => le_trans h1 h2⟩
      exact List.sorted_insertionSort _ seg
    obtain ⟨hi', ea⟩ := List.getElem?_eq_some.mp ha
    obtain ⟨hj', eb⟩ := List.getElem?_eq_some.mp hb
    have hij : i < j := by omega
    have := List.pairwise_iff_getElem.mp hs i j hi' hj' hij
    show ¬ (b.center.get dim < a.center.get dim)
    rw [← ea, ← eb]
    exact not_lt.mpr this
  partition_perm := by
    intro p seg
    exact List.filter_append_perm p seg
  partition_bound := by
    intro p seg
    exact List.length_filter_le p seg
  partition_left := by
    intro p seg x hx
    simp only [Platform.reference, List.take_left] at hx
    exact (List.mem_filter.mp hx).2
  partition_right := by
    intro p seg x hx
    simp only [Platform.reference, List.drop_left] at hx
    have := (List.mem_filter.mp hx).2
    simpa using this

/-! ## `buildTree` -/

theorem loadItems_index (objects : List BoundingBox) :
    ∀ i, (loadItems i objects).map (fun it => it.index) = List.range' i objects.length := by
  induction objects with
  | nil => intro i; rfl
  | cons b bs ih =>
    intro i
    simp [loadItems, BVH_Item.make, ih (i + 1), List.range'_succ]

theorem loadItems_boxes (objects : List BoundingBox) :
    ∀ i, (loadItems i objects).map (fun it => it.boundingBox) = objects := by
  induction objects with
  | nil => intro i; rfl
  | cons b bs ih =>
    intro i
    simp [loadItems, BVH_Item.make, ih (i + 1)]

theorem loadItems_length (objects : List BoundingBox) (i : Nat) :
    (loadItems i objects).length = objects.length := by
  have := congrArg List.length (loadItems_index objects i)
  simpa using this

theorem loadItems_ok (objects : List BoundingBox) :
    ∀ (pre : List BoundingBox), ItemsOK (pre ++ objects) (loadItems pre.length objects) := by
  induction objects with
  | nil => intro pre it hit; simp [loadItems] at hit
  | cons b bs ih =>
    intro pre it hit
    simp only [loadItems, List.mem_cons] at hit
    rcases hit with rfl | hr
    · constructor
      · show (pre ++ b :: bs)[pre.length]? = some b
        rw [List.getElem?_append_right (le_refl _)]
        simp
      · rfl
    · have := ih (pre ++ [b]) it (by simpa using hr)
      simpa using this

theorem loadItems_ok_zero (objects : List BoundingBox) :
    ItemsOK objects (loadItems 0 objects) := by
  simpa using loadItems_ok objects []

theorem prepare_buildState (self : BVH_Accelerator) (hv : self.Valid)
    (objects : List BoundingBox) (m : Int) :
    (self.prepare objects m).buildState = ⟨loadItems 0 objects, [], 0⟩ := by
  unfold BVH_Accelerator.prepare BVH_Accelerator.buildState
  by_cases hr : self.root = BVH_Node.null
  · obtain ⟨h1, h2, h3⟩ := hv hr
    simp [hr, h1, h2, h3]
  · simp [hr]

/-- A build over a non-empty input completes, given fuel for the number of primitives, and
its root covers the final working array. -/
theorem buildTree_covers (env : Platform) (henv : env.Conforms) (self : BVH_Accelerator)
    (hv : self.Valid) (objects : List BoundingBox) (m : Int) (fuel : Nat)
    (hne : objects ≠ []) (hfuel : objects.length ≤ fuel) :
    ∃ node seg1 added t1,
      buildTree env self objects m fuel =
        Except.ok { items := seg1, orderedObjects := added, maxNodeItems := m,
                    totalNodes := t1, root := node, tree := (self.prepare objects m).tree } ∧
      List.Perm seg1 (loadItems 0 objects) ∧ Covers m node seg1 0 added 0 t1 := by
  have hne2 : loadItems 0 objects ≠ [] := by
    intro e
    have := loadItems_length objects 0
    rw [e] at this
    exact hne (List.length_eq_zero.mp this.symm)
  obtain ⟨node, seg1, added, t1, hrun, hperm, hcov⟩ :=
    recursiveBuild_segment env henv objects m fuel 0 objects.length (loadItems 0 objects) [] 0
      [] (loadItems 0 objects) [] (by simp) rfl (by simp [loadItems_length]) hne2
      (by rw [loadItems_length]; exact hfuel) (loadItems_ok_zero objects)
  refine ⟨node, seg1, added, t1, ?_, hperm, by simpa using hcov⟩
  unfold buildTree
  simp only [prepare_buildState self hv objects m, hrun]
  simp [BVH_Accelerator.withBuildState, BVH_Accelerator.prepare]

theorem Covers.leaf_block {m : Int} {node : BVH_Node} {seg : List BVH_Item} {base : Nat}
    {added : List Nat} {t t1 : Nat} (h : Covers m node seg base added t t1)
    (L : BVH_Node) (hmem : L ∈ node.leaves) :
    ∃ a, (L, a) ∈ node.leafSpans 0 ∧ LeafBlock m seg base added L a 0 := by
  rw [← leafSpans_fst node 0] at hmem
  obtain ⟨p, hp, e⟩ := List.mem_map.mp hmem
  refine ⟨p.2, ?_, ?_⟩
  · rw [← e]; exact hp
  · rw [← e]; exact h.spans 0 p hp

theorem mem_leaves_of_mem_nodes (root : BVH_Node) (id off cnt ax : Nat) (bb : BoundingBox)
    (h : BVH_Node.mk id BVH_Node.null BVH_Node.null off cnt ax bb ∈ root.nodes) :
    BVH_Node.mk id BVH_Node.null BVH_Node.null off cnt ax bb ∈ root.leaves :=
  List.mem_filter.mpr ⟨h, rfl⟩

theorem foldl_union_spec (bs : List BoundingBox) :
    ∀ b, bs.foldl getTotalBoundingBox b = specUnion b bs := by
  induction bs with
  | nil => intro b; rfl
  | cons c cs ih =>
    intro b
    rw [List.foldl_cons, ih]
    simp [specUnion, getTotalBoundingBox, Vec3.min, Vec3.max]

theorem drop_take_block {α : Type} (pa blk sa : List α) :
    ((pa ++ blk ++ sa).drop pa.length).take blk.length = blk := by
  rw [List.append_assoc, List.drop_left, List.take_left]

theorem getElem?_block {α : Type} (pa blk sa : List α) (k : Nat) (hk : k < blk.length) :
    (pa ++ blk ++ sa)[pa.length + k]? = blk[k]? := by
  rw [List.append_assoc, List.getElem?_append_right (Nat.le_add_right _ _),
    Nat.add_sub_cancel_left, List.getElem?_append_left hk]

/-! ## What one activation does when it emits a leaf or splits -/

theorem forItems_push (objects : List BoundingBox) (items : List BVH_Item) :
    ∀ (n i : Nat) (acc r : List Nat),
      forItems items (pushObject objects) n i acc = some r →
      r = acc ++ ((items.drop i).take n).map (fun it => it.index) := by
  intro n
  induction n with
  | zero => intro i acc r h; simp [forItems] at h; simp [h]
  | succ n ih =>
    intro i acc r h
    unfold forItems at h
    split at h
    · exact Option.noConfusion h
    · rename_i it hit
      split at h
      · exact Option.noConfusion h
      · rename_i acc1 hacc
        have hacc1 : acc1 = acc ++ [it.index] := by
          unfold pushObject at hacc
          split at hacc
          · exact Option.noConfusion hacc
          · exact (Option.some.inj hacc).symm
        obtain ⟨hlt, e⟩ := List.getElem?_eq_some.mp hit
        rw [ih (i + 1) acc1 r h, hacc1, List.drop_eq_getElem_cons hlt, e]
        simp

theorem emitLeaf_ok (objects : List BoundingBox) (start end_ : Nat) (bbox : BoundingBox)
    (st : BuildState) (step : Step) (h : emitLeaf objects start end_ bbox st = Except.ok step) :
    step = Step.leaf
      (BVH_Node.mk st.totalNodes BVH_Node.null BVH_Node.null st.orderedObjects.length
        (end_ - start) 0 bbox)
      ⟨st.items, st.orderedObjects ++ (sliceRange st.items start end_).map (fun it => it.index),
        st.totalNodes + 1⟩ := by
  unfold emitLeaf at h
  split at h
  · exact Except.noConfusion h
  · rename_i ord hord
    have := forItems_push objects st.items _ _ _ _ hord
    injection h with h
    rw [← h, this]
    simp [createLeaf, sliceRange]

theorem buildStep_leaf (env : Platform) (objects : List BoundingBox) (m : Int)
    (start end_ : Nat) (st : BuildState) (node : BVH_Node) (st1 : BuildState)
    (h : buildStep env objects m start end_ st = Except.ok (Step.leaf node st1)) :
    ∃ bbox, emitLeaf objects start end_ bbox st = Except.ok (Step.leaf node st1) := by
  unfold buildStep at h
  split at h
  · exact Except.noConfusion h
  · rename_i bbox _
    simp only [] at h
    split at h
    · exact ⟨bbox, h⟩
    · split at h
      · exact Except.noConfusion h
      · split at h
        · exact ⟨bbox, h⟩
        · split at h
          · injection h with h; exact Step.noConfusion h
          · split at h
            · exact Except.noConfusion h
            · split at h
              · injection h with h; exact Step.noConfusion h
              · exact ⟨bbox, h⟩

theorem segment_decompose (items : List BVH_Item) (start end_ : Nat) (h1 : start < end_)
    (h2 : end_ ≤ items.length) :
    ∃ pre it0 rest post, items = pre ++ it0 :: rest ++ post ∧ pre.length = start ∧
      pre.length + (it0 :: rest).length = end_ := by
  have hlen : (sliceRange items start end_).length = end_ - start := by
    simp [sliceRange]; omega
  cases hs : sliceRange items start end_ with
  | nil => rw [hs] at hlen; simp at hlen; omega
  | cons it0 rest =>
    refine ⟨items.take start, it0, rest, items.drop end_, ?_, ?_, ?_⟩
    · rw [← hs]
      unfold sliceRange
      have hd : items.drop end_ = (items.drop start).drop (end_ - start) := by
        rw [List.drop_drop]; congr 1; omega
      rw [hd, List.append_assoc, List.take_append_drop, List.take_append_drop]
    · rw [List.length_take]; omega
    · rw [List.length_take, ← hs, hlen]; omega

theorem buildStep_split_inner (env : Platform) (henv : env.Conforms)
    (objects : List BoundingBox) (m : Int) (start end_ : Nat) (st : BuildState)
    (mid nodeId : Nat) (st1 : BuildState) (h1 : start < end_) (h2 : end_ ≤ st.items.length)
    (h : buildStep env objects m start end_ st = Except.ok (Step.split mid nodeId st1)) :
    start < mid ∧ mid < end_ ∧ st1.items.length = st.items.length := by
  obtain ⟨items, ord, t⟩ := st
  obtain ⟨pre, it0, rest, post, hitems, hpre, hend⟩ := segment_decompose items start end_ h1 h2
  subst hitems hpre hend
  rcases buildStep_cases env henv objects m pre post it0 rest ord t with ⟨hl, _⟩ | ⟨seg1, k, hs, hperm, hk0, hk⟩
  · rw [hl] at h
    have := emitLeaf_ok _ _ _ _ _ _ h
    exact Step.noConfusion this
  · rw [hs] at h
    injection h with h
    injection h with hmid _ hst
    subst hmid hst
    refine ⟨by omega, by omega, ?_⟩
    simp only [List.length_append, hperm.length_eq]

/-! ## The claims -/

theorem fresh_valid (k : Int) : (BVH_Accelerator.fresh k).Valid :=
  fun _ => ⟨rfl, rfl, rfl⟩

theorem exampleObjects_ne : exampleObjects ≠ [] := by
  simp [exampleObjects]

theorem exampleObjects_length : exampleObjects.length ≤ 2 := by
  simp [exampleObjects]

/-- C2: for every completed build over N >= 1 primitives the leaves' ranges
[objectOffset, objectOffset+objectCount) partition [0, N): every leaf has objectCount >= 1
and lies inside the permutation, no position belongs to two leaves, every position belongs
to a leaf; and the entries of a leaf's range are the indices of the descriptors of its
working-array range, in array order, the array ranges following one another in tree order.
When an activation emits a leaf for [start, end), the leaf's offset is the current length
of the permutation and what it appends are the descriptors of items[start..end) in array
order. -/
theorem buildTree_leaf_ranges (env : Platform) (henv : env.Conforms)
    (self : BVH_Accelerator) (hv : self.Valid) (objects : List BoundingBox)
    (maxNodeItems : Int) (fuel : Nat) (hne : objects ≠ []) (hfuel : objects.length ≤ fuel) :
    ∃ s, buildTree env self objects maxNodeItems fuel = Except.ok s ∧
      s.orderedObjects.length = objects.length ∧
      (∀ L ∈ s.root.leaves, 1 ≤ L.objectCount ∧
        L.objectOffset + L.objectCount ≤ s.orderedObjects.length) ∧
      List.Pairwise (fun A B : BVH_Node => ∀ p,
        ¬ (A.objectOffset ≤ p ∧ p < A.objectOffset + A.objectCount ∧
           B.objectOffset ≤ p ∧ p < B.objectOffset + B.objectCount)) s.root.leaves ∧
      (∀ p, p < objects.length →
        ∃ L ∈ s.root.leaves, L.objectOffset ≤ p ∧ p < L.objectOffset + L.objectCount) ∧
      (s.root.leafSpans 0).map Prod.fst = s.root.leaves ∧
      (∀ q ∈ s.root.leafSpans 0, ∀ k, k < q.1.objectCount →
        ∃ it, s.items[q.2 + k]? = some it ∧
          s.orderedObjects[q.1.objectOffset + k]? = some it.index) ∧
      (∀ st start end_ node st1,
        buildStep env objects maxNodeItems start end_ st = Except.ok (Step.leaf node st1) →
        node.objectOffset = st.orderedObjects.length ∧ node.objectCount = end_ - start ∧
        st1.items = st.items ∧
        st1.orderedObjects =
          st.orderedObjects ++ (sliceRange st.items start end_).map (fun it => it.index)) := by
  obtain ⟨node, seg1, added, t1, hrun, hperm, hcov⟩ :=
    buildTree_covers env henv self hv objects maxNodeItems fuel hne hfuel
  have hlen : added.length = objects.length := by
    rw [hcov.length_eq, hperm.length_eq, loadItems_length]
  have hpos := hcov.positions
  refine ⟨_, hrun, hlen, ?_, ?_, ?_, leafSpans_fst node 0, ?_, ?_⟩
  · intro L hL
    obtain ⟨a, _, ps, it0, rest, ss, pa, sa, id, hs, ha, had, hLe, hr⟩ := hcov.leaf_block L hL
    subst hLe
    have hal : added.length = pa.length + (it0 :: rest).length + sa.length := by
      rw [had]; simp only [List.length_append, List.length_map]
    simp only [BVH_Node.objectCount, BVH_Node.objectOffset, List.length_cons] at hal ⊢
    omega
  · have hnd : (node.leaves.flatMap fun L =>
        List.range' L.objectOffset L.objectCount).Nodup :=
      hpos.nodup_iff.mpr (List.nodup_range' _ _)
    have hpw := (List.nodup_flatMap.mp hnd).2
    refine hpw.imp ?_
    intro A B hd p hp
    exact hd (List.mem_range'_1.mpr ⟨hp.1, hp.2.1⟩) (List.mem_range'_1.mpr ⟨hp.2.2.1, hp.2.2.2⟩)
  · intro p hp
    have hmem : p ∈ List.range' 0 added.length :=
      List.mem_range'_1.mpr ⟨Nat.zero_le _, by omega⟩
    obtain ⟨L, hL, hpL⟩ := List.mem_flatMap.mp (hpos.mem_iff.mpr hmem)
    exact ⟨L, hL, List.mem_range'_1.mp hpL⟩
  · intro q hq k hk
    obtain ⟨ps, it0, rest, ss, pa, sa, id, hs, ha, had, hLe, hr⟩ := hcov.spans 0 q hq
    rw [hLe] at hk ⊢
    simp only [BVH_Node.objectCount, BVH_Node.objectOffset] at hk ⊢
    have hget : (it0 :: rest)[k]? = some ((it0 :: rest)[k]) := List.getElem?_eq_getElem hk
    refine ⟨(it0 :: rest)[k], ?_, ?_⟩
    · show seg1[q.2 + k]? = _
      rw [ha, hs, Nat.zero_add, getElem?_block ps (it0 :: rest) ss k hk, hget]
    · show added[0 + pa.length + k]? = _
      rw [had, Nat.zero_add,
        getElem?_block pa ((it0 :: rest).map fun it => it.index) sa k (by simpa using hk),
        List.getElem?_map, hget]
      rfl
  · intro st start end_ nd st1 h
    obtain ⟨bbox, hb⟩ := buildStep_leaf env objects maxNodeItems start end_ st nd st1 h
    have := emitLeaf_ok objects start end_ bbox st _ hb
    injection this with h1 h2
    subst h1 h2
    exact ⟨rfl, rfl, rfl, rfl⟩

theorem buildTree_leaf_ranges_witness :
    Platform.reference.Conforms ∧ (BVH_Accelerator.fresh 0).Valid ∧
    exampleObjects ≠ [] ∧ exampleObjects.length ≤ 2 ∧
    ∃ s, buildTree Platform.reference (BVH_Accelerator.fresh 0) exampleObjects 4 2 =
        Except.ok s ∧
      s.orderedObjects.length = exampleObjects.length ∧
      (∀ L ∈ s.root.leaves, 1 ≤ L.objectCount ∧
        L.objectOffset + L.objectCount ≤ s.orderedObjects.length) :=
  ⟨Platform.reference_conforms, fresh_valid 0, exampleObjects_ne, exampleObjects_length,
    (buildTree_leaf_ranges Platform.reference Platform.reference_conforms
      (BVH_Accelerator.fresh 0) (fresh_valid 0) exampleObjects 4 2 exampleObjects_ne
      exampleObjects_length).imp fun _ h => ⟨h.1, h.2.1, h.2.2.1⟩⟩

theorem block_boxes (objects : List BoundingBox) (blk : List BVH_Item)
    (hok : ItemsOK objects blk) :
    (blk.map fun it => it.index).map (fun i => objects[i]?) =
      (blk.map fun it => it.boundingBox).map some := by
  induction blk with
  | nil => rfl
  | cons a r ih =>
    have ha := (hok a (List.mem_cons_self _ _)).1
    have hr : ItemsOK objects r := fun it hit => hok it (List.mem_cons_of_mem _ hit)
    simp only [List.map_cons, ha, ih hr]

theorem LeafBlock.itemsOK {objects : List BoundingBox} {seg : List BVH_Item}
    (hok : ItemsOK objects seg) {ps ss : List BVH_Item} {it0 : BVH_Item}
    {rest : List BVH_Item} (hs : seg = ps ++ it0 :: rest ++ ss) :
    ItemsOK objects (it0 :: rest) := by
  intro it hit
  apply hok
  rw [hs]
  exact List.mem_append_left _ (List.mem_append_right _ hit)

/-- C3: for every leaf of a built tree, the stored bbox equals the union (componentwise
minimum of Pmin, maximum of Pmax) of the bounding boxes of the primitives found at
positions [objectOffset, objectOffset+objectCount) of the output permutation. -/
theorem buildTree_leaf_bbox (env : Platform) (henv : env.Conforms)
    (self : BVH_Accelerator) (hv : self.Valid) (objects : List BoundingBox)
    (maxNodeItems : Int) (fuel : Nat) (hne : objects ≠ []) (hfuel : objects.length ≤ fuel) :
    ∃ s, buildTree env self objects maxNodeItems fuel = Except.ok s ∧
      ∀ id off cnt ax bb,
        BVH_Node.mk id BVH_Node.null BVH_Node.null off cnt ax bb ∈ s.root.nodes →
        ∃ b bs,
          ((s.getOrderedObjects.drop off).take cnt).map (fun i => objects[i]?) =
            (b :: bs).map some ∧
          bb = specUnion b bs ∧ unionOfBoxes (b :: bs) = some bb := by
  obtain ⟨node, seg1, added, t1, hrun, hperm, hcov⟩ :=
    buildTree_covers env henv self hv objects maxNodeItems fuel hne hfuel
  refine ⟨_, hrun, ?_⟩
  intro id off cnt ax bb hmem
  obtain ⟨a, _, ps, it0, rest, ss, pa, sa, id1, hs, ha, had, hLe, hr⟩ :=
    hcov.leaf_block _ (mem_leaves_of_mem_nodes _ _ _ _ _ _ hmem)
  injection hLe with _ _ _ hoff hcnt _ hbb
  have hok : ItemsOK objects (it0 :: rest) :=
    LeafBlock.itemsOK ((loadItems_ok_zero objects).of_perm hperm) hs
  have hfold : bb = (rest.map fun it => it.boundingBox).foldl getTotalBoundingBox
      it0.boundingBox := by
    rw [hbb, List.foldl_map]
  refine ⟨it0.boundingBox, rest.map fun it => it.boundingBox, ?_, ?_, ?_⟩
  · show ((added.drop off).take cnt).map (fun i => objects[i]?) = _
    have hd : (added.drop off).take cnt = (it0 :: rest).map fun it => it.index := by
      rw [had, hoff, hcnt, Nat.zero_add]
      have h := drop_take_block pa ((it0 :: rest).map fun it => it.index) sa
      rw [List.length_map] at h
      exact h
    rw [hd, block_boxes objects (it0 :: rest) hok]
    rfl
  · rw [hfold, foldl_union_spec]
  · rw [hfold]; rfl

theorem buildTree_leaf_bbox_witness :
    Platform.reference.Conforms ∧ (BVH_Accelerator.fresh 0).Valid ∧
    exampleObjects ≠ [] ∧ exampleObjects.length ≤ 2 ∧
    ∃ s, buildTree Platform.reference (BVH_Accelerator.fresh 0) exampleObjects 4 2 =
        Except.ok s ∧
      ∀ id off cnt ax bb,
        BVH_Node.mk id BVH_Node.null BVH_Node.null off cnt ax bb ∈ s.root.nodes →
        ∃ b bs,
          ((s.getOrderedObjects.drop off).take cnt).map (fun i => exampleObjects[i]?) =
            (b :: bs).map some ∧
          bb = specUnion b bs ∧ unionOfBoxes (b :: bs) = some bb :=
  ⟨Platform.reference_conforms, fresh_valid 0, exampleObjects_ne, exampleObjects_length,
    buildTree_leaf_bbox Platform.reference Platform.reference_conforms
      (BVH_Accelerator.fresh 0) (fresh_valid 0) exampleObjects 4 2 exampleObjects_ne
      exampleObjects_length⟩

/-- C4: for every interior node of a built tree, bbox equals
getTotalBoundingBox(children[0].bbox, children[1].bbox) exactly, both children are
non-null, and objectCount is 0. -/
theorem buildTree_interior_bbox (env : Platform) (henv : env.Conforms)
    (self : BVH_Accelerator) (hv : self.Valid) (objects : List BoundingBox)
    (maxNodeItems : Int) (fuel : Nat) (hne : objects ≠ []) (hfuel : objects.length ≤ fuel) :
    ∃ s, buildTree env self objects maxNodeItems fuel = Except.ok s ∧
      ∀ id c0 c1 off cnt ax bb, BVH_Node.mk id c0 c1 off cnt ax bb ∈ s.root.nodes →
        ¬ (c0 = BVH_Node.null ∧ c1 = BVH_Node.null) →
        ∃ i0 a0 b0 o0 k0 x0 bb0 i1 a1 b1 o1 k1 x1 bb1,
          c0 = BVH_Node.mk i0 a0 b0 o0 k0 x0 bb0 ∧ c1 = BVH_Node.mk i1 a1 b1 o1 k1 x1 bb1 ∧
          bb = getTotalBoundingBox bb0 bb1 ∧ cnt = 0 := by
  obtain ⟨node, seg1, added, t1, hrun, hperm, hcov⟩ :=
    buildTree_covers env henv self hv objects maxNodeItems fuel hne hfuel
  exact ⟨_, hrun, hcov.interiorExact⟩

theorem buildTree_interior_bbox_witness :
    Platform.reference.Conforms ∧ (BVH_Accelerator.fresh 0).Valid ∧
    exampleObjects ≠ [] ∧ exampleObjects.length ≤ 2 ∧
    ∃ s, buildTree Platform.reference (BVH_Accelerator.fresh 0) exampleObjects 4 2 =
        Except.ok s ∧
      ∀ id c0 c1 off cnt ax bb, BVH_Node.mk id c0 c1 off cnt ax bb ∈ s.root.nodes →
        ¬ (c0 = BVH_Node.null ∧ c1 = BVH_Node.null) →
        ∃ i0 a0 b0 o0 k0 x0 bb0 i1 a1 b1 o1 k1 x1 bb1,
          c0 = BVH_Node.mk i0 a0 b0 o0 k0 x0 bb0 ∧ c1 = BVH_Node.mk i1 a1 b1 o1 k1 x1 bb1 ∧
          bb = getTotalBoundingBox bb0 bb1 ∧ cnt = 0 :=
  ⟨Platform.reference_conforms, fresh_valid 0, exampleObjects_ne, exampleObjects_length,
    buildTree_interior_bbox Platform.reference Platform.reference_conforms
      (BVH_Accelerator.fresh 0) (fresh_valid 0) exampleObjects 4 2 exampleObjects_ne
      exampleObjects_length⟩

/-- C6 (the code at the failing input): buildTree has no check for an empty primitive
sequence; on a fresh builder it enters recursiveBuild(0, 0), whose first statement reads
items[0] of the empty working array, outside its bounds, and no InvalidArgument error is
produced. -/
theorem buildTree_empty_reads_out_of_bounds (env : Platform) (k maxNodeItems : Int)
    (fuel : Nat) :
    buildTree env (BVH_Accelerator.fresh k) [] maxNodeItems (fuel + 1) =
      Except.error (Fault.outOfBounds,
        { items := [], orderedObjects := [], maxNodeItems := maxNodeItems, totalNodes := 0,
          root := BVH_Node.null, tree := [] }) ∧
    rangeBounds (BVH_Accelerator.fresh k).items 0 0 = none := by
  constructor <;> rfl

/-- C7 (as the code behaves): buildTree is not transactional. A call on a builder that
holds a completed tree (its root is not null) empties items and orderedObjects and resets
totalNodes and tree before it looks at the input: whatever the input, the empty sequence
included, recursiveBuild(0, N) is entered with the descriptors of the new input only, an
empty permutation and the counter 0 (the state `buildTree` hands to it), while the root is
still the old one. -/
theorem buildTree_discards_previous_state (self : BVH_Accelerator)
    (objects : List BoundingBox) (maxNodeItems : Int) (hroot : self.root ≠ BVH_Node.null) :
    (self.prepare objects maxNodeItems).items = loadItems 0 objects ∧
    (self.prepare objects maxNodeItems).orderedObjects = [] ∧
    (self.prepare objects maxNodeItems).totalNodes = 0 ∧
    (self.prepare objects maxNodeItems).tree = [] ∧
    (self.prepare objects maxNodeItems).root = self.root ∧
    (self.prepare objects maxNodeItems).buildState = ⟨loadItems 0 objects, [], 0⟩ ∧
    (self.prepare [] maxNodeItems).buildState = ⟨[], [], 0⟩ := by
  have hp : ∀ (objs : List BoundingBox), self.prepare objs maxNodeItems =
      { items := loadItems 0 objs, orderedObjects := [], maxNodeItems := maxNodeItems,
        totalNodes := 0, root := self.root, tree := [] } := by
    intro objs
    simp [BVH_Accelerator.prepare, hroot]
  refine ⟨by rw [hp], by rw [hp], by rw [hp], by rw [hp], by rw [hp], by rw [hp]; rfl,
    by rw [hp]; rfl⟩

theorem buildTree_discards_previous_state_witness :
    exampleBuilt.root ≠ BVH_Node.null ∧
    exampleBuilt.items ≠ [] ∧ exampleBuilt.orderedObjects = [0] ∧
    exampleBuilt.totalNodes = 1 ∧
    (exampleBuilt.prepare [] 4).items = loadItems 0 [] ∧
    (exampleBuilt.prepare [] 4).orderedObjects = [] ∧
    (exampleBuilt.prepare [] 4).totalNodes = 0 :=
  ⟨by simp [exampleBuilt], by simp [exampleBuilt], rfl, rfl,
    (buildTree_discards_previous_state exampleBuilt [] 4 (by simp [exampleBuilt])).1,
    (buildTree_discards_previous_state exampleBuilt [] 4 (by simp [exampleBuilt])).2.1,
    (buildTree_discards_previous_state exampleBuilt [] 4 (by simp [exampleBuilt])).2.2.1⟩

/-- C7 (counterexample): the builder `exampleBuilt` is what a completed build over one
unit box leaves. A following call with an empty sequence enters recursiveBuild(0, 0) with
items and orderedObjects empty and totalNodes 0; its first statement reads items[0] past
the end of the emptied array. If that read is trapped, the call ends with the old root but
with items, orderedObjects and totalNodes cleared; if it returns the descriptor still in
the storage of the emptied array, the degenerate-axis rule makes a leaf with objectCount 0,
the counter becomes 1 and that leaf replaces the old root. In neither case are root,
orderedObjects, items and totalNodes what they were before the call. -/
theorem buildTree_failure_not_atomic :
    buildTree Platform.reference (BVH_Accelerator.fresh 0) [⟨⟨0, 0, 0⟩, ⟨1, 1, 1⟩⟩] 4 1 =
      Except.ok exampleBuilt ∧
    exampleBuilt.buildState =
      ⟨[BVH_Item.make 0 ⟨⟨0, 0, 0⟩, ⟨1, 1, 1⟩⟩], [0], 1⟩ ∧
    (exampleBuilt.prepare [] 4).buildState = ⟨[], [], 0⟩ ∧
    (∃ f s1, buildTree Platform.reference exampleBuilt [] 4 1 = Except.error (f, s1) ∧
      ¬ (s1.root = exampleBuilt.root ∧ s1.orderedObjects = exampleBuilt.orderedObjects ∧
         s1.items = exampleBuilt.items ∧ s1.totalNodes = exampleBuilt.totalNodes)) ∧
    (∃ node st1,
      recursiveBuild Platform.reference [] 4 1 0 0
          ⟨[BVH_Item.make 0 ⟨⟨0, 0, 0⟩, ⟨1, 1, 1⟩⟩], [], 0⟩ = Except.ok (node, st1) ∧
      node = BVH_Node.mk 0 BVH_Node.null BVH_Node.null 0 0 0 ⟨⟨0, 0, 0⟩, ⟨1, 1, 1⟩⟩ ∧
      st1.orderedObjects = [] ∧ st1.totalNodes = 1 ∧
      ¬ (node = exampleBuilt.root ∧ st1.orderedObjects = exampleBuilt.orderedObjects ∧
         st1.totalNodes = exampleBuilt.totalNodes)) := by
  refine ⟨by with_unfolding_all rfl, by with_unfolding_all rfl, by with_unfolding_all rfl,
    ⟨Fault.outOfBounds,
      { items := [], orderedObjects := [], maxNodeItems := 4, totalNodes := 0,
        root := exampleBuilt.root, tree := [] }, by with_unfolding_all rfl, ?_⟩,
    ⟨_, _, by with_unfolding_all rfl, rfl, rfl, rfl, ?_⟩⟩
  · simp [exampleBuilt]
  · simp [exampleBuilt]

theorem recursiveBuild_not_null (env : Platform) (objects : List BoundingBox) (m : Int)
    (fuel start end_ : Nat) (st : BuildState) (node : BVH_Node) (st1 : BuildState)
    (h : recursiveBuild env objects m fuel start end_ st = Except.ok (node, st1)) :
    node ≠ BVH_Node.null := by
  cases fuel with
  | zero => exact Except.noConfusion h
  | succ n =>
    unfold recursiveBuild at h
    split at h
    · exact Except.noConfusion h
    · rename_i nd st2 hstep
      obtain ⟨bbox, hb⟩ := buildStep_leaf env objects m start end_ st nd st2 hstep
      have := emitLeaf_ok objects start end_ bbox st _ hb
      injection this with h1 _
      injection h with h
      injection h with h2 _
      rw [← h2, h1]
      exact fun e => BVH_Node.noConfusion e
    · split at h
      · split at h
        · exact Except.noConfusion h
        · split at h
          · exact Except.noConfusion h
          · split at h
            · exact Except.noConfusion h
            · rename_i nd hc
              obtain ⟨_, _, _, _, _, _, _, _, _, _, _, _, _, _, _, _, e⟩ :=
                createNode_some _ _ _ _ hc
              injection h with h
              injection h with h2 _
              rw [← h2, e]
              exact fun e => BVH_Node.noConfusion e
      · split at h
        · exact Except.noConfusion h
        · split at h
          · exact Except.noConfusion h
          · split at h
            · exact Except.noConfusion h
            · rename_i nd hc
              obtain ⟨_, _, _, _, _, _, _, _, _, _, _, _, _, _, _, _, e⟩ :=
                createNode_some _ _ _ _ hc
              injection h with h
              injection h with h2 _
              rw [← h2, e]
              exact fun e => BVH_Node.noConfusion e

theorem buildTree_root_not_null (env : Platform) (s0 : BVH_Accelerator)
    (objects : List BoundingBox) (m : Int) (fuel : Nat) (s1 : BVH_Accelerator)
    (h : buildTree env s0 objects m fuel = Except.ok s1) : s1.root ≠ BVH_Node.null := by
  unfold buildTree at h
  simp only [] at h
  split at h
  · exact Except.noConfusion h
  · rename_i node st hrun
    injection h with h
    rw [← h]
    exact recursiveBuild_not_null env objects m fuel 0 objects.length _ node st hrun

theorem prepare_used (self : BVH_Accelerator) (hs : self.root ≠ BVH_Node.null)
    (objects : List BoundingBox) (m : Int) :
    self.prepare objects m =
      { items := loadItems 0 objects, orderedObjects := [], maxNodeItems := m,
        totalNodes := 0, root := self.root, tree := [] } := by
  simp [BVH_Accelerator.prepare, hs]

theorem prepare_fresh (k : Int) (objects : List BoundingBox) (m : Int) :
    (BVH_Accelerator.fresh k).prepare objects m =
      { items := loadItems 0 objects, orderedObjects := [], maxNodeItems := m,
        totalNodes := 0, root := BVH_Node.null, tree := [] } := by
  simp [BVH_Accelerator.prepare, BVH_Accelerator.fresh]

theorem buildTree_ok_iff_fresh (env : Platform) (self : BVH_Accelerator)
    (hs : self.root ≠ BVH_Node.null) (k : Int) (objects : List BoundingBox) (m : Int)
    (fuel : Nat) (s : BVH_Accelerator) :
    buildTree env self objects m fuel = Except.ok s ↔
      buildTree env (BVH_Accelerator.fresh k) objects m fuel = Except.ok s := by
  unfold buildTree
  rw [prepare_used self hs, prepare_fresh]
  simp only [BVH_Accelerator.buildState, BVH_Accelerator.withBuildState]
  cases recursiveBuild env objects m fuel 0 objects.length
      { items := loadItems 0 objects, orderedObjects := [], totalNodes := 0 } with
  | error e => simp
  | ok r => simp

theorem buildStep_same_center (env : Platform) (objects : List BoundingBox)
    (m : Int) (pre post : List BVH_Item) (it0 : BVH_Item) (rest : List BVH_Item)
    (ord : List Nat) (t : Nat)
    (hsame : ∀ a ∈ it0 :: rest, ∀ b ∈ it0 :: rest, a.center = b.center) :
    buildStep env objects m pre.length (pre.length + (it0 :: rest).length)
        ⟨pre ++ it0 :: rest ++ post, ord, t⟩ =
      emitLeaf objects pre.length (pre.length + (it0 :: rest).length)
        (rest.foldl (fun b it => getTotalBoundingBox b it.boundingBox) it0.boundingBox)
        ⟨pre ++ it0 :: rest ++ post, ord, t⟩ := by
  unfold buildStep
  rw [rangeBounds_segment]
  simp only [Nat.add_sub_cancel_left]
  by_cases h1 : (it0 :: rest).length = 1
  · rw [if_pos h1]
  · rw [if_neg h1, rangeCenterBounds_segment]
    simp only []
    have hdeg : (centerBounds it0 rest).Pmax.get (centerBounds it0 rest).maximumExtent =
        (centerBounds it0 rest).Pmin.get (centerBounds it0 rest).maximumExtent := by
      obtain ⟨a, ha, hav⟩ := centerBounds_min_attained
        (centerBounds it0 rest).maximumExtent it0 rest
      obtain ⟨b, hb, hbv⟩ := centerBounds_max_attained
        (centerBounds it0 rest).maximumExtent it0 rest
      rw [← hav, ← hbv, hsame a ha b hb]
    rw [if_pos hdeg]

theorem loadItems_fold (bs : List BoundingBox) (b : BoundingBox) (i : Nat) :
    (loadItems i bs).foldl (fun acc it => getTotalBoundingBox acc it.boundingBox) b =
      bs.foldl getTotalBoundingBox b := by
  have h := List.foldl_map (fun it : BVH_Item => it.boundingBox) getTotalBoundingBox
    (loadItems i bs) b
  rw [loadItems_boxes] at h
  exact h.symm

/-- C10: for every N >= 1 primitives that all share one identical centroid, and for every
maxLeafSize, buildTree produces a tree that consists of exactly one leaf, with
objectOffset = 0 and objectCount = N, whose bbox is the union of all input boxes, and the
permutation lists the primitives 0..N-1 in input order. -/
theorem buildTree_same_centroid (env : Platform) (self : BVH_Accelerator)
    (hv : self.Valid) (objects : List BoundingBox) (maxNodeItems : Int) (fuel : Nat)
    (c : Vec3) (hne : objects ≠ []) (hc : ∀ b ∈ objects, centroid b = c) :
    ∃ s bb, buildTree env self objects maxNodeItems (fuel + 1) = Except.ok s ∧
      unionOfBoxes objects = some bb ∧
      s.root = BVH_Node.mk 0 BVH_Node.null BVH_Node.null 0 objects.length 0 bb ∧
      s.root.nodes = [s.root] ∧
      s.getOrderedObjects = List.range objects.length ∧
      s.totalNodes = 1 := by
  cases objects with
  | nil => exact absurd rfl hne
  | cons b bs =>
    have hitems : loadItems 0 (b :: bs) = BVH_Item.make 0 b :: loadItems 1 bs := rfl
    have hok : ItemsOK (b :: bs) (BVH_Item.make 0 b :: loadItems 1 bs) := by
      rw [← hitems]; exact loadItems_ok_zero (b :: bs)
    have hsame : ∀ x ∈ BVH_Item.make 0 b :: loadItems 1 bs,
        ∀ y ∈ BVH_Item.make 0 b :: loadItems 1 bs, x.center = y.center := by
      have hcen : ∀ x ∈ BVH_Item.make 0 b :: loadItems 1 bs, x.center = c := by
        intro x hx
        have h := hok x hx
        rw [h.2]
        exact hc _ (List.getElem?_mem h.1)
      intro x hx y hy
      rw [hcen x hx, hcen y hy]
    have hstep := buildStep_same_center env (b :: bs) maxNodeItems [] []
      (BVH_Item.make 0 b) (loadItems 1 bs) [] 0 hsame
    rw [emitLeaf_segment (b :: bs) [] _ [] [] 0 _ hok] at hstep
    have hlen : (BVH_Item.make 0 b :: loadItems 1 bs).length = (b :: bs).length := by
      rw [← hitems, loadItems_length]
    simp only [List.nil_append, List.append_nil, List.length_nil, Nat.zero_add, hlen]
      at hstep
    have hidx : (BVH_Item.make 0 b :: loadItems 1 bs).map (fun it => it.index) =
        List.range (b :: bs).length := by
      rw [← hitems, loadItems_index, List.range_eq_range']
    rw [hidx] at hstep
    have hbox : (loadItems 1 bs).foldl (fun acc it => getTotalBoundingBox acc it.boundingBox)
        (BVH_Item.make 0 b).boundingBox = bs.foldl getTotalBoundingBox b :=
      loadItems_fold bs b 1
    rw [hbox] at hstep
    refine ⟨{ items := loadItems 0 (b :: bs), orderedObjects := List.range (b :: bs).length,
              maxNodeItems := maxNodeItems, totalNodes := 1,
              root := BVH_Node.mk 0 BVH_Node.null BVH_Node.null 0 (b :: bs).length 0
                (bs.foldl getTotalBoundingBox b),
              tree := (self.prepare (b :: bs) maxNodeItems).tree },
      bs.foldl getTotalBoundingBox b, ?_, rfl, rfl, rfl, rfl, rfl⟩
    unfold buildTree
    simp only [prepare_buildState self hv (b :: bs) maxNodeItems, recursiveBuild, hitems,
      hstep]
    simp [BVH_Accelerator.withBuildState, BVH_Accelerator.prepare, loadItems]

theorem buildTree_same_centroid_witness :
    (BVH_Accelerator.fresh 0).Valid ∧
    ([⟨⟨0, 0, 0⟩, ⟨2, 2, 2⟩⟩, ⟨⟨1, 1, 1⟩, ⟨1, 1, 1⟩⟩] : List BoundingBox) ≠ [] ∧
    (∀ b ∈ ([⟨⟨0, 0, 0⟩, ⟨2, 2, 2⟩⟩, ⟨⟨1, 1, 1⟩, ⟨1, 1, 1⟩⟩] : List BoundingBox),
      centroid b = ⟨1, 1, 1⟩) ∧
    ∃ s bb, buildTree Platform.reference (BVH_Accelerator.fresh 0)
        [⟨⟨0, 0, 0⟩, ⟨2, 2, 2⟩⟩, ⟨⟨1, 1, 1⟩, ⟨1, 1, 1⟩⟩] 1 1 = Except.ok s ∧
      unionOfBoxes [⟨⟨0, 0, 0⟩, ⟨2, 2, 2⟩⟩, ⟨⟨1, 1, 1⟩, ⟨1, 1, 1⟩⟩] = some bb ∧
      s.root = BVH_Node.mk 0 BVH_Node.null BVH_Node.null 0
        ([⟨⟨0, 0, 0⟩, ⟨2, 2, 2⟩⟩, ⟨⟨1, 1, 1⟩, ⟨1, 1, 1⟩⟩] : List BoundingBox).length 0 bb ∧
      s.root.nodes = [s.root] ∧
      s.getOrderedObjects = List.range
        ([⟨⟨0, 0, 0⟩, ⟨2, 2, 2⟩⟩, ⟨⟨1, 1, 1⟩, ⟨1, 1, 1⟩⟩] : List BoundingBox).length ∧
      s.totalNodes = 1 :=
  ⟨fresh_valid 0, by simp, by
      intro b hb
      simp only [List.mem_cons, List.mem_singleton, List.not_mem_nil, or_false] at hb
      rcases hb with rfl | rfl <;> with_unfolding_all rfl,
    buildTree_same_centroid Platform.reference (BVH_Accelerator.fresh 0) (fresh_valid 0)
      [⟨⟨0, 0, 0⟩, ⟨2, 2, 2⟩⟩, ⟨⟨1, 1, 1⟩, ⟨1, 1, 1⟩⟩] 1 0 ⟨1, 1, 1⟩ (by simp)
      (by
      intro b hb
      simp only [List.mem_cons, List.mem_singleton, List.not_mem_nil, or_false] at hb
      rcases hb with rfl | rfl <;> with_unfolding_all rfl)⟩

/-! ## The class invariant and a run of the model -/

/-- Every completed build leaves the builder in a state the next call accepts. -/
theorem buildTree_valid (env : Platform) (s0 : BVH_Accelerator)
    (objects : List BoundingBox) (m : Int) (fuel : Nat) (s1 : BVH_Accelerator)
    (h : buildTree env s0 objects m fuel = Except.ok s1) : s1.Valid :=
  fun hnull => absurd hnull (buildTree_root_not_null env s0 objects m fuel s1 h)

/-- The model run on `exampleObjects` with the reference platform: the root takes id 0
before its children are built, the two leaves follow in array order. -/
theorem buildTree_exampleObjects :
    (buildTree Platform.reference (BVH_Accelerator.fresh 0) exampleObjects 4 2).toOption.map
        (fun s => (s.orderedObjects, s.totalNodes, s.root)) =
      some ([0, 1], 3,
        BVH_Node.mk 0
          (BVH_Node.mk 1 BVH_Node.null BVH_Node.null 0 1 0 ⟨⟨0, 0, 0⟩, ⟨1, 1, 1⟩⟩)
          (BVH_Node.mk 2 BVH_Node.null BVH_Node.null 1 1 0 ⟨⟨2, 0, 0⟩, ⟨3, 1, 1⟩⟩)
          0 0 0 ⟨⟨0, 0, 0⟩, ⟨3, 1, 1⟩⟩) := by
  with_unfolding_all rfl

/-! ## Claims on single operations -/

/-- C11: for every input of exactly one primitive and every maxLeafSize, buildTree yields
a root that is a leaf (both children null) with objectOffset = 0, objectCount = 1 and bbox
equal to the primitive's box, and the permutation is the single index 0. -/
theorem buildTree_singleton (env : Platform) (self : BVH_Accelerator) (hv : self.Valid)
    (b : BoundingBox) (maxNodeItems : Int) (fuel : Nat) :
    ∃ s, buildTree env self [b] maxNodeItems (fuel + 1) = Except.ok s ∧
      s.root = BVH_Node.mk 0 BVH_Node.null BVH_Node.null 0 1 0 b ∧
      s.getOrderedObjects = [0] ∧ s.totalNodes = 1 := by
  refine ⟨{ items := [BVH_Item.make 0 b], orderedObjects := [0],
            maxNodeItems := maxNodeItems, totalNodes := 1,
            root := BVH_Node.mk 0 BVH_Node.null BVH_Node.null 0 1 0 b,
            tree := (self.prepare [b] maxNodeItems).tree }, ?_, rfl, rfl, rfl⟩
  unfold buildTree
  simp only [prepare_buildState self hv [b] maxNodeItems]
  have hrun : recursiveBuild env [b] maxNodeItems (fuel + 1) 0 [b].length
      ⟨loadItems 0 [b], [], 0⟩ =
      Except.ok (BVH_Node.mk 0 BVH_Node.null BVH_Node.null 0 1 0 b,
        ⟨[BVH_Item.make 0 b], [0], 1⟩) := rfl
  rw [hrun]
  simp [BVH_Accelerator.withBuildState, BVH_Accelerator.prepare, loadItems]

theorem buildTree_singleton_witness :
    (BVH_Accelerator.fresh 0).Valid ∧
    ∃ s, buildTree Platform.reference (BVH_Accelerator.fresh 0) [⟨⟨0, 0, 0⟩, ⟨1, 1, 1⟩⟩] 4 1 =
        Except.ok s ∧
      s.root = BVH_Node.mk 0 BVH_Node.null BVH_Node.null 0 1 0 ⟨⟨0, 0, 0⟩, ⟨1, 1, 1⟩⟩ ∧
      s.getOrderedObjects = [0] ∧ s.totalNodes = 1 :=
  ⟨fresh_valid 0,
    buildTree_singleton Platform.reference (BVH_Accelerator.fresh 0) (fresh_valid 0)
      ⟨⟨0, 0, 0⟩, ⟨1, 1, 1⟩⟩ 4 0⟩

/-- C12: every node of a built tree has either zero children (children[0] and children[1]
both null) or two non-null children; no node has exactly one child. -/
theorem buildTree_full (env : Platform) (henv : env.Conforms)
    (self : BVH_Accelerator) (hv : self.Valid) (objects : List BoundingBox)
    (maxNodeItems : Int) (fuel : Nat) (hne : objects ≠ []) (hfuel : objects.length ≤ fuel) :
    ∃ s, buildTree env self objects maxNodeItems fuel = Except.ok s ∧
      ∀ id c0 c1 off cnt ax bb, BVH_Node.mk id c0 c1 off cnt ax bb ∈ s.root.nodes →
        (c0 = BVH_Node.null ∧ c1 = BVH_Node.null) ∨
        (c0 ≠ BVH_Node.null ∧ c1 ≠ BVH_Node.null) := by
  obtain ⟨node, seg1, added, t1, hrun, hperm, hcov⟩ :=
    buildTree_covers env henv self hv objects maxNodeItems fuel hne hfuel
  refine ⟨_, hrun, ?_⟩
  intro id c0 c1 off cnt ax bb hmem
  by_cases hleaf : c0 = BVH_Node.null ∧ c1 = BVH_Node.null
  · exact Or.inl hleaf
  · right
    obtain ⟨_, _, _, _, _, _, _, _, _, _, _, _, _, _, e0, e1, _, _⟩ :=
      hcov.interiorExact id c0 c1 off cnt ax bb hmem hleaf
    rw [e0, e1]
    exact ⟨fun h => BVH_Node.noConfusion h, fun h => BVH_Node.noConfusion h⟩

theorem buildTree_full_witness :
    Platform.reference.Conforms ∧ (BVH_Accelerator.fresh 0).Valid ∧
    exampleObjects ≠ [] ∧ exampleObjects.length ≤ 2 ∧
    ∃ s, buildTree Platform.reference (BVH_Accelerator.fresh 0) exampleObjects 4 2 =
        Except.ok s ∧
      ∀ id c0 c1 off cnt ax bb, BVH_Node.mk id c0 c1 off cnt ax bb ∈ s.root.nodes →
        (c0 = BVH_Node.null ∧ c1 = BVH_Node.null) ∨
        (c0 ≠ BVH_Node.null ∧ c1 ≠ BVH_Node.null) :=
  ⟨Platform.reference_conforms, fresh_valid 0, exampleObjects_ne, exampleObjects_length,
    buildTree_full Platform.reference Platform.reference_conforms
      (BVH_Accelerator.fresh 0) (fresh_valid 0) exampleObjects 4 2 exampleObjects_ne
      exampleObjects_length⟩

/-- C15: for every box with diagonal d = Pmax - Pmin, maximumExtent() returns an axis
among 0, 1, 2 whose extent is at least the extent of every axis; it returns 0 exactly when
d.x > d.y and d.x > d.z, otherwise 1 exactly when d.y > d.z, otherwise 2; so d.y = d.z
without X dominance gives 2 and d.x = d.y > d.z gives 1. -/
theorem maximumExtent_spec (b : BoundingBox) :
    (b.maximumExtent = 0 ∨ b.maximumExtent = 1 ∨ b.maximumExtent = 2) ∧
    (∀ j, b.diagonal.get j ≤ b.diagonal.get b.maximumExtent) ∧
    (b.maximumExtent = 0 ↔ b.diagonal.x > b.diagonal.y ∧ b.diagonal.x > b.diagonal.z) ∧
    (b.maximumExtent = 1 ↔
      ¬ (b.diagonal.x > b.diagonal.y ∧ b.diagonal.x > b.diagonal.z) ∧
        b.diagonal.y > b.diagonal.z) ∧
    (b.maximumExtent = 2 ↔
      ¬ (b.diagonal.x > b.diagonal.y ∧ b.diagonal.x > b.diagonal.z) ∧
        ¬ b.diagonal.y > b.diagonal.z) ∧
    (b.diagonal.y = b.diagonal.z →
      ¬ (b.diagonal.x > b.diagonal.y ∧ b.diagonal.x > b.diagonal.z) →
      b.maximumExtent = 2) ∧
    (b.diagonal.x = b.diagonal.y → b.diagonal.y > b.diagonal.z → b.maximumExtent = 1) := by
  have hget : ∀ (v : Vec3) (j : Nat), v.get j = v.x ∨ v.get j = v.y ∨ v.get j = v.z := by
    intro v j
    unfold Vec3.get
    split
    · exact Or.inl rfl
    · exact Or.inr (Or.inl rfl)
    · exact Or.inr (Or.inr rfl)
  unfold BoundingBox.maximumExtent
  simp only [gt_iff_lt]
  by_cases c1 : b.diagonal.y < b.diagonal.x ∧ b.diagonal.z < b.diagonal.x
  · rw [if_pos c1]
    refine ⟨Or.inl rfl, ?_, ?_, ?_, ?_, ?_, ?_⟩
    · intro j
      show b.diagonal.get j ≤ b.diagonal.x
      rcases hget b.diagonal j with h | h | h
      · exact le_of_eq h
      · exact (le_of_eq h).trans (le_of_lt c1.1)
      · exact (le_of_eq h).trans (le_of_lt c1.2)
    · simp [c1]
    · simp [c1]
    · simp [c1]
    · intro _ h; exact absurd c1 h
    · intro h _; exact absurd c1.1 (by rw [h]; exact lt_irrefl _)
  · rw [if_neg c1]
    by_cases c2 : b.diagonal.z < b.diagonal.y
    · rw [if_pos c2]
      refine ⟨Or.inr (Or.inl rfl), ?_, ?_, ?_, ?_, ?_, ?_⟩
      · intro j
        show b.diagonal.get j ≤ b.diagonal.y
        have hx : b.diagonal.x ≤ b.diagonal.y := by
          by_contra hcon
          apply c1
          have := not_le.mp hcon
          exact ⟨this, lt_trans c2 this⟩
        rcases hget b.diagonal j with h | h | h
        · exact (le_of_eq h).trans hx
        · exact le_of_eq h
        · exact (le_of_eq h).trans (le_of_lt c2)
      · simp [c1]
      · simp [c1, c2]
      · simp [c2]
      · intro h _; rw [h] at c2; exact absurd c2 (lt_irrefl _)
      · intro _ _; rfl
    · rw [if_neg c2]
      refine ⟨Or.inr (Or.inr rfl), ?_, ?_, ?_, ?_, ?_, ?_⟩
      · intro j
        show b.diagonal.get j ≤ b.diagonal.z
        have hy : b.diagonal.y ≤ b.diagonal.z := not_lt.mp c2
        have hx : b.diagonal.x ≤ b.diagonal.z := by
          by_contra hcon
          apply c1
          have := not_le.mp hcon
          exact ⟨lt_of_le_of_lt hy this, this⟩
        rcases hget b.diagonal j with h | h | h
        · exact (le_of_eq h).trans hx
        · exact (le_of_eq h).trans hy
        · exact le_of_eq h
      · simp [c1]
      · simp [c2]
      · simp [c1, c2]
      · intro _ _; rfl
      · intro _ h; exact absurd h c2

/-- C16: for every box and every point p, each component of offset(p) equals
(p - Pmin) / (Pmax - Pmin) on an axis where Pmax > Pmin, and the raw difference p - Pmin
(no division) on an axis whose extent is not positive. -/
theorem offset_spec (b : BoundingBox) (p : Vec3) :
    (b.offset p).x =
      (if b.Pmax.x > b.Pmin.x then (p.x - b.Pmin.x) / (b.Pmax.x - b.Pmin.x)
       else p.x - b.Pmin.x) ∧
    (b.offset p).y =
      (if b.Pmax.y > b.Pmin.y then (p.y - b.Pmin.y) / (b.Pmax.y - b.Pmin.y)
       else p.y - b.Pmin.y) ∧
    (b.offset p).z =
      (if b.Pmax.z > b.Pmin.z then (p.z - b.Pmin.z) / (b.Pmax.z - b.Pmin.z)
       else p.z - b.Pmin.z) ∧
    (∀ k, (b.offset p).get k =
      if b.Pmax.get k > b.Pmin.get k then
        (p.get k - b.Pmin.get k) / (b.Pmax.get k - b.Pmin.get k)
      else p.get k - b.Pmin.get k) := by
  refine ⟨?_, ?_, ?_, fun k => offset_get b p k⟩
  · simp only [BoundingBox.offset, Vec3.sub]
  · simp only [BoundingBox.offset, Vec3.sub]
  · simp only [BoundingBox.offset, Vec3.sub]

/-! ## Node ids and the pre-order listing -/

theorem Covers.counter_lt {m : Int} {node : BVH_Node} {seg : List BVH_Item} {base : Nat}
    {added : List Nat} {t t1 : Nat} (h : Covers m node seg base added t t1) : t < t1 := by
  induction h with
  | leaf it0 rest base t hr => exact Nat.lt_succ_self t
  | nodeLR c0 c1 n segL segR base addL addR t t1 t2 h0 h1 hc ih0 ih1 => omega
  | nodeRL c0 c1 n segL segR base addL addR t t1 t2 h1 h0 hc ih1 ih0 => omega

theorem Covers.root_id {m : Int} {node : BVH_Node} {seg : List BVH_Item} {base : Nat}
    {added : List Nat} {t t1 : Nat} (h : Covers m node seg base added t t1) :
    node.id = t := by
  cases h with
  | leaf it0 rest base t hr => rfl
  | nodeLR c0 c1 n segL segR base addL addR t t1 t2 h0 h1 hc =>
    obtain ⟨_, _, _, _, _, _, _, _, _, _, _, _, _, _, _, _, e⟩ := createNode_some _ _ _ _ hc
    rw [e]; rfl
  | nodeRL c0 c1 n segL segR base addL addR t t1 t2 h1 h0 hc =>
    obtain ⟨_, _, _, _, _, _, _, _, _, _, _, _, _, _, _, _, e⟩ := createNode_some _ _ _ _ hc
    rw [e]; rfl

theorem range'_cons_append (t tA tB : Nat) (h1 : t < tA) (h2 : tA ≤ tB) :
    t :: (List.range' (t + 1) (tA - (t + 1)) ++ List.range' tA (tB - tA)) =
      List.range' t (tB - t) := by
  have e1 : List.range' (t + 1) (tA - (t + 1)) ++ List.range' tA (tB - tA) =
      List.range' (t + 1) (tB - (t + 1)) := by
    have := List.range'_append (t + 1) (tA - (t + 1)) (tB - tA) 1
    rw [Nat.one_mul] at this
    have ea : t + 1 + (tA - (t + 1)) = tA := by omega
    have eb : tB - tA + (tA - (t + 1)) = tB - (t + 1) := by omega
    rw [ea, eb] at this
    exact this
  rw [e1]
  have e2 : tB - t = (tB - (t + 1)) + 1 := by omega
  rw [e2, List.range'_succ]

theorem Covers.ids {m : Int} {node : BVH_Node} {seg : List BVH_Item} {base : Nat}
    {added : List Nat} {t t1 : Nat} (h : Covers m node seg base added t t1) :
    List.Perm (node.nodes.map BVH_Node.id) (List.range' t (t1 - t)) := by
  induction h with
  | leaf it0 rest base t hr =>
    simp [BVH_Node.nodes, BVH_Node.id]
  | nodeLR c0 c1 n segL segR base addL addR t t1 t2 h0 h1 hc ih0 ih1 =>
    obtain ⟨_, _, _, _, _, _, _, _, _, _, _, _, _, _, _, _, e⟩ := createNode_some _ _ _ _ hc
    rw [e]
    simp only [BVH_Node.nodes, List.map_cons, List.map_append, BVH_Node.id]
    rw [← range'_cons_append t t1 t2 (by have := h0.counter_lt; omega)
      (le_of_lt h1.counter_lt)]
    exact List.Perm.cons _ (List.Perm.append ih0 ih1)
  | nodeRL c0 c1 n segL segR base addL addR t t1 t2 h1 h0 hc ih1 ih0 =>
    obtain ⟨_, _, _, _, _, _, _, _, _, _, _, _, _, _, _, _, e⟩ := createNode_some _ _ _ _ hc
    rw [e]
    simp only [BVH_Node.nodes, List.map_cons, List.map_append, BVH_Node.id]
    rw [← range'_cons_append t t1 t2 (by have := h1.counter_lt; omega)
      (le_of_lt h0.counter_lt)]
    exact List.Perm.cons _ (List.perm_append_comm.trans (List.Perm.append ih1 ih0))

theorem Covers.nodes_nodup {m : Int} {node : BVH_Node} {seg : List BVH_Item} {base : Nat}
    {added : List Nat} {t t1 : Nat} (h : Covers m node seg base added t t1) :
    node.nodes.Nodup :=
  List.Nodup.of_map BVH_Node.id (h.ids.nodup_iff.mpr (List.nodup_range' _ _))

theorem Covers.id_range {m : Int} {node : BVH_Node} {seg : List BVH_Item} {base : Nat}
    {added : List Nat} {t t1 : Nat} (h : Covers m node seg base added t t1) :
    ∀ n ∈ node.nodes, t ≤ n.id ∧ n.id < t1 := by
  intro n hn
  have hmem : n.id ∈ node.nodes.map BVH_Node.id := List.mem_map_of_mem _ hn
  have := List.mem_range'_1.mp (h.ids.mem_iff.mp hmem)
  have hlt := h.counter_lt
  omega

theorem Covers.getBVHSubTree_eq {m : Int} {node : BVH_Node} {seg : List BVH_Item}
    {base : Nat} {added : List Nat} {t t1 : Nat} (h : Covers m node seg base added t t1) :
    getBVHSubTree node = some node.nodes := by
  induction h with
  | leaf it0 rest base t hr => simp [getBVHSubTree, BVH_Node.nodes]
  | nodeLR c0 c1 n segL segR base addL addR t t1 t2 h0 h1 hc ih0 ih1 =>
    obtain ⟨_, _, _, _, _, _, _, _, _, _, _, _, _, _, e0, _, e⟩ := createNode_some _ _ _ _ hc
    have hne : c0 ≠ BVH_Node.null := by rw [e0]; exact fun h => BVH_Node.noConfusion h
    rw [e]
    simp only [getBVHSubTree, hne, if_false, ih0, ih1, BVH_Node.nodes]
  | nodeRL c0 c1 n segL segR base addL addR t t1 t2 h1 h0 hc ih1 ih0 =>
    obtain ⟨_, _, _, _, _, _, _, _, _, _, _, _, _, _, e0, _, e⟩ := createNode_some _ _ _ _ hc
    have hne : c0 ≠ BVH_Node.null := by rw [e0]; exact fun h => BVH_Node.noConfusion h
    rw [e]
    simp only [getBVHSubTree, hne, if_false, ih0, ih1, BVH_Node.nodes]

/-- C14: getBVHTree() returns the nodes of the built tree in pre-order: for a leaf the
list is just that leaf, for an interior node n it is [n] followed by the complete list of
children[0]'s subtree followed by the complete list of children[1]'s subtree; the result
is the pre-order listing of all nodes of the tree, and no node occurs in it twice. -/
theorem getBVHTree_preorder (env : Platform) (henv : env.Conforms)
    (self : BVH_Accelerator) (hv : self.Valid) (objects : List BoundingBox)
    (maxNodeItems : Int) (fuel : Nat) (hne : objects ≠ []) (hfuel : objects.length ≤ fuel) :
    ∃ s, buildTree env self objects maxNodeItems fuel = Except.ok s ∧
      s.getBVHTree = some s.root.nodes ∧ s.root.nodes.Nodup ∧
      (∀ id c1 off cnt ax bb,
        getBVHSubTree (BVH_Node.mk id BVH_Node.null c1 off cnt ax bb) =
          some [BVH_Node.mk id BVH_Node.null c1 off cnt ax bb]) ∧
      (∀ id c0 c1 off cnt ax bb l0 l1, c0 ≠ BVH_Node.null →
        getBVHSubTree c0 = some l0 → getBVHSubTree c1 = some l1 →
        getBVHSubTree (BVH_Node.mk id c0 c1 off cnt ax bb) =
          some (BVH_Node.mk id c0 c1 off cnt ax bb :: (l0 ++ l1))) ∧
      (∀ id c0 c1 off cnt ax bb,
        (BVH_Node.mk id c0 c1 off cnt ax bb).nodes =
          BVH_Node.mk id c0 c1 off cnt ax bb :: (c0.nodes ++ c1.nodes)) := by
  obtain ⟨node, seg1, added, t1, hrun, hperm, hcov⟩ :=
    buildTree_covers env henv self hv objects maxNodeItems fuel hne hfuel
  refine ⟨_, hrun, hcov.getBVHSubTree_eq, hcov.nodes_nodup, ?_, ?_, ?_⟩
  · intro id c1 off cnt ax bb
    simp [getBVHSubTree]
  · intro id c0 c1 off cnt ax bb l0 l1 hne0 h0 h1
    simp only [getBVHSubTree, hne0, if_false, h0, h1]
  · intro id c0 c1 off cnt ax bb
    rfl

theorem getBVHTree_preorder_witness :
    Platform.reference.Conforms ∧ (BVH_Accelerator.fresh 0).Valid ∧
    exampleObjects ≠ [] ∧ exampleObjects.length ≤ 2 ∧
    ∃ s, buildTree Platform.reference (BVH_Accelerator.fresh 0) exampleObjects 4 2 =
        Except.ok s ∧
      s.getBVHTree = some s.root.nodes ∧ s.root.nodes.Nodup :=
  ⟨Platform.reference_conforms, fresh_valid 0, exampleObjects_ne, exampleObjects_length,
    (getBVHTree_preorder Platform.reference Platform.reference_conforms
      (BVH_Accelerator.fresh 0) (fresh_valid 0) exampleObjects 4 2 exampleObjects_ne
      exampleObjects_length).imp fun _ h => ⟨h.1, h.2.1, h.2.2.1⟩⟩

theorem Covers.parent_first {m : Int} {node : BVH_Node} {seg : List BVH_Item} {base : Nat}
    {added : List Nat} {t t1 : Nat} (h : Covers m node seg base added t t1) :
    ∀ id c0 c1 off cnt ax bb, BVH_Node.mk id c0 c1 off cnt ax bb ∈ node.nodes →
      ¬ (c0 = BVH_Node.null ∧ c1 = BVH_Node.null) → id < c0.id ∧ id < c1.id := by
  induction h with
  | leaf it0 rest base t hr =>
    intro id c0 c1 off cnt ax bb hmem hint
    simp only [BVH_Node.nodes, List.append_nil, List.mem_singleton] at hmem
    injection hmem with _ h0 h1
    exact absurd ⟨h0, h1⟩ hint
  | nodeLR c0 c1 n segL segR base addL addR t t1 t2 h0 h1 hc ih0 ih1 =>
    intro id d0 d1 off cnt ax bb hmem hint
    obtain ⟨_, _, _, _, _, _, _, _, _, _, _, _, _, _, _, _, e⟩ := createNode_some _ _ _ _ hc
    rw [e] at hmem
    simp only [BVH_Node.nodes, List.mem_cons, List.mem_append] at hmem
    rcases hmem with hm | hm | hm
    · injection hm with hid hd0 hd1
      have := h0.counter_lt
      rw [hid, hd0, hd1, h0.root_id, h1.root_id]
      omega
    · exact ih0 _ _ _ _ _ _ _ hm hint
    · exact ih1 _ _ _ _ _ _ _ hm hint
  | nodeRL c0 c1 n segL segR base addL addR t t1 t2 h1 h0 hc ih1 ih0 =>
    intro id d0 d1 off cnt ax bb hmem hint
    obtain ⟨_, _, _, _, _, _, _, _, _, _, _, _, _, _, _, _, e⟩ := createNode_some _ _ _ _ hc
    rw [e] at hmem
    simp only [BVH_Node.nodes, List.mem_cons, List.mem_append] at hmem
    rcases hmem with hm | hm | hm
    · injection hm with hid hd0 hd1
      have := h1.counter_lt
      rw [hid, hd0, hd1, h0.root_id, h1.root_id]
      omega
    · exact ih0 _ _ _ _ _ _ _ hm hint
    · exact ih1 _ _ _ _ _ _ _ hm hint

theorem buildStep_split_counter (env : Platform) (objects : List BoundingBox) (m : Int)
    (start end_ : Nat) (st : BuildState) (mid nodeId : Nat) (st1 : BuildState)
    (h : buildStep env objects m start end_ st = Except.ok (Step.split mid nodeId st1)) :
    nodeId = st.totalNodes ∧ st1.totalNodes = st.totalNodes + 1 ∧
      st1.orderedObjects = st.orderedObjects := by
  have hleaf : ∀ bbox, emitLeaf objects start end_ bbox st ≠
      Except.ok (Step.split mid nodeId st1) := by
    intro bbox hb
    have := emitLeaf_ok objects start end_ bbox st _ hb
    exact Step.noConfusion this
  unfold buildStep at h
  split at h
  · exact Except.noConfusion h
  · rename_i bbox _
    simp only [] at h
    split at h
    · exact absurd h (hleaf bbox)
    · split at h
      · exact Except.noConfusion h
      · split at h
        · exact absurd h (hleaf bbox)
        · split at h
          · injection h with h
            injection h with _ h2 h3
            subst h2 h3
            exact ⟨rfl, rfl, rfl⟩
          · split at h
            · exact Except.noConfusion h
            · split at h
              · injection h with h
                injection h with _ h2 h3
                subst h2 h3
                exact ⟨rfl, rfl, rfl⟩
              · exact absurd h (hleaf bbox)

/-- C17 (as the code numbers the nodes): ids come from one counter shared by leaves and
interior nodes; an interior node takes its id from the counter before either of its
children is built, so in a built tree the id of every interior node is smaller than the
id of each of its two children; a leaf takes its id at the moment it is created. -/
theorem interior_id_before_children (env : Platform) (henv : env.Conforms)
    (self : BVH_Accelerator) (hv : self.Valid) (objects : List BoundingBox)
    (maxNodeItems : Int) (fuel : Nat) (hne : objects ≠ []) (hfuel : objects.length ≤ fuel) :
    ∃ s, buildTree env self objects maxNodeItems fuel = Except.ok s ∧
      (∀ id c0 c1 off cnt ax bb, BVH_Node.mk id c0 c1 off cnt ax bb ∈ s.root.nodes →
        ¬ (c0 = BVH_Node.null ∧ c1 = BVH_Node.null) → id < c0.id ∧ id < c1.id) ∧
      (∀ st start end_ mid nodeId st1,
        buildStep env objects maxNodeItems start end_ st =
          Except.ok (Step.split mid nodeId st1) →
        nodeId = st.totalNodes ∧ st1.totalNodes = st.totalNodes + 1) ∧
      (∀ st start end_ node st1,
        buildStep env objects maxNodeItems start end_ st = Except.ok (Step.leaf node st1) →
        node.id = st.totalNodes ∧ st1.totalNodes = st.totalNodes + 1) := by
  obtain ⟨node, seg1, added, t1, hrun, hperm, hcov⟩ :=
    buildTree_covers env henv self hv objects maxNodeItems fuel hne hfuel
  refine ⟨_, hrun, hcov.parent_first, ?_, ?_⟩
  · intro st start end_ mid nodeId st1 h
    obtain ⟨h1, h2, _⟩ :=
      buildStep_split_counter env objects maxNodeItems start end_ st mid nodeId st1 h
    exact ⟨h1, h2⟩
  · intro st start end_ nd st1 h
    obtain ⟨bbox, hb⟩ := buildStep_leaf env objects maxNodeItems start end_ st nd st1 h
    have := emitLeaf_ok objects start end_ bbox st _ hb
    injection this with h1 h2
    subst h1 h2
    exact ⟨rfl, rfl⟩

theorem interior_id_before_children_witness :
    Platform.reference.Conforms ∧ (BVH_Accelerator.fresh 0).Valid ∧
    exampleObjects ≠ [] ∧ exampleObjects.length ≤ 2 ∧
    ∃ s, buildTree Platform.reference (BVH_Accelerator.fresh 0) exampleObjects 4 2 =
        Except.ok s ∧
      (∀ id c0 c1 off cnt ax bb, BVH_Node.mk id c0 c1 off cnt ax bb ∈ s.root.nodes →
        ¬ (c0 = BVH_Node.null ∧ c1 = BVH_Node.null) → id < c0.id ∧ id < c1.id) :=
  ⟨Platform.reference_conforms, fresh_valid 0, exampleObjects_ne, exampleObjects_length,
    (interior_id_before_children Platform.reference Platform.reference_conforms
      (BVH_Accelerator.fresh 0) (fresh_valid 0) exampleObjects 4 2 exampleObjects_ne
      exampleObjects_length).imp fun _ h => ⟨h.1, h.2.1⟩⟩

/-- C17 (counterexample): in the tree built over `exampleObjects` the root is an interior
node with id 0 whose children have the ids 1 and 2: its id is not greater than theirs. -/
theorem interior_id_not_after_children :
    ∃ s, buildTree Platform.reference (BVH_Accelerator.fresh 0) exampleObjects 4 2 =
        Except.ok s ∧
      ∃ id c0 c1 off cnt ax bb, BVH_Node.mk id c0 c1 off cnt ax bb ∈ s.root.nodes ∧
        ¬ (c0 = BVH_Node.null ∧ c1 = BVH_Node.null) ∧
        c0.id = 1 ∧ c1.id = 2 ∧ id = 0 ∧ ¬ (id > c0.id ∧ id > c1.id) := by
  refine ⟨{ items := loadItems 0 exampleObjects, orderedObjects := [0, 1],
            maxNodeItems := 4, totalNodes := 3,
            root := BVH_Node.mk 0
              (BVH_Node.mk 1 BVH_Node.null BVH_Node.null 0 1 0 ⟨⟨0, 0, 0⟩, ⟨1, 1, 1⟩⟩)
              (BVH_Node.mk 2 BVH_Node.null BVH_Node.null 1 1 0 ⟨⟨2, 0, 0⟩, ⟨3, 1, 1⟩⟩)
              0 0 0 ⟨⟨0, 0, 0⟩, ⟨3, 1, 1⟩⟩,
            tree := [] }, by with_unfolding_all rfl, 0, _, _, 0, 0, 0, _,
    List.mem_cons_self _ _, ?_, rfl, rfl, rfl, ?_⟩
  · intro h; exact BVH_Node.noConfusion h.1
  · intro h
    have h1 : (0 : Nat) > 1 := h.1
    omega

/-! ## The small-range split and the shape of a split activation -/

theorem buildStep_small (env : Platform) (objects : List BoundingBox) (m : Int)
    (pre post : List BVH_Item) (it0 : BVH_Item) (rest : List BVH_Item) (ord : List Nat)
    (t : Nat) (h2 : 2 ≤ (it0 :: rest).length) (h4 : (it0 :: rest).length ≤ 4)
    (hext : (centerBounds it0 rest).Pmax.get (centerBounds it0 rest).maximumExtent ≠
      (centerBounds it0 rest).Pmin.get (centerBounds it0 rest).maximumExtent) :
    buildStep env objects m pre.length (pre.length + (it0 :: rest).length)
        ⟨pre ++ it0 :: rest ++ post, ord, t⟩ =
      Except.ok (Step.split (pre.length + (it0 :: rest).length / 2) t
        ⟨pre ++ env.nth_element (centerBounds it0 rest).maximumExtent
            ((it0 :: rest).length / 2) (it0 :: rest) ++ post, ord, t + 1⟩) := by
  unfold buildStep
  rw [rangeBounds_segment]
  simp only [Nat.add_sub_cancel_left]
  have h1 : ¬ (it0 :: rest).length = 1 := by omega
  rw [if_neg h1, rangeCenterBounds_segment]
  simp only []
  rw [if_neg hext, if_pos h4, sliceRange_segment, spliceRange_segment]
  have e : (pre.length + (pre.length + (it0 :: rest).length)) / 2 =
      pre.length + (it0 :: rest).length / 2 := by omega
  rw [e, Nat.add_sub_cancel_left]

/-- An activation that splits `seg1` at `k` returns the node made of the trees its two
recursive calls build over the two parts, whichever call runs first. -/
theorem recursiveBuild_split (env : Platform) (henv : env.Conforms)
    (objects : List BoundingBox) (m : Int) (fuel : Nat) (pre seg1 post : List BVH_Item)
    (ord : List Nat) (st : BuildState) (start end_ mid : Nat) (items1 : List BVH_Item)
    (k nodeId t2 : Nat)
    (hstep : buildStep env objects m start end_ st =
      Except.ok (Step.split mid nodeId ⟨items1, ord, t2⟩))
    (hstart : start = pre.length) (hend : end_ = pre.length + seg1.length)
    (hmid : mid = pre.length + k) (hitems : items1 = pre ++ seg1 ++ post)
    (hk0 : 0 < k) (hk : k < seg1.length) (hok : ItemsOK objects seg1)
    (hfuel : seg1.length ≤ fuel + 1) :
    ∃ c0 c1 n segL segR addL addR tA tB,
      createNode nodeId c0 c1 = some n ∧
      List.Perm segL (seg1.take k) ∧ List.Perm segR (seg1.drop k) ∧
      ((env.leftFirst start end_ = true ∧
        recursiveBuild env objects m (fuel + 1) start end_ st =
          Except.ok (n, ⟨pre ++ (segL ++ segR) ++ post, ord ++ (addL ++ addR), tB⟩) ∧
        Covers m c0 segL ord.length addL t2 tA ∧
        Covers m c1 segR (ord.length + addL.length) addR tA tB) ∨
       (env.leftFirst start end_ = false ∧
        recursiveBuild env objects m (fuel + 1) start end_ st =
          Except.ok (n, ⟨pre ++ (segL ++ segR) ++ post, ord ++ (addR ++ addL), tB⟩) ∧
        Covers m c1 segR ord.length addR t2 tA ∧
        Covers m c0 segL (ord.length + addR.length) addL tA tB)) := by
  subst hstart hend hmid hitems
  have hLlen : (seg1.take k).length = k := by
    rw [List.length_take]; omega
  have hRlen : (seg1.drop k).length = seg1.length - k := List.length_drop k seg1
  have hLne : seg1.take k ≠ [] := by
    intro e; rw [e] at hLlen; simp only [List.length_nil] at hLlen; omega
  have hRne : seg1.drop k ≠ [] := by
    intro e; rw [e] at hRlen; simp only [List.length_nil] at hRlen; omega
  have hokL : ItemsOK objects (seg1.take k) :=
    hok.of_subset (fun it h => List.mem_of_mem_take h)
  have hokR : ItemsOK objects (seg1.drop k) :=
    hok.of_subset (fun it h => List.mem_of_mem_drop h)
  cases hord : env.leftFirst pre.length (pre.length + seg1.length) with
  | true =>
    obtain ⟨c0, segL1, addL, t1, hrun0, hpermL, hcov0⟩ :=
      recursiveBuild_segment env henv objects m fuel pre.length (pre.length + k)
        (pre ++ seg1 ++ post) ord t2 pre (seg1.take k) (seg1.drop k ++ post)
        (by rw [List.append_assoc pre, List.append_assoc pre,
              ← List.append_assoc (seg1.take k), List.take_append_drop])
        rfl (by rw [hLlen]) hLne (by omega) hokL
    obtain ⟨c1, segR1, addR, t3, hrun1, hpermR, hcov1⟩ :=
      recursiveBuild_segment env henv objects m fuel (pre.length + k)
        (pre.length + seg1.length) (pre ++ segL1 ++ (seg1.drop k ++ post)) (ord ++ addL) t1
        (pre ++ segL1) (seg1.drop k) post
        (by simp only [List.append_assoc])
        (by rw [List.length_append, hpermL.length_eq, hLlen])
        (by rw [hRlen]; omega) hRne (by omega) hokR
    have hcov1b : Covers m c1 segR1 (ord.length + addL.length) addR t1 t3 := by
      rw [List.length_append] at hcov1; exact hcov1
    obtain ⟨n, hn⟩ := createNode_of_covers nodeId hcov0 hcov1b
    refine ⟨c0, c1, n, segL1, segR1, addL, addR, t1, t3, hn, hpermL, hpermR,
      Or.inl ⟨rfl, ?_, hcov0, hcov1b⟩⟩
    simp only [recursiveBuild, hstep, hord, if_true, hrun0, hrun1, hn]
    simp only [List.append_assoc]
  | false =>
    obtain ⟨c1, segR1, addR, t1, hrun1, hpermR, hcov1⟩ :=
      recursiveBuild_segment env henv objects m fuel (pre.length + k)
        (pre.length + seg1.length) (pre ++ seg1 ++ post) ord t2
        (pre ++ seg1.take k) (seg1.drop k) post
        (by rw [List.append_assoc pre (seg1.take k), List.take_append_drop])
        (by rw [List.length_append, hLlen])
        (by rw [hRlen]; omega) hRne (by omega) hokR
    obtain ⟨c0, segL1, addL, t3, hrun0, hpermL, hcov0⟩ :=
      recursiveBuild_segment env henv objects m fuel pre.length (pre.length + k)
        (pre ++ seg1.take k ++ segR1 ++ post) (ord ++ addR) t1
        pre (seg1.take k) (segR1 ++ post)
        (by simp only [List.append_assoc])
        rfl (by rw [hLlen]) hLne (by omega) hokL
    have hcov0b : Covers m c0 segL1 (ord.length + addR.length) addL t1 t3 := by
      rw [List.length_append] at hcov0; exact hcov0
    obtain ⟨n, hn⟩ := createNode_of_covers nodeId hcov0b hcov1
    refine ⟨c0, c1, n, segL1, segR1, addL, addR, t1, t3, hn, hpermL, hpermR,
      Or.inr ⟨rfl, ?_, hcov1, hcov0b⟩⟩
    simp only [recursiveBuild, hstep, hord, Bool.false_eq_true, if_false, hrun1, hrun0, hn]
    simp only [List.append_assoc]

theorem Covers.seg_ne_nil {m : Int} {node : BVH_Node} {seg : List BVH_Item} {base : Nat}
    {added : List Nat} {t t1 : Nat} (h : Covers m node seg base added t t1) : seg ≠ [] := by
  induction h with
  | leaf it0 rest base t hr => exact List.cons_ne_nil _ _
  | nodeLR c0 c1 n segL segR base addL addR t t1 t2 h0 h1 hc ih0 ih1 =>
    intro e; exact ih0 (List.append_eq_nil.mp e).1
  | nodeRL c0 c1 n segL segR base addL addR t t1 t2 h1 h0 hc ih1 ih0 =>
    intro e; exact ih0 (List.append_eq_nil.mp e).1

theorem Covers.single {m : Int} {node : BVH_Node} {seg : List BVH_Item} {base : Nat}
    {added : List Nat} {t t1 : Nat} (h : Covers m node seg base added t t1)
    (hlen : seg.length = 1) :
    ∃ bb, node = BVH_Node.mk t BVH_Node.null BVH_Node.null base 1 0 bb := by
  cases h with
  | leaf it0 rest base t hr => rw [hlen]; exact ⟨_, rfl⟩
  | nodeLR c0 c1 n segL segR base addL addR t t1 t2 h0 h1 hc =>
    exfalso
    have := List.length_pos.mpr h0.seg_ne_nil
    have := List.length_pos.mpr h1.seg_ne_nil
    rw [List.length_append] at hlen
    omega
  | nodeRL c0 c1 n segL segR base addL addR t t1 t2 h1 h0 hc =>
    exfalso
    have := List.length_pos.mpr h0.seg_ne_nil
    have := List.length_pos.mpr h1.seg_ne_nil
    rw [List.length_append] at hlen
    omega

/-- C13: for every input of 3 primitives whose centroids are pairwise distinct along the
axis chosen by maximumExtent of the centroid box, the root activation splits at mid = 1
and the root is an interior node: children[0] is a leaf with objectCount 1 that covers
exactly 1 primitive, and children[1] covers exactly 2 primitives. -/
theorem buildTree_three (env : Platform) (henv : env.Conforms) (self : BVH_Accelerator)
    (hv : self.Valid) (b0 b1 b2 : BoundingBox) (maxNodeItems : Int) (fuel : Nat)
    (hfuel : 3 ≤ fuel)
    (hdist :
      (centroid b0).get
          (centerBounds (BVH_Item.make 0 b0)
            [BVH_Item.make 1 b1, BVH_Item.make 2 b2]).maximumExtent ≠
        (centroid b1).get
          (centerBounds (BVH_Item.make 0 b0)
            [BVH_Item.make 1 b1, BVH_Item.make 2 b2]).maximumExtent ∧
      (centroid b0).get
          (centerBounds (BVH_Item.make 0 b0)
            [BVH_Item.make 1 b1, BVH_Item.make 2 b2]).maximumExtent ≠
        (centroid b2).get
          (centerBounds (BVH_Item.make 0 b0)
            [BVH_Item.make 1 b1, BVH_Item.make 2 b2]).maximumExtent ∧
      (centroid b1).get
          (centerBounds (BVH_Item.make 0 b0)
            [BVH_Item.make 1 b1, BVH_Item.make 2 b2]).maximumExtent ≠
        (centroid b2).get
          (centerBounds (BVH_Item.make 0 b0)
            [BVH_Item.make 1 b1, BVH_Item.make 2 b2]).maximumExtent) :
    (∃ st1, buildStep env [b0, b1, b2] maxNodeItems 0 3
        ⟨loadItems 0 [b0, b1, b2], [], 0⟩ = Except.ok (Step.split 1 0 st1)) ∧
    ∃ s, buildTree env self [b0, b1, b2] maxNodeItems fuel = Except.ok s ∧
      ∃ c0 c1 bb id0 off0 bb0,
        s.root = BVH_Node.mk 0 c0 c1 0 0 0 bb ∧
        c0 = BVH_Node.mk id0 BVH_Node.null BVH_Node.null off0 1 0 bb0 ∧
        c0.primCount = 1 ∧ c1 ≠ BVH_Node.null ∧ c1.primCount = 2 := by
  -- the centroid box has positive extent on the chosen axis
  have hext : (centerBounds (BVH_Item.make 0 b0)
        [BVH_Item.make 1 b1, BVH_Item.make 2 b2]).Pmax.get
        (centerBounds (BVH_Item.make 0 b0)
          [BVH_Item.make 1 b1, BVH_Item.make 2 b2]).maximumExtent ≠
      (centerBounds (BVH_Item.make 0 b0)
        [BVH_Item.make 1 b1, BVH_Item.make 2 b2]).Pmin.get
        (centerBounds (BVH_Item.make 0 b0)
          [BVH_Item.make 1 b1, BVH_Item.make 2 b2]).maximumExtent := by
    intro e
    have ha := centerBounds_contains
      (centerBounds (BVH_Item.make 0 b0)
        [BVH_Item.make 1 b1, BVH_Item.make 2 b2]).maximumExtent
      (BVH_Item.make 0 b0) [BVH_Item.make 1 b1, BVH_Item.make 2 b2]
      (BVH_Item.make 0 b0) (by simp)
    have hb := centerBounds_contains
      (centerBounds (BVH_Item.make 0 b0)
        [BVH_Item.make 1 b1, BVH_Item.make 2 b2]).maximumExtent
      (BVH_Item.make 0 b0) [BVH_Item.make 1 b1, BVH_Item.make 2 b2]
      (BVH_Item.make 1 b1) (by simp)
    rw [e] at ha hb
    apply hdist.1
    show (BVH_Item.make 0 b0).center.get _ = (BVH_Item.make 1 b1).center.get _
    exact le_antisymm (le_trans ha.2 hb.1) (le_trans hb.2 ha.1)
  have hperm := henv.nth_element_perm
    (centerBounds (BVH_Item.make 0 b0)
      [BVH_Item.make 1 b1, BVH_Item.make 2 b2]).maximumExtent 1
    [BVH_Item.make 0 b0, BVH_Item.make 1 b1, BVH_Item.make 2 b2]
  have hstep : buildStep env [b0, b1, b2] maxNodeItems 0 3
      ⟨[BVH_Item.make 0 b0, BVH_Item.make 1 b1, BVH_Item.make 2 b2], [], 0⟩ =
      Except.ok (Step.split 1 0
        ⟨env.nth_element
          (centerBounds (BVH_Item.make 0 b0)
            [BVH_Item.make 1 b1, BVH_Item.make 2 b2]).maximumExtent 1
          [BVH_Item.make 0 b0, BVH_Item.make 1 b1, BVH_Item.make 2 b2], [], 1⟩) := by
    have h := buildStep_small env [b0, b1, b2] maxNodeItems [] [] (BVH_Item.make 0 b0)
      [BVH_Item.make 1 b1, BVH_Item.make 2 b2] [] 0 (by simp) (by simp) hext
    rw [List.append_nil, List.append_nil,
      show [BVH_Item.make 0 b0, BVH_Item.make 1 b1, BVH_Item.make 2 b2].length = 3 from rfl,
      show (3 : Nat) / 2 = 1 from rfl] at h
    exact h
  have hlen3 : (env.nth_element
      (centerBounds (BVH_Item.make 0 b0)
        [BVH_Item.make 1 b1, BVH_Item.make 2 b2]).maximumExtent 1
      [BVH_Item.make 0 b0, BVH_Item.make 1 b1, BVH_Item.make 2 b2]).length = 3 :=
    hperm.length_eq
  constructor
  · exact ⟨_, hstep⟩
  · obtain ⟨f, rfl⟩ : ∃ f, fuel = f + 1 := ⟨fuel - 1, by omega⟩
    have hok : ItemsOK [b0, b1, b2]
        (env.nth_element
          (centerBounds (BVH_Item.make 0 b0)
            [BVH_Item.make 1 b1, BVH_Item.make 2 b2]).maximumExtent 1
          [BVH_Item.make 0 b0, BVH_Item.make 1 b1, BVH_Item.make 2 b2]) :=
      (loadItems_ok_zero [b0, b1, b2]).of_perm hperm
    obtain ⟨c0, c1, n, segL, segR, addL, addR, tA, tB, hn, hpL, hpR, hcase⟩ :=
      recursiveBuild_split env henv [b0, b1, b2] maxNodeItems f []
        (env.nth_element
          (centerBounds (BVH_Item.make 0 b0)
            [BVH_Item.make 1 b1, BVH_Item.make 2 b2]).maximumExtent 1
          [BVH_Item.make 0 b0, BVH_Item.make 1 b1, BVH_Item.make 2 b2])
        [] [] _ 0 3 1 _ 1 0 1 hstep rfl (by rw [hlen3]; rfl) rfl (by simp)
        (by omega) (by omega) hok (by omega)
    have hLlen : segL.length = 1 := by
      rw [hpL.length_eq, List.length_take]; omega
    have hRlen : segR.length = 2 := by
      rw [hpR.length_eq, List.length_drop]; omega
    obtain ⟨i0, a0, d0, o0, k0, x0, bb0, i1, a1, d1, o1, k1, x1, bb1, e0, e1, en⟩ :=
      createNode_some _ _ _ _ hn
    have hfin : ∀ (added : List Nat) (tB : Nat) (baseL : Nat) (tL tL1 : Nat)
        (baseR : Nat) (tR tR1 : Nat),
        recursiveBuild env [b0, b1, b2] maxNodeItems (f + 1) 0 3
          ⟨[BVH_Item.make 0 b0, BVH_Item.make 1 b1, BVH_Item.make 2 b2], [], 0⟩ =
          Except.ok (n, ⟨[] ++ (segL ++ segR) ++ [], [] ++ added, tB⟩) →
        Covers maxNodeItems c0 segL baseL addL tL tL1 →
        Covers maxNodeItems c1 segR baseR addR tR tR1 →
        ∃ s, buildTree env self [b0, b1, b2] maxNodeItems (f + 1) = Except.ok s ∧
          ∃ c0 c1 bb id0 off0 bb0,
            s.root = BVH_Node.mk 0 c0 c1 0 0 0 bb ∧
            c0 = BVH_Node.mk id0 BVH_Node.null BVH_Node.null off0 1 0 bb0 ∧
            c0.primCount = 1 ∧ c1 ≠ BVH_Node.null ∧ c1.primCount = 2 := by
      intro added tB baseL tL tL1 baseR tR tR1 hrun hc0 hc1
      obtain ⟨bbl, hleaf⟩ := hc0.single hLlen
      refine ⟨{ items := segL ++ segR, orderedObjects := added,
                maxNodeItems := maxNodeItems, totalNodes := tB, root := n,
                tree := (self.prepare [b0, b1, b2] maxNodeItems).tree }, ?_,
        c0, c1, _, tL, baseL, bbl, en, hleaf, ?_, ?_, ?_⟩
      · unfold buildTree
        simp only [prepare_buildState self hv [b0, b1, b2] maxNodeItems]
        have hrun' : recursiveBuild env [b0, b1, b2] maxNodeItems (f + 1) 0
            [b0, b1, b2].length ⟨loadItems 0 [b0, b1, b2], [], 0⟩ =
            Except.ok (n, ⟨segL ++ segR, added, tB⟩) := by
          simpa using hrun
        rw [hrun']
        simp [BVH_Accelerator.withBuildState, BVH_Accelerator.prepare]
      · rw [hc0.primCount_eq, hLlen]
      · rw [e1]; exact fun h => BVH_Node.noConfusion h
      · rw [hc1.primCount_eq, hRlen]
    rcases hcase with ⟨_, hrun, hc0, hc1⟩ | ⟨_, hrun, hc1, hc0⟩
    · exact hfin _ _ _ _ _ _ _ _ hrun hc0 hc1
    · exact hfin _ _ _ _ _ _ _ _ hrun hc0 hc1

theorem buildTree_three_witness :
    Platform.reference.Conforms ∧ (BVH_Accelerator.fresh 0).Valid ∧ 3 ≤ 3 ∧
    ∃ s, buildTree Platform.reference (BVH_Accelerator.fresh 0)
        [⟨⟨3, 0, 0⟩, ⟨4, 1, 1⟩⟩, ⟨⟨1, 0, 0⟩, ⟨2, 1, 1⟩⟩, ⟨⟨2, 0, 0⟩, ⟨3, 1, 1⟩⟩] 4 3 =
        Except.ok s ∧
      ∃ c0 c1 bb id0 off0 bb0,
        s.root = BVH_Node.mk 0 c0 c1 0 0 0 bb ∧
        c0 = BVH_Node.mk id0 BVH_Node.null BVH_Node.null off0 1 0 bb0 ∧
        c0.primCount = 1 ∧ c1 ≠ BVH_Node.null ∧ c1.primCount = 2 :=
  ⟨Platform.reference_conforms, fresh_valid 0, le_refl 3,
    (buildTree_three Platform.reference Platform.reference_conforms
      (BVH_Accelerator.fresh 0) (fresh_valid 0)
      ⟨⟨3, 0, 0⟩, ⟨4, 1, 1⟩⟩ ⟨⟨1, 0, 0⟩, ⟨2, 1, 1⟩⟩ ⟨⟨2, 0, 0⟩, ⟨3, 1, 1⟩⟩ 4 3 (le_refl 3)
      (by with_unfolding_all decide)).2⟩

/-! ## The SAH buckets and costs as the code computes them -/

theorem foldl_box_count (buckets : Nat → BucketInfo) (l : List Nat) :
    ∀ (b : BoundingBox) (n : Nat),
      l.foldl (fun (acc : BoundingBox × Nat) j =>
          (getTotalBoundingBox acc.1 (buckets j).boundingBox, acc.2 + (buckets j).count))
        (b, n) =
      (l.foldl (fun b j => getTotalBoundingBox b (buckets j).boundingBox) b,
        n + (l.map fun j => (buckets j).count).sum) := by
  induction l with
  | nil => intro b n; simp
  | cons a r ih =>
    intro b n
    simp only [List.foldl_cons, List.map_cons, List.sum_cons]
    rw [ih]
    simp only [Nat.add_assoc]

/-- The counts that enter `cost[i]`: `count0` sums the buckets `1..i` and `count1` the
buckets `i+2..11`, while the boxes are the unions over `0..i` and `i+1..11`. -/
theorem sahCost_counts (buckets : Nat → BucketInfo) (bbox : BoundingBox) (i : Nat) :
    sahCost buckets bbox i =
      FloatVal.addConst (1 / 8)
        (FloatVal.div
          ((((List.range' 1 i).map fun j => (buckets j).count).sum : ℚ) *
              ((List.range' 1 i).foldl
                (fun b j => getTotalBoundingBox b (buckets j).boundingBox)
                (buckets 0).boundingBox).surfaceArea +
            (((List.range' (i + 2) (nBuckets - (i + 2))).map
                fun j => (buckets j).count).sum : ℚ) *
              ((List.range' (i + 2) (nBuckets - (i + 2))).foldl
                (fun b j => getTotalBoundingBox b (buckets j).boundingBox)
                (buckets (i + 1)).boundingBox).surfaceArea)
          bbox.surfaceArea) := by
  unfold sahCost
  simp only [foldl_box_count, Nat.zero_add]

theorem addToBucket_some (cb : BoundingBox) (dim : Nat) (acc res : Nat → BucketInfo)
    (a : BVH_Item) (h : addToBucket cb dim acc a = some res) :
    0 ≤ bucketOf cb dim a ∧ bucketOf cb dim a < 12 ∧
    res = Function.update acc (bucketOf cb dim a).toNat
      { count := (acc (bucketOf cb dim a).toNat).count + 1,
        boundingBox :=
          getTotalBoundingBox (acc (bucketOf cb dim a).toNat).boundingBox a.boundingBox } := by
  unfold addToBucket at h
  simp only [nBuckets] at h
  split at h
  · rename_i hb
    exact ⟨hb.1, by simpa using hb.2, (Option.some.inj h).symm⟩
  · exact Option.noConfusion h

theorem foldlM_buckets (cb : BoundingBox) (dim : Nat) (seg : List BVH_Item) :
    ∀ (acc res : Nat → BucketInfo), seg.foldlM (addToBucket cb dim) acc = some res →
      ∀ b : Nat,
        (res b).count = (acc b).count + (bucketMembers cb dim seg b).length ∧
        (res b).boundingBox =
          (bucketMembers cb dim seg b).foldl
            (fun bb it => getTotalBoundingBox bb it.boundingBox) (acc b).boundingBox := by
  induction seg with
  | nil =>
    intro acc res h b
    simp only [List.foldlM] at h
    have e : acc = res := Option.some.inj h
    subst e
    simp [bucketMembers]
  | cons a r ih =>
    intro acc res h b
    simp only [List.foldlM] at h
    cases hstep : addToBucket cb dim acc a with
    | none => rw [hstep] at h; exact Option.noConfusion h
    | some acc1 =>
      rw [hstep] at h
      have hrec := ih acc1 res h b
      obtain ⟨h0, h12, hupd⟩ := addToBucket_some cb dim acc acc1 a hstep
      by_cases hb : bucketOf cb dim a = (b : Int)
      · have hj : (bucketOf cb dim a).toNat = b := by omega
        have hmem : bucketMembers cb dim (a :: r) b = a :: bucketMembers cb dim r b := by
          simp [bucketMembers, hb]
        have hacc1 : acc1 b =
            ⟨(acc b).count + 1, getTotalBoundingBox (acc b).boundingBox a.boundingBox⟩ := by
          rw [hupd, hj]; simp
        rw [hmem, hrec.1, hrec.2, hacc1]
        simp only [List.length_cons, List.foldl_cons]
        exact ⟨by omega, trivial⟩
      · have hj : (bucketOf cb dim a).toNat ≠ b := by omega
        have hmem : bucketMembers cb dim (a :: r) b = bucketMembers cb dim r b := by
          simp [bucketMembers, hb]
        have hacc1 : acc1 b = acc b := by
          rw [hupd]; exact Function.update_noteq (Ne.symm hj) _ _
        rw [hmem, hrec.1, hrec.2, hacc1]
        exact ⟨rfl, rfl⟩

/-- After the bucket-filling loop the count of every bucket is the number of descriptors
of the range with that bucket index, and its box is the union of their boxes and of the
box the bucket started with. -/
theorem fillBuckets_content (env : Platform) (cb : BoundingBox) (dim : Nat)
    (pre seg post : List BVH_Item) (buckets : Nat → BucketInfo)
    (h : fillBuckets env cb dim (pre ++ seg ++ post) pre.length (pre.length + seg.length) =
      some buckets) (b : Nat) :
    (buckets b).count = (bucketMembers cb dim seg b).length ∧
    (buckets b).boundingBox =
      (bucketMembers cb dim seg b).foldl
        (fun bb it => getTotalBoundingBox bb it.boundingBox) (env.bucketInit b) := by
  unfold fillBuckets at h
  rw [Nat.add_sub_cancel_left, forItems_segment] at h
  have := foldlM_buckets cb dim seg _ buckets h b
  simpa using this

set_option maxRecDepth 100000 in
/-- C18 (the code at the failing input): for the five boxes of `lineObjects` (range
[0, 5), bounds [0,5]x[0,1]x[0,1], axis 0, one descriptor in each of the buckets 0, 3, 6,
9, 11) the code computes cost[0] = 0.125 + (0 * 6 + 4 * 22) / 22 = 33/8, because count0
never includes buckets[0].count (and count1 never includes buckets[i+1].count), where the
formula of the claim gives 0.125 + (1 * 6 + 4 * 22) / 22 = 387/88; with the code's costs
the minimum is at bucket 8, with the claimed ones at bucket 3. In general count0 sums the
buckets 1..i and count1 the buckets i+2..11. -/
theorem sahCost_omits_bucket_counts :
    rangeBounds (loadItems 0 lineObjects) 0 5 = some ⟨⟨0, 0, 0⟩, ⟨5, 1, 1⟩⟩ ∧
    rangeCenterBounds (loadItems 0 lineObjects) 0 5 =
      some ⟨⟨1 / 2, 1 / 2, 1 / 2⟩, ⟨9 / 2, 1 / 2, 1 / 2⟩⟩ ∧
    BoundingBox.maximumExtent ⟨⟨1 / 2, 1 / 2, 1 / 2⟩, ⟨9 / 2, 1 / 2, 1 / 2⟩⟩ = 0 ∧
    (fillBuckets Platform.reference ⟨⟨1 / 2, 1 / 2, 1 / 2⟩, ⟨9 / 2, 1 / 2, 1 / 2⟩⟩ 0
        (loadItems 0 lineObjects) 0 5).map
      (fun b => ((List.range 12).map fun j => (b j).count,
        sahCost b ⟨⟨0, 0, 0⟩, ⟨5, 1, 1⟩⟩ 0, specCost b ⟨⟨0, 0, 0⟩, ⟨5, 1, 1⟩⟩ 0,
        (findMinCost (sahCost b ⟨⟨0, 0, 0⟩, ⟨5, 1, 1⟩⟩)).2,
        (findMinCost (specCost b ⟨⟨0, 0, 0⟩, ⟨5, 1, 1⟩⟩)).2)) =
      some ([1, 0, 0, 1, 0, 0, 1, 0, 0, 1, 0, 1],
        FloatVal.finite (33 / 8), FloatVal.finite (387 / 88), 8, 3) ∧
    (∀ (buckets : Nat → BucketInfo) (bbox : BoundingBox) (i : Nat),
      sahCost buckets bbox i =
        FloatVal.addConst (1 / 8)
          (FloatVal.div
            ((((List.range' 1 i).map fun j => (buckets j).count).sum : ℚ) *
                ((List.range' 1 i).foldl
                  (fun b j => getTotalBoundingBox b (buckets j).boundingBox)
                  (buckets 0).boundingBox).surfaceArea +
              (((List.range' (i + 2) (nBuckets - (i + 2))).map
                  fun j => (buckets j).count).sum : ℚ) *
                ((List.range' (i + 2) (nBuckets - (i + 2))).foldl
                  (fun b j => getTotalBoundingBox b (buckets j).boundingBox)
                  (buckets (i + 1)).boundingBox).surfaceArea)
            bbox.surfaceArea)) := by
  refine ⟨by with_unfolding_all rfl, by with_unfolding_all rfl, by with_unfolding_all rfl,
    by with_unfolding_all rfl, sahCost_counts⟩

set_option maxRecDepth 100000 in
/-- C19 (the code at the failing input): for the five boxes of `farObjects` on a platform
where a `BoundingBox` without initializer is all zero, bucket 0 receives exactly the
descriptor of the box [10,11]^3 and its count is 1, but its accumulated box is
[0,11]^3: the box the bucket started with is part of the union. In general the box of a
bucket is the union of the boxes of its descriptors and of its initial box. -/
theorem bucket_box_includes_initial_value :
    rangeCenterBounds (loadItems 0 farObjects) 0 5 =
      some ⟨⟨21 / 2, 21 / 2, 21 / 2⟩, ⟨29 / 2, 21 / 2, 21 / 2⟩⟩ ∧
    BoundingBox.maximumExtent ⟨⟨21 / 2, 21 / 2, 21 / 2⟩, ⟨29 / 2, 21 / 2, 21 / 2⟩⟩ = 0 ∧
    (bucketMembers ⟨⟨21 / 2, 21 / 2, 21 / 2⟩, ⟨29 / 2, 21 / 2, 21 / 2⟩⟩ 0
        (loadItems 0 farObjects) 0).map (fun it => it.boundingBox) =
      [⟨⟨10, 10, 10⟩, ⟨11, 11, 11⟩⟩] ∧
    (fillBuckets Platform.reference ⟨⟨21 / 2, 21 / 2, 21 / 2⟩, ⟨29 / 2, 21 / 2, 21 / 2⟩⟩ 0
        (loadItems 0 farObjects) 0 5).map (fun b => ((b 0).count, (b 0).boundingBox)) =
      some (1, ⟨⟨0, 0, 0⟩, ⟨11, 11, 11⟩⟩) ∧
    (∀ (env : Platform) (cb : BoundingBox) (dim : Nat) (pre seg post : List BVH_Item)
      (buckets : Nat → BucketInfo) (b : Nat),
      fillBuckets env cb dim (pre ++ seg ++ post) pre.length (pre.length + seg.length) =
        some buckets →
      (buckets b).count = (bucketMembers cb dim seg b).length ∧
      (buckets b).boundingBox =
        (bucketMembers cb dim seg b).foldl
          (fun bb it => getTotalBoundingBox bb it.boundingBox) (env.bucketInit b)) := by
  refine ⟨by with_unfolding_all rfl, by with_unfolding_all rfl, by with_unfolding_all rfl,
    by with_unfolding_all rfl, ?_⟩
  intro env cb dim pre seg post buckets b h
  exact fillBuckets_content env cb dim pre seg post buckets h b

/-! ## The scan for the cheapest split -/

theorem FloatVal.lt_irrefl (a : FloatVal) : a.lt a = false := by
  cases a <;> simp [FloatVal.lt]

theorem FloatVal.lt_trans {a b c : FloatVal} (hab : a.lt b = true) (hbc : b.lt c = true) :
    a.lt c = true := by
  cases a <;> cases b <;> cases c <;>
    simp only [FloatVal.lt, decide_eq_true_eq] at hab hbc ⊢ <;>
    first
      | exact hab.trans hbc
      | exact absurd hab Bool.false_ne_true
      | exact absurd hbc Bool.false_ne_true

theorem FloatVal.le_of_not_lt {a b : FloatVal} (ha : a ≠ FloatVal.nan) (hb : b ≠ FloatVal.nan)
    (h : b.lt a = false) : a.le b = true := by
  cases a <;> cases b <;> simp [FloatVal.lt, FloatVal.le] at ha hb h ⊢
  exact h

theorem findMinCost_scan (cost : Nat → FloatVal) (k : Nat) :
    ((List.range' 1 k).foldl
        (fun (acc : FloatVal × Nat) i => if (cost i).lt acc.1 then (cost i, i) else acc)
        (cost 0, 0)).2 ≤ k ∧
    ((List.range' 1 k).foldl
        (fun (acc : FloatVal × Nat) i => if (cost i).lt acc.1 then (cost i, i) else acc)
        (cost 0, 0)).1 =
      cost ((List.range' 1 k).foldl
        (fun (acc : FloatVal × Nat) i => if (cost i).lt acc.1 then (cost i, i) else acc)
        (cost 0, 0)).2 ∧
    (∀ j, j ≤ k → (cost j).lt ((List.range' 1 k).foldl
        (fun (acc : FloatVal × Nat) i => if (cost i).lt acc.1 then (cost i, i) else acc)
        (cost 0, 0)).1 = false) ∧
    (∀ j, j < ((List.range' 1 k).foldl
        (fun (acc : FloatVal × Nat) i => if (cost i).lt acc.1 then (cost i, i) else acc)
        (cost 0, 0)).2 → cost j ≠ ((List.range' 1 k).foldl
        (fun (acc : FloatVal × Nat) i => if (cost i).lt acc.1 then (cost i, i) else acc)
        (cost 0, 0)).1) := by
  induction k with
  | zero =>
    refine ⟨le_refl _, rfl, ?_, ?_⟩
    · intro j hj
      have : j = 0 := by omega
      subst this
      exact FloatVal.lt_irrefl _
    · intro j hj
      exact absurd hj (Nat.not_lt_zero _)
  | succ k ih =>
    rw [List.range'_concat, List.foldl_append]
    simp only [List.foldl_cons, List.foldl_nil, one_mul]
    generalize (List.range' 1 k).foldl
        (fun (acc : FloatVal × Nat) i => if (cost i).lt acc.1 then (cost i, i) else acc)
        (cost 0, 0) = acc at ih ⊢
    obtain ⟨h1, h2, h3, h4⟩ := ih
    by_cases hlt : (cost (1 + k)).lt acc.1 = true
    · rw [if_pos hlt]
      refine ⟨by simp only []; omega, rfl, ?_, ?_⟩
      · intro j hj
        simp only []
        by_cases hjk : j ≤ k
        · cases hc : (cost j).lt (cost (1 + k)) with
          | false => rfl
          | true =>
            have := FloatVal.lt_trans hc hlt
            rw [h3 j hjk] at this
            exact Bool.noConfusion this
        · have : j = 1 + k := by omega
          subst this
          exact FloatVal.lt_irrefl _
      · intro j hj e
        simp only [] at hj e
        have hjk : j ≤ k := by omega
        have := h3 j hjk
        rw [e, hlt] at this
        exact Bool.noConfusion this
    · rw [if_neg hlt]
      refine ⟨by omega, h2, ?_, h4⟩
      intro j hj
      by_cases hjk : j ≤ k
      · exact h3 j hjk
      · have : j = 1 + k := by omega
        subst this
        simpa using hlt

/-- C21: in the SAH step the scan over `cost[0..10]` returns `(minCost, minCostSplitBucket)`
where minCostSplitBucket is an index in 0..10, minCost = cost[minCostSplitBucket], no
cost[j] with j in 0..10 is smaller than minCost (it is the minimum), and no index below
minCostSplitBucket has a cost equal to minCost: among equal minimal costs the lowest index
is chosen. When no cost is NaN, minCost <= cost[j] for every j in 0..10. -/
theorem findMinCost_first_minimum (cost : Nat → FloatVal) :
    (findMinCost cost).2 ≤ 10 ∧
    (findMinCost cost).1 = cost (findMinCost cost).2 ∧
    (∀ j, j ≤ 10 → (cost j).lt (findMinCost cost).1 = false) ∧
    (∀ j, j < (findMinCost cost).2 → cost j ≠ (findMinCost cost).1) ∧
    ((∀ j, j ≤ 10 → cost j ≠ FloatVal.nan) →
      ∀ j, j ≤ 10 → (findMinCost cost).1.le (cost j) = true) := by
  obtain ⟨h1, h2, h3, h4⟩ := findMinCost_scan cost 10
  have e : findMinCost cost = (List.range' 1 10).foldl
      (fun (acc : FloatVal × Nat) i => if (cost i).lt acc.1 then (cost i, i) else acc)
      (cost 0, 0) := rfl
  rw [e]
  refine ⟨h1, h2, h3, h4, ?_⟩
  intro hnan j hj
  apply FloatVal.le_of_not_lt _ (hnan j hj) (h3 j hj)
  rw [h2]
  exact hnan _ h1

/-! ## The degenerate-axis test -/

/-- C25: for every range of descriptors (in particular every range of two or more), with
centerBbox the bounds of its centroids and dim = centerBbox.maximumExtent(), the test
centerBbox.Pmax[dim] == centerBbox.Pmin[dim] succeeds if and only if all centroids of the
range are identical, on all three axes and not only on axis dim; centerBbox is what
recursiveBuild computes for the range. -/
theorem degenerate_iff_same_centroid (pre post : List BVH_Item) (it0 : BVH_Item)
    (rest : List BVH_Item) :
    rangeCenterBounds (pre ++ it0 :: rest ++ post) pre.length
        (pre.length + (it0 :: rest).length) = some (centerBounds it0 rest) ∧
    ((centerBounds it0 rest).Pmax.get (centerBounds it0 rest).maximumExtent =
        (centerBounds it0 rest).Pmin.get (centerBounds it0 rest).maximumExtent ↔
      ∀ a ∈ it0 :: rest, ∀ b ∈ it0 :: rest,
        a.center.x = b.center.x ∧ a.center.y = b.center.y ∧ a.center.z = b.center.z) := by
  refine ⟨rangeCenterBounds_segment _ _ _ _, ?_, ?_⟩
  · intro hdeg a ha b hb
    have := degenerate_same_center it0 rest hdeg a ha b hb
    rw [this]
    exact ⟨rfl, rfl, rfl⟩
  · intro hsame
    obtain ⟨a, ha, hav⟩ := centerBounds_min_attained
      (centerBounds it0 rest).maximumExtent it0 rest
    obtain ⟨b, hb, hbv⟩ := centerBounds_max_attained
      (centerBounds it0 rest).maximumExtent it0 rest
    have hab : a.center = b.center := by
      obtain ⟨hx, hy, hz⟩ := hsame a ha b hb
      cases hca : a.center
      cases hcb : b.center
      rw [hca, hcb] at hx hy hz
      simp only at hx hy hz
      rw [hx, hy, hz]
    rw [← hav, ← hbv, hab]

/-! ## The two ways a range is split -/

theorem buildStep_sah (env : Platform) (objects : List BoundingBox) (m : Int)
    (pre post : List BVH_Item) (it0 : BVH_Item) (rest : List BVH_Item) (ord : List Nat)
    (t : Nat) (h4 : 4 < (it0 :: rest).length)
    (hext : (centerBounds it0 rest).Pmax.get (centerBounds it0 rest).maximumExtent ≠
      (centerBounds it0 rest).Pmin.get (centerBounds it0 rest).maximumExtent) :
    ∃ buckets, fillBuckets env (centerBounds it0 rest) (centerBounds it0 rest).maximumExtent
        (pre ++ it0 :: rest ++ post) pre.length (pre.length + (it0 :: rest).length) =
          some buckets ∧
      buildStep env objects m pre.length (pre.length + (it0 :: rest).length)
          ⟨pre ++ it0 :: rest ++ post, ord, t⟩ =
        if (((it0 :: rest).length : Nat) : Int) > m ∨
            (findMinCost (sahCost buckets
              (rest.foldl (fun b it => getTotalBoundingBox b it.boundingBox)
                it0.boundingBox))).1.lt
              (FloatVal.finite (((it0 :: rest).length : Nat) : ℚ)) = true then
          Except.ok (Step.split
            (pre.length + (env.partition
              (fun pi => decide (bucketOf (centerBounds it0 rest)
                (centerBounds it0 rest).maximumExtent pi ≤
                  (((findMinCost (sahCost buckets
                    (rest.foldl (fun b it => getTotalBoundingBox b it.boundingBox)
                      it0.boundingBox))).2 : Nat) : Int)))
              (it0 :: rest)).2) t
            ⟨pre ++ (env.partition
              (fun pi => decide (bucketOf (centerBounds it0 rest)
                (centerBounds it0 rest).maximumExtent pi ≤
                  (((findMinCost (sahCost buckets
                    (rest.foldl (fun b it => getTotalBoundingBox b it.boundingBox)
                      it0.boundingBox))).2 : Nat) : Int)))
              (it0 :: rest)).1 ++ post, ord, t + 1⟩)
        else emitLeaf objects pre.length (pre.length + (it0 :: rest).length)
          (rest.foldl (fun b it => getTotalBoundingBox b it.boundingBox) it0.boundingBox)
          ⟨pre ++ it0 :: rest ++ post, ord, t⟩ := by
  have hlt : (centerBounds it0 rest).Pmin.get (centerBounds it0 rest).maximumExtent <
      (centerBounds it0 rest).Pmax.get (centerBounds it0 rest).maximumExtent :=
    lt_of_le_of_ne (centerBounds_ordered _ it0 rest) (fun e => hext e.symm)
  have hbk : ∀ it ∈ it0 :: rest,
      0 ≤ bucketOf (centerBounds it0 rest) (centerBounds it0 rest).maximumExtent it ∧
      bucketOf (centerBounds it0 rest) (centerBounds it0 rest).maximumExtent it < 12 := by
    intro it hit
    have hc := centerBounds_contains (centerBounds it0 rest).maximumExtent it0 rest it hit
    exact bucketOf_range _ _ it hlt hc.1 hc.2
  obtain ⟨buckets, hfill⟩ := fillBuckets_segment env (centerBounds it0 rest)
    (centerBounds it0 rest).maximumExtent pre (it0 :: rest) post hbk
  refine ⟨buckets, hfill, ?_⟩
  unfold buildStep
  rw [rangeBounds_segment]
  simp only [Nat.add_sub_cancel_left]
  have h1 : ¬ (it0 :: rest).length = 1 := by omega
  have h4n : ¬ (it0 :: rest).length ≤ 4 := by omega
  rw [if_neg h1, rangeCenterBounds_segment]
  simp only []
  rw [if_neg hext, if_neg h4n, hfill]
  simp only []
  rw [sliceRange_segment, spliceRange_segment]

theorem bucketOf_mono (cb : BoundingBox) (dim : Nat) (a b : BVH_Item)
    (hlt : cb.Pmin.get dim < cb.Pmax.get dim) (hlo : cb.Pmin.get dim ≤ a.center.get dim)
    (hab : a.center.get dim ≤ b.center.get dim) (hhi : b.center.get dim ≤ cb.Pmax.get dim) :
    bucketOf cb dim a ≤ bucketOf cb dim b := by
  have hpos : 0 < cb.Pmax.get dim - cb.Pmin.get dim := by linarith
  have hle : 12 * ((a.center.get dim - cb.Pmin.get dim) / (cb.Pmax.get dim - cb.Pmin.get dim))
      ≤ 12 * ((b.center.get dim - cb.Pmin.get dim) / (cb.Pmax.get dim - cb.Pmin.get dim)) := by
    apply mul_le_mul_of_nonneg_left _ (by norm_num)
    apply div_le_div_of_nonneg_right _ (le_of_lt hpos)
    linarith
  have hfl := Int.floor_le_floor hle
  have ho : (b.center.get dim - cb.Pmin.get dim) / (cb.Pmax.get dim - cb.Pmin.get dim) ≤ 1 := by
    rw [div_le_one hpos]; linarith
  have ht12 : 12 * ((b.center.get dim - cb.Pmin.get dim) /
      (cb.Pmax.get dim - cb.Pmin.get dim)) ≤ ((12 : Int) : ℚ) := by
    push_cast; linarith
  have hf12 : ⌊12 * ((b.center.get dim - cb.Pmin.get dim) /
      (cb.Pmax.get dim - cb.Pmin.get dim))⌋ ≤ 12 := by
    have := Int.floor_le_floor ht12
    simpa using this
  rw [bucketOf_eq cb dim a hlt hlo, bucketOf_eq cb dim b hlt (le_trans hlo hab)]
  split_ifs <;> omega

theorem mem_take_getElem? {α : Type} (l : List α) (k : Nat) (a : α) (h : a ∈ l.take k) :
    ∃ i, i < k ∧ l[i]? = some a := by
  obtain ⟨i, hi, e⟩ := List.getElem_of_mem h
  have hik : i < k := by
    rw [List.length_take] at hi
    omega
  refine ⟨i, hik, ?_⟩
  rw [List.getElem_take] at e
  rw [← e]
  exact List.getElem?_eq_getElem _

theorem mem_drop_getElem? {α : Type} (l : List α) (k : Nat) (a : α) (h : a ∈ l.drop k) :
    ∃ j, k ≤ j ∧ l[j]? = some a := by
  obtain ⟨i, hi, e⟩ := List.getElem_of_mem h
  refine ⟨k + i, Nat.le_add_right _ _, ?_⟩
  rw [List.getElem_drop] at e
  rw [← e]
  exact List.getElem?_eq_getElem _

/-- C23: for every non-degenerate range [start, end) with 2 <= nItems <= 4, recursiveBuild
splits at mid = (start + end) / 2, which satisfies start < mid < end; it reorders the
range so that every descriptor in [start, mid) has a centroid coordinate on the chosen axis
not greater than that of every descriptor in [mid, end); the range still holds the same
descriptors and the rest of the array is untouched. -/
theorem small_range_median_split (env : Platform) (henv : env.Conforms)
    (objects : List BoundingBox) (m : Int) (pre post : List BVH_Item) (it0 : BVH_Item)
    (rest : List BVH_Item) (ord : List Nat) (t : Nat)
    (h2 : 2 ≤ (it0 :: rest).length) (h4 : (it0 :: rest).length ≤ 4)
    (hext : (centerBounds it0 rest).Pmax.get (centerBounds it0 rest).maximumExtent ≠
      (centerBounds it0 rest).Pmin.get (centerBounds it0 rest).maximumExtent) :
    ∃ seg1,
      buildStep env objects m pre.length (pre.length + (it0 :: rest).length)
          ⟨pre ++ it0 :: rest ++ post, ord, t⟩ =
        Except.ok (Step.split ((pre.length + (pre.length + (it0 :: rest).length)) / 2) t
          ⟨pre ++ seg1 ++ post, ord, t + 1⟩) ∧
      pre.length < (pre.length + (pre.length + (it0 :: rest).length)) / 2 ∧
      (pre.length + (pre.length + (it0 :: rest).length)) / 2 <
        pre.length + (it0 :: rest).length ∧
      List.Perm seg1 (it0 :: rest) ∧
      ∀ a ∈ seg1.take ((pre.length + (pre.length + (it0 :: rest).length)) / 2 - pre.length),
        ∀ b ∈ seg1.drop
            ((pre.length + (pre.length + (it0 :: rest).length)) / 2 - pre.length),
          a.center.get (centerBounds it0 rest).maximumExtent ≤
            b.center.get (centerBounds it0 rest).maximumExtent := by
  have e : (pre.length + (pre.length + (it0 :: rest).length)) / 2 =
      pre.length + (it0 :: rest).length / 2 := by omega
  rw [e, Nat.add_sub_cancel_left]
  refine ⟨env.nth_element (centerBounds it0 rest).maximumExtent
    ((it0 :: rest).length / 2) (it0 :: rest),
    buildStep_small env objects m pre post it0 rest ord t h2 h4 hext, by omega, by omega,
    henv.nth_element_perm _ _ _, ?_⟩
  intro a ha b hb
  obtain ⟨i, hi, hia⟩ := mem_take_getElem? _ _ a ha
  obtain ⟨j, hj, hjb⟩ := mem_drop_getElem? _ _ b hb
  exact not_lt.mp (henv.nth_element_ordered _ _ _ i j a b hi hj hia hjb)

theorem small_range_median_split_witness :
    Platform.reference.Conforms ∧
    2 ≤ (BVH_Item.make 0 ⟨⟨0, 0, 0⟩, ⟨1, 1, 1⟩⟩ ::
      [BVH_Item.make 1 ⟨⟨2, 0, 0⟩, ⟨3, 1, 1⟩⟩]).length ∧
    (BVH_Item.make 0 ⟨⟨0, 0, 0⟩, ⟨1, 1, 1⟩⟩ ::
      [BVH_Item.make 1 ⟨⟨2, 0, 0⟩, ⟨3, 1, 1⟩⟩]).length ≤ 4 ∧
    (centerBounds (BVH_Item.make 0 ⟨⟨0, 0, 0⟩, ⟨1, 1, 1⟩⟩)
        [BVH_Item.make 1 ⟨⟨2, 0, 0⟩, ⟨3, 1, 1⟩⟩]).Pmax.get
      (centerBounds (BVH_Item.make 0 ⟨⟨0, 0, 0⟩, ⟨1, 1, 1⟩⟩)
        [BVH_Item.make 1 ⟨⟨2, 0, 0⟩, ⟨3, 1, 1⟩⟩]).maximumExtent ≠
    (centerBounds (BVH_Item.make 0 ⟨⟨0, 0, 0⟩, ⟨1, 1, 1⟩⟩)
        [BVH_Item.make 1 ⟨⟨2, 0, 0⟩, ⟨3, 1, 1⟩⟩]).Pmin.get
      (centerBounds (BVH_Item.make 0 ⟨⟨0, 0, 0⟩, ⟨1, 1, 1⟩⟩)
        [BVH_Item.make 1 ⟨⟨2, 0, 0⟩, ⟨3, 1, 1⟩⟩]).maximumExtent ∧
    ∃ seg1,
      buildStep Platform.reference exampleObjects 4 ([] : List BVH_Item).length
          (([] : List BVH_Item).length + (BVH_Item.make 0 ⟨⟨0, 0, 0⟩, ⟨1, 1, 1⟩⟩ ::
            [BVH_Item.make 1 ⟨⟨2, 0, 0⟩, ⟨3, 1, 1⟩⟩]).length)
          ⟨[] ++ BVH_Item.make 0 ⟨⟨0, 0, 0⟩, ⟨1, 1, 1⟩⟩ ::
            [BVH_Item.make 1 ⟨⟨2, 0, 0⟩, ⟨3, 1, 1⟩⟩] ++ [], [], 0⟩ =
        Except.ok (Step.split
          ((([] : List BVH_Item).length + (([] : List BVH_Item).length +
            (BVH_Item.make 0 ⟨⟨0, 0, 0⟩, ⟨1, 1, 1⟩⟩ ::
              [BVH_Item.make 1 ⟨⟨2, 0, 0⟩, ⟨3, 1, 1⟩⟩]).length)) / 2) 0
          ⟨[] ++ seg1 ++ [], [], 0 + 1⟩) ∧
      List.Perm seg1 (BVH_Item.make 0 ⟨⟨0, 0, 0⟩, ⟨1, 1, 1⟩⟩ ::
        [BVH_Item.make 1 ⟨⟨2, 0, 0⟩, ⟨3, 1, 1⟩⟩]) :=
  ⟨Platform.reference_conforms, by decide, by decide, by with_unfolding_all decide,
    (small_range_median_split Platform.reference Platform.reference_conforms exampleObjects 4
      [] [] (BVH_Item.make 0 ⟨⟨0, 0, 0⟩, ⟨1, 1, 1⟩⟩)
      [BVH_Item.make 1 ⟨⟨2, 0, 0⟩, ⟨3, 1, 1⟩⟩] [] 0 (by decide) (by decide)
      (by with_unfolding_all decide)).imp fun _ h => ⟨h.1, h.2.2.2.1⟩⟩

theorem sah_step_split (env : Platform) (henv : env.Conforms)
    (objects : List BoundingBox) (m : Int) (pre post : List BVH_Item) (it0 : BVH_Item)
    (rest : List BVH_Item) (ord : List Nat) (t : Nat) (h4 : 4 < (it0 :: rest).length)
    (hext : (centerBounds it0 rest).Pmax.get (centerBounds it0 rest).maximumExtent ≠
      (centerBounds it0 rest).Pmin.get (centerBounds it0 rest).maximumExtent) :
    ∃ buckets, fillBuckets env (centerBounds it0 rest) (centerBounds it0 rest).maximumExtent
        (pre ++ it0 :: rest ++ post) pre.length (pre.length + (it0 :: rest).length) =
          some buckets ∧
      (findMinCost (sahCost buckets
        (rest.foldl (fun b it => getTotalBoundingBox b it.boundingBox)
          it0.boundingBox))).2 ≤ 10 ∧
      (∃ a ∈ it0 :: rest, ∀ x ∈ it0 :: rest,
        a.center.get (centerBounds it0 rest).maximumExtent ≤
          x.center.get (centerBounds it0 rest).maximumExtent) ∧
      (∃ b ∈ it0 :: rest, ∀ x ∈ it0 :: rest,
        x.center.get (centerBounds it0 rest).maximumExtent ≤
          b.center.get (centerBounds it0 rest).maximumExtent) ∧
      (∀ a ∈ it0 :: rest,
        (∀ x ∈ it0 :: rest, a.center.get (centerBounds it0 rest).maximumExtent ≤
          x.center.get (centerBounds it0 rest).maximumExtent) →
        bucketOf (centerBounds it0 rest) (centerBounds it0 rest).maximumExtent a = 0) ∧
      (∀ b ∈ it0 :: rest,
        (∀ x ∈ it0 :: rest, x.center.get (centerBounds it0 rest).maximumExtent ≤
          b.center.get (centerBounds it0 rest).maximumExtent) →
        bucketOf (centerBounds it0 rest) (centerBounds it0 rest).maximumExtent b = 11) ∧
      ∀ mid nodeId st1,
        buildStep env objects m pre.length (pre.length + (it0 :: rest).length)
            ⟨pre ++ it0 :: rest ++ post, ord, t⟩ = Except.ok (Step.split mid nodeId st1) →
        pre.length < mid ∧ mid < pre.length + (it0 :: rest).length ∧
        ∃ seg1, st1.items = pre ++ seg1 ++ post ∧ List.Perm seg1 (it0 :: rest) ∧
          (∀ x ∈ seg1.take (mid - pre.length),
            bucketOf (centerBounds it0 rest) (centerBounds it0 rest).maximumExtent x ≤
              (((findMinCost (sahCost buckets
                (rest.foldl (fun b it => getTotalBoundingBox b it.boundingBox)
                  it0.boundingBox))).2 : Nat) : Int)) ∧
          (∀ x ∈ seg1.drop (mid - pre.length),
            (((findMinCost (sahCost buckets
                (rest.foldl (fun b it => getTotalBoundingBox b it.boundingBox)
                  it0.boundingBox))).2 : Nat) : Int) <
              bucketOf (centerBounds it0 rest) (centerBounds it0 rest).maximumExtent x) := by
  have hlt : (centerBounds it0 rest).Pmin.get (centerBounds it0 rest).maximumExtent <
      (centerBounds it0 rest).Pmax.get (centerBounds it0 rest).maximumExtent :=
    lt_of_le_of_ne (centerBounds_ordered _ it0 rest) (fun e => hext e.symm)
  obtain ⟨buckets, hfill, hstep⟩ := buildStep_sah env objects m pre post it0 rest ord t h4 hext
  obtain ⟨a, ha, hav⟩ := centerBounds_min_attained
    (centerBounds it0 rest).maximumExtent it0 rest
  obtain ⟨b, hb, hbv⟩ := centerBounds_max_attained
    (centerBounds it0 rest).maximumExtent it0 rest
  have hidx := findMinCost_index (sahCost buckets
    (rest.foldl (fun b it => getTotalBoundingBox b it.boundingBox) it0.boundingBox))
  have hcont := centerBounds_contains (centerBounds it0 rest).maximumExtent it0 rest
  refine ⟨buckets, hfill, hidx, ⟨a, ha, ?_⟩, ⟨b, hb, ?_⟩, ?_, ?_, ?_⟩
  · intro x hx
    rw [hav]
    exact (hcont x hx).1
  · intro x hx
    rw [hbv]
    exact (hcont x hx).2
  · intro a1 ha1 hmin
    apply bucketOf_at_min _ _ a1 hlt
    apply le_antisymm
    · rw [← hav]
      exact hmin a ha
    · exact (hcont a1 ha1).1
  · intro b1 hb1 hmax
    apply bucketOf_at_max _ _ b1 hlt
    apply le_antisymm
    · exact (hcont b1 hb1).2
    · rw [← hbv]
      exact hmax b hb
  · intro mid nodeId st1 hs
    rw [hstep] at hs
    split_ifs at hs with hc
    · injection hs with hs
      injection hs with hmid _ hst
      subst hmid
      subst hst
      have hin := partition_inner env henv
        (fun pi => decide (bucketOf (centerBounds it0 rest)
          (centerBounds it0 rest).maximumExtent pi ≤
            (((findMinCost (sahCost buckets
              (rest.foldl (fun b it => getTotalBoundingBox b it.boundingBox)
                it0.boundingBox))).2 : Nat) : Int)))
        (it0 :: rest) a b ha hb
        (by
          simp only []
          rw [bucketOf_at_min _ _ a hlt hav]
          exact decide_eq_true (by exact_mod_cast Nat.zero_le _))
        (by
          simp only []
          rw [bucketOf_at_max _ _ b hlt hbv]
          apply decide_eq_false
          have : (((findMinCost (sahCost buckets
            (rest.foldl (fun b it => getTotalBoundingBox b it.boundingBox)
              it0.boundingBox))).2 : Nat) : Int) ≤ 10 := by exact_mod_cast hidx
          omega)
      refine ⟨by omega, by omega, _, rfl, henv.partition_perm _ _, ?_, ?_⟩
      · intro x hx
        rw [Nat.add_sub_cancel_left] at hx
        have := henv.partition_left _ _ x hx
        exact of_decide_eq_true this
      · intro x hx
        rw [Nat.add_sub_cancel_left] at hx
        have := henv.partition_right _ _ x hx
        exact not_le.mp (of_decide_eq_false this)
    · have hne := emitLeaf_ok objects _ _ _ _ _ hs
      exact Step.noConfusion hne

/-! ## The primitives below a node -/

theorem primitives_leaf (id off cnt ax : Nat) (bb : BoundingBox) (ordered : List Nat) :
    (BVH_Node.mk id BVH_Node.null BVH_Node.null off cnt ax bb).primitives ordered =
      (ordered.drop off).take cnt := by
  unfold BVH_Node.primitives
  rw [leaves_leaf]
  simp [BVH_Node.objectOffset, BVH_Node.objectCount]

theorem primitives_interior (id : Nat) (c0 c1 : BVH_Node) (off cnt ax : Nat)
    (bb : BoundingBox) (h : c0 ≠ BVH_Node.null) (ordered : List Nat) :
    (BVH_Node.mk id c0 c1 off cnt ax bb).primitives ordered =
      c0.primitives ordered ++ c1.primitives ordered := by
  unfold BVH_Node.primitives
  rw [leaves_interior id c0 c1 off cnt ax bb h, List.flatMap_append]

theorem Covers.primitives_eq {m : Int} {node : BVH_Node} {seg : List BVH_Item} {base : Nat}
    {added : List Nat} {t t1 : Nat} (h : Covers m node seg base added t t1) :
    ∀ (X Y : List Nat), X.length = base →
      List.Perm (node.primitives (X ++ added ++ Y)) added := by
  induction h with
  | leaf it0 rest base t hr =>
    intro X Y hX
    rw [primitives_leaf, ← hX]
    have := drop_take_block X ((it0 :: rest).map fun it => it.index) Y
    rw [List.length_map] at this
    rw [this]
  | nodeLR c0 c1 n segL segR base addL addR t t1 t2 h0 h1 hc ih0 ih1 =>
    intro X Y hX
    obtain ⟨i0, a0, b0, o0, k0, x0, bb0, i1, a1, b1, o1, k1, x1, bb1, e0, e1, en⟩ :=
      createNode_some _ _ _ _ hc
    rw [en, primitives_interior _ _ _ _ _ _ _ (by rw [e0]; exact BVH_Node.noConfusion)]
    have p0 := ih0 X (addR ++ Y) hX
    have p1 := ih1 (X ++ addL) Y (by rw [List.length_append, hX])
    have ea : X ++ (addL ++ addR) ++ Y = X ++ addL ++ (addR ++ Y) := by
      simp only [List.append_assoc]
    have eb : X ++ (addL ++ addR) ++ Y = X ++ addL ++ addR ++ Y := by
      simp only [List.append_assoc]
    rw [← ea] at p0
    rw [← eb] at p1
    exact p0.append p1
  | nodeRL c0 c1 n segL segR base addL addR t t1 t2 h1 h0 hc ih1 ih0 =>
    intro X Y hX
    obtain ⟨i0, a0, b0, o0, k0, x0, bb0, i1, a1, b1, o1, k1, x1, bb1, e0, e1, en⟩ :=
      createNode_some _ _ _ _ hc
    rw [en, primitives_interior _ _ _ _ _ _ _ (by rw [e0]; exact BVH_Node.noConfusion)]
    have p1 := ih1 X (addL ++ Y) hX
    have p0 := ih0 (X ++ addR) Y (by rw [List.length_append, hX])
    have ea : X ++ (addR ++ addL) ++ Y = X ++ addR ++ (addL ++ Y) := by
      simp only [List.append_assoc]
    have eb : X ++ (addR ++ addL) ++ Y = X ++ addR ++ addL ++ Y := by
      simp only [List.append_assoc]
    rw [← ea] at p1
    rw [← eb] at p0
    exact (p0.append p1).trans List.perm_append_comm

/-! ## The SAH step -/

theorem partition_strict (env : Platform) (henv : env.Conforms) (cb : BoundingBox)
    (dim : Nat) (K : Int) (seg : List BVH_Item)
    (hlt : cb.Pmin.get dim < cb.Pmax.get dim)
    (hcont : ∀ x ∈ seg, cb.Pmin.get dim ≤ x.center.get dim ∧
      x.center.get dim ≤ cb.Pmax.get dim) :
    ∀ a ∈ (env.partition (fun pi => decide (bucketOf cb dim pi ≤ K)) seg).1.take
        (env.partition (fun pi => decide (bucketOf cb dim pi ≤ K)) seg).2,
      ∀ b ∈ (env.partition (fun pi => decide (bucketOf cb dim pi ≤ K)) seg).1.drop
          (env.partition (fun pi => decide (bucketOf cb dim pi ≤ K)) seg).2,
        a.center.get dim < b.center.get dim := by
  intro a ha b hb
  have hpa : bucketOf cb dim a ≤ K := of_decide_eq_true (henv.partition_left _ _ a ha)
  have hpb : ¬ bucketOf cb dim b ≤ K := of_decide_eq_false (henv.partition_right _ _ b hb)
  have hperm := henv.partition_perm (fun pi => decide (bucketOf cb dim pi ≤ K)) seg
  have hbs : b ∈ seg := hperm.mem_iff.mp (List.mem_of_mem_drop hb)
  have has : a ∈ seg := hperm.mem_iff.mp (List.mem_of_mem_take ha)
  by_contra hn
  have hle : b.center.get dim ≤ a.center.get dim := not_lt.mp hn
  have := bucketOf_mono cb dim b a hlt (hcont b hbs).1 hle (hcont a has).2
  omega

/-- One activation that goes through the SAH step and splits: what it leaves behind. -/
theorem sah_split_run (env : Platform) (henv : env.Conforms)
    (objects : List BoundingBox) (m : Int) (fuel : Nat) (pre post : List BVH_Item)
    (it0 : BVH_Item) (rest : List BVH_Item) (ord : List Nat) (t : Nat)
    (h4 : 4 < (it0 :: rest).length)
    (hext : (centerBounds it0 rest).Pmax.get (centerBounds it0 rest).maximumExtent ≠
      (centerBounds it0 rest).Pmin.get (centerBounds it0 rest).maximumExtent)
    (hok : ItemsOK objects (it0 :: rest)) (hfuel : (it0 :: rest).length ≤ fuel + 1)
    (mid nodeId : Nat) (st1 : BuildState)
    (hs : buildStep env objects m pre.length (pre.length + (it0 :: rest).length)
      ⟨pre ++ it0 :: rest ++ post, ord, t⟩ = Except.ok (Step.split mid nodeId st1)) :
    ∃ k seg1 c0 c1 n segL segR addL addR tA tB,
      mid = pre.length + k ∧ nodeId = t ∧ st1 = ⟨pre ++ seg1 ++ post, ord, t + 1⟩ ∧
      0 < k ∧ k < (it0 :: rest).length ∧ List.Perm seg1 (it0 :: rest) ∧
      (∀ a ∈ seg1.take k, ∀ b ∈ seg1.drop k,
        a.center.get (centerBounds it0 rest).maximumExtent <
          b.center.get (centerBounds it0 rest).maximumExtent) ∧
      createNode t c0 c1 = some n ∧
      List.Perm segL (seg1.take k) ∧ List.Perm segR (seg1.drop k) ∧
      ((recursiveBuild env objects m (fuel + 1) pre.length
            (pre.length + (it0 :: rest).length) ⟨pre ++ it0 :: rest ++ post, ord, t⟩ =
          Except.ok (n, ⟨pre ++ (segL ++ segR) ++ post, ord ++ (addL ++ addR), tB⟩) ∧
        Covers m c0 segL ord.length addL (t + 1) tA ∧
        Covers m c1 segR (ord.length + addL.length) addR tA tB) ∨
       (recursiveBuild env objects m (fuel + 1) pre.length
            (pre.length + (it0 :: rest).length) ⟨pre ++ it0 :: rest ++ post, ord, t⟩ =
          Except.ok (n, ⟨pre ++ (segL ++ segR) ++ post, ord ++ (addR ++ addL), tB⟩) ∧
        Covers m c1 segR ord.length addR (t + 1) tA ∧
        Covers m c0 segL (ord.length + addR.length) addL tA tB)) := by
  have hlt : (centerBounds it0 rest).Pmin.get (centerBounds it0 rest).maximumExtent <
      (centerBounds it0 rest).Pmax.get (centerBounds it0 rest).maximumExtent :=
    lt_of_le_of_ne (centerBounds_ordered _ it0 rest) (fun e => hext e.symm)
  have hcont := centerBounds_contains (centerBounds it0 rest).maximumExtent it0 rest
  obtain ⟨buckets, hfill, _, _, _, _, _, hall⟩ :=
    sah_step_split env henv objects m pre post it0 rest ord t h4 hext
  obtain ⟨hm1, hm2, _⟩ := hall mid nodeId st1 hs
  obtain ⟨buckets2, hfill2, hstep⟩ :=
    buildStep_sah env objects m pre post it0 rest ord t h4 hext
  have hs0 := hs
  rw [hstep] at hs
  split_ifs at hs with hc
  · injection hs with hs
    injection hs with hmid hid hst
    have hperm := henv.partition_perm
      (fun pi => decide (bucketOf (centerBounds it0 rest)
        (centerBounds it0 rest).maximumExtent pi ≤
          (((findMinCost (sahCost buckets2
            (rest.foldl (fun b it => getTotalBoundingBox b it.boundingBox)
              it0.boundingBox))).2 : Nat) : Int))) (it0 :: rest)
    have hk0 : 0 < (env.partition
      (fun pi => decide (bucketOf (centerBounds it0 rest)
        (centerBounds it0 rest).maximumExtent pi ≤
          (((findMinCost (sahCost buckets2
            (rest.foldl (fun b it => getTotalBoundingBox b it.boundingBox)
              it0.boundingBox))).2 : Nat) : Int))) (it0 :: rest)).2 := by omega
    have hk1 : (env.partition
      (fun pi => decide (bucketOf (centerBounds it0 rest)
        (centerBounds it0 rest).maximumExtent pi ≤
          (((findMinCost (sahCost buckets2
            (rest.foldl (fun b it => getTotalBoundingBox b it.boundingBox)
              it0.boundingBox))).2 : Nat) : Int))) (it0 :: rest)).2 <
        (it0 :: rest).length := by omega
    obtain ⟨c0, c1, n, segL, segR, addL, addR, tA, tB, hn, hpL, hpR, hrun⟩ :=
      recursiveBuild_split env henv objects m fuel pre _ post ord
        ⟨pre ++ it0 :: rest ++ post, ord, t⟩ pre.length
        (pre.length + (it0 :: rest).length) mid _ _ nodeId (t + 1)
        (by rw [hs0, ← hst]) rfl (by rw [hperm.length_eq]) hmid.symm rfl hk0
        (by rw [hperm.length_eq]; exact hk1) (hok.of_perm hperm)
        (by rw [hperm.length_eq]; exact hfuel)
    rw [← hid] at hn
    refine ⟨_, _, c0, c1, n, segL, segR, addL, addR, tA, tB, hmid.symm, hid.symm, hst.symm,
      hk0, hk1, hperm, ?_, hn, hpL, hpR, ?_⟩
    · exact partition_strict env henv _ _ _ _ hlt hcont
    · rcases hrun with ⟨_, h1, h2, h3⟩ | ⟨_, h1, h2, h3⟩
      · exact Or.inl ⟨h1, h2, h3⟩
      · exact Or.inr ⟨h1, h2, h3⟩
  · have hne := emitLeaf_ok objects _ _ _ _ _ hs
    exact Step.noConfusion hne

theorem strict_transfer (objects : List BoundingBox) (seg1 segL segR : List BVH_Item)
    (addL addR : List Nat) (k dim : Nat) (hok : ItemsOK objects seg1)
    (hpL : List.Perm segL (seg1.take k)) (hpR : List.Perm segR (seg1.drop k))
    (hstrict : ∀ a ∈ seg1.take k, ∀ b ∈ seg1.drop k, a.center.get dim < b.center.get dim)
    (hL : List.Perm addL (segL.map fun it => it.index))
    (hR : List.Perm addR (segR.map fun it => it.index)) :
    ∀ i ∈ addL, ∀ j ∈ addR, ∀ (bi bj : BoundingBox),
      objects[i]? = some bi → objects[j]? = some bj →
      (centroid bi).get dim < (centroid bj).get dim := by
  intro i hi j hj bi bj hbi hbj
  obtain ⟨a, ha, hai⟩ := List.mem_map.mp (hL.mem_iff.mp hi)
  obtain ⟨b, hb, hbj2⟩ := List.mem_map.mp (hR.mem_iff.mp hj)
  have ha1 : a ∈ seg1.take k := hpL.mem_iff.mp ha
  have hb1 : b ∈ seg1.drop k := hpR.mem_iff.mp hb
  obtain ⟨hoa, hca⟩ := hok a (List.mem_of_mem_take ha1)
  obtain ⟨hob, hcb⟩ := hok b (List.mem_of_mem_drop hb1)
  rw [hai, hbi] at hoa
  rw [hbj2, hbj] at hob
  injection hoa with hoa
  injection hob with hob
  rw [hoa, hob, ← hca, ← hcb]
  exact hstrict a ha1 b hb1

/-- C27: for every interior node produced by the SAH split (a non-degenerate range with
more than four descriptors that is split at mid), children[0] is built over [start, mid)
and children[1] over [mid, end), and every primitive referenced under children[0] has a
centroid coordinate on the split axis strictly smaller than that of every primitive
referenced under children[1]; the primitives under a child are the entries of the
permutation in the ranges of its leaves, whatever is appended to the permutation later. -/
theorem sah_children_strictly_ordered (env : Platform) (henv : env.Conforms)
    (objects : List BoundingBox) (m : Int) (fuel : Nat) (pre post : List BVH_Item)
    (it0 : BVH_Item) (rest : List BVH_Item) (ord : List Nat) (t : Nat)
    (h4 : 4 < (it0 :: rest).length)
    (hext : (centerBounds it0 rest).Pmax.get (centerBounds it0 rest).maximumExtent ≠
      (centerBounds it0 rest).Pmin.get (centerBounds it0 rest).maximumExtent)
    (hok : ItemsOK objects (it0 :: rest)) (hfuel : (it0 :: rest).length ≤ fuel + 1) :
    ∀ mid nodeId st1,
      buildStep env objects m pre.length (pre.length + (it0 :: rest).length)
        ⟨pre ++ it0 :: rest ++ post, ord, t⟩ = Except.ok (Step.split mid nodeId st1) →
      ∃ c0 c1 n st2,
        recursiveBuild env objects m (fuel + 1) pre.length
            (pre.length + (it0 :: rest).length) ⟨pre ++ it0 :: rest ++ post, ord, t⟩ =
          Except.ok (n, st2) ∧
        createNode nodeId c0 c1 = some n ∧
        ∀ later : List Nat,
          (c0.primitives (st2.orderedObjects ++ later)).length = mid - pre.length ∧
          (c1.primitives (st2.orderedObjects ++ later)).length =
            pre.length + (it0 :: rest).length - mid ∧
          ∀ i ∈ c0.primitives (st2.orderedObjects ++ later),
            ∀ j ∈ c1.primitives (st2.orderedObjects ++ later),
              ∀ (bi bj : BoundingBox), objects[i]? = some bi → objects[j]? = some bj →
                (centroid bi).get (centerBounds it0 rest).maximumExtent <
                  (centroid bj).get (centerBounds it0 rest).maximumExtent := by
  intro mid nodeId st1 hs
  obtain ⟨k, seg1, c0, c1, n, segL, segR, addL, addR, tA, tB, hmid, hid, hst, hk0, hk1,
    hperm, hstrict, hn, hpL, hpR, hrun⟩ :=
    sah_split_run env henv objects m fuel pre post it0 rest ord t h4 hext hok hfuel
      mid nodeId st1 hs
  have hok1 : ItemsOK objects seg1 := hok.of_perm hperm
  have hlenL : segL.length = k := by
    rw [hpL.length_eq, List.length_take, hperm.length_eq]; omega
  have hlenR : segR.length = (it0 :: rest).length - k := by
    rw [hpR.length_eq, List.length_drop, hperm.length_eq]
  rw [hid]
  rcases hrun with ⟨hr, h0, h1⟩ | ⟨hr, h1, h0⟩
  · refine ⟨c0, c1, n, _, hr, hn, ?_⟩
    intro later
    have p0 := h0.primitives_eq ord (addR ++ later) rfl
    have p1 := h1.primitives_eq (ord ++ addL) later (List.length_append _ _)
    have ea : ord ++ (addL ++ addR) ++ later = ord ++ addL ++ (addR ++ later) := by
      simp only [List.append_assoc]
    have eb : ord ++ (addL ++ addR) ++ later = ord ++ addL ++ addR ++ later := by
      simp only [List.append_assoc]
    rw [← ea] at p0
    rw [← eb] at p1
    refine ⟨?_, ?_, ?_⟩
    · rw [p0.length_eq, h0.length_eq, hlenL, hmid, Nat.add_sub_cancel_left]
    · rw [p1.length_eq, h1.length_eq, hlenR, hmid]; omega
    · intro i hi j hj
      exact strict_transfer objects seg1 segL segR addL addR k _ hok1 hpL hpR hstrict
        h0.perm h1.perm i (p0.mem_iff.mp hi) j (p1.mem_iff.mp hj)
  · refine ⟨c0, c1, n, _, hr, hn, ?_⟩
    intro later
    have p1 := h1.primitives_eq ord (addL ++ later) rfl
    have p0 := h0.primitives_eq (ord ++ addR) later (List.length_append _ _)
    have ea : ord ++ (addR ++ addL) ++ later = ord ++ addR ++ (addL ++ later) := by
      simp only [List.append_assoc]
    have eb : ord ++ (addR ++ addL) ++ later = ord ++ addR ++ addL ++ later := by
      simp only [List.append_assoc]
    rw [← ea] at p1
    rw [← eb] at p0
    refine ⟨?_, ?_, ?_⟩
    · rw [p0.length_eq, h0.length_eq, hlenL, hmid, Nat.add_sub_cancel_left]
    · rw [p1.length_eq, h1.length_eq, hlenR, hmid]; omega
    · intro i hi j hj
      exact strict_transfer objects seg1 segL segR addL addR k _ hok1 hpL hpR hstrict
        h0.perm h1.perm i (p0.mem_iff.mp hi) j (p1.mem_iff.mp hj)

theorem lineObjects_items_ok :
    ItemsOK lineObjects (BVH_Item.make 0 ⟨⟨0, 0, 0⟩, ⟨1, 1, 1⟩⟩ :: loadItems 1 lineObjects.tail) :=
  loadItems_ok_zero lineObjects

set_option maxRecDepth 100000 in
theorem lineObjects_step :
    buildStep Platform.reference lineObjects 4 ([] : List BVH_Item).length
        (([] : List BVH_Item).length +
          (BVH_Item.make 0 ⟨⟨0, 0, 0⟩, ⟨1, 1, 1⟩⟩ :: loadItems 1 lineObjects.tail).length)
        ⟨[] ++ BVH_Item.make 0 ⟨⟨0, 0, 0⟩, ⟨1, 1, 1⟩⟩ :: loadItems 1 lineObjects.tail ++ [], [], 0⟩ =
      Except.ok (Step.split 3 0 ⟨loadItems 0 lineObjects, [], 1⟩) := by
  with_unfolding_all rfl

set_option maxRecDepth 100000 in
theorem lineObjects_ext :
    (centerBounds (BVH_Item.make 0 ⟨⟨0, 0, 0⟩, ⟨1, 1, 1⟩⟩) (loadItems 1 lineObjects.tail)).Pmax.get
      (centerBounds (BVH_Item.make 0 ⟨⟨0, 0, 0⟩, ⟨1, 1, 1⟩⟩) (loadItems 1 lineObjects.tail)).maximumExtent ≠
    (centerBounds (BVH_Item.make 0 ⟨⟨0, 0, 0⟩, ⟨1, 1, 1⟩⟩) (loadItems 1 lineObjects.tail)).Pmin.get
      (centerBounds (BVH_Item.make 0 ⟨⟨0, 0, 0⟩, ⟨1, 1, 1⟩⟩) (loadItems 1 lineObjects.tail)).maximumExtent := by
  with_unfolding_all decide

theorem sah_children_strictly_ordered_witness :
    Platform.reference.Conforms ∧
    4 < (BVH_Item.make 0 ⟨⟨0, 0, 0⟩, ⟨1, 1, 1⟩⟩ :: loadItems 1 lineObjects.tail).length ∧
    ItemsOK lineObjects (BVH_Item.make 0 ⟨⟨0, 0, 0⟩, ⟨1, 1, 1⟩⟩ :: loadItems 1 lineObjects.tail) ∧
    (BVH_Item.make 0 ⟨⟨0, 0, 0⟩, ⟨1, 1, 1⟩⟩ :: loadItems 1 lineObjects.tail).length ≤ 4 + 1 ∧
    ∃ c0 c1 n st2,
      recursiveBuild Platform.reference lineObjects 4 (4 + 1) ([] : List BVH_Item).length
          (([] : List BVH_Item).length +
            (BVH_Item.make 0 ⟨⟨0, 0, 0⟩, ⟨1, 1, 1⟩⟩ :: loadItems 1 lineObjects.tail).length)
          ⟨[] ++ BVH_Item.make 0 ⟨⟨0, 0, 0⟩, ⟨1, 1, 1⟩⟩ :: loadItems 1 lineObjects.tail ++ [], [], 0⟩ =
        Except.ok (n, st2) ∧
      createNode 0 c0 c1 = some n :=
  ⟨Platform.reference_conforms, by decide, lineObjects_items_ok, by decide,
    (sah_children_strictly_ordered Platform.reference Platform.reference_conforms lineObjects
      4 4 [] [] (BVH_Item.make 0 ⟨⟨0, 0, 0⟩, ⟨1, 1, 1⟩⟩) (loadItems 1 lineObjects.tail) [] 0 (by decide) lineObjects_ext lineObjects_items_ok
      (by decide) 3 0 ⟨loadItems 0 lineObjects, [], 1⟩ lineObjects_step).imp
      fun _ h => h.imp fun _ h => h.imp fun _ h => h.imp fun _ h => ⟨h.1, h.2.1⟩⟩

/-! ## Leaf or split in the SAH step -/

theorem IsUnionOf.one_box (b : BoundingBox) : IsUnionOf b [b] := by
  intro k
  refine ⟨?_, ⟨b, List.mem_singleton.mpr rfl, rfl⟩, ?_, ⟨b, List.mem_singleton.mpr rfl, rfl⟩⟩
  · intro c hc
    rw [List.mem_singleton.mp hc]
  · intro c hc
    rw [List.mem_singleton.mp hc]

theorem IsUnionOf.pair {A B : BoundingBox} {l1 l2 : List BoundingBox}
    (hA : IsUnionOf A l1) (hB : IsUnionOf B l2) :
    IsUnionOf (getTotalBoundingBox A B) (l1 ++ l2) := by
  intro k
  obtain ⟨a1, ⟨x1, hx1, ex1⟩, a3, ⟨y1, hy1, ey1⟩⟩ := hA k
  obtain ⟨b1, ⟨x2, hx2, ex2⟩, b3, ⟨y2, hy2, ey2⟩⟩ := hB k
  simp only [getTotalBoundingBox, Vec3.get_min, Vec3.get_max]
  refine ⟨?_, ?_, ?_, ?_⟩
  · intro c hc
    rcases List.mem_append.mp hc with h | h
    · exact le_trans (min_le_left _ _) (a1 c h)
    · exact le_trans (min_le_right _ _) (b1 c h)
  · rcases le_total (A.Pmin.get k) (B.Pmin.get k) with h | h
    · exact ⟨x1, List.mem_append_left _ hx1, by rw [min_eq_left h, ex1]⟩
    · exact ⟨x2, List.mem_append_right _ hx2, by rw [min_eq_right h, ex2]⟩
  · intro c hc
    rcases List.mem_append.mp hc with h | h
    · exact le_trans (a3 c h) (le_max_left _ _)
    · exact le_trans (b3 c h) (le_max_right _ _)
  · rcases le_total (A.Pmax.get k) (B.Pmax.get k) with h | h
    · exact ⟨y2, List.mem_append_right _ hy2, by rw [max_eq_right h, ey2]⟩
    · exact ⟨y1, List.mem_append_left _ hy1, by rw [max_eq_left h, ey1]⟩

theorem IsUnionOf.foldl (bs : List BoundingBox) :
    ∀ (acc : BoundingBox) (l : List BoundingBox), IsUnionOf acc l →
      IsUnionOf (bs.foldl getTotalBoundingBox acc) (l ++ bs) := by
  induction bs with
  | nil =>
    intro acc l h
    rw [List.append_nil]
    exact h
  | cons c cs ih =>
    intro acc l h
    have := ih (getTotalBoundingBox acc c) (l ++ [c]) (h.pair (IsUnionOf.one_box c))
    rw [List.append_assoc] at this
    exact this

theorem Covers.node_count {m : Int} {node : BVH_Node} {seg : List BVH_Item} {base : Nat}
    {added : List Nat} {t t1 : Nat} (h : Covers m node seg base added t t1) :
    node.nodes.length + 1 = 2 * node.leaves.length := by
  induction h with
  | leaf it0 rest base t hr =>
    rw [leaves_leaf]
    simp [BVH_Node.nodes]
  | nodeLR c0 c1 n segL segR base addL addR t t1 t2 h0 h1 hc ih0 ih1 =>
    obtain ⟨i0, a0, b0, o0, k0, x0, bb0, i1, a1, b1, o1, k1, x1, bb1, e0, e1, en⟩ :=
      createNode_some _ _ _ _ hc
    rw [en, leaves_interior _ _ _ _ _ _ _ (by rw [e0]; exact BVH_Node.noConfusion)]
    simp only [BVH_Node.nodes, List.length_cons, List.length_append]
    omega
  | nodeRL c0 c1 n segL segR base addL addR t t1 t2 h1 h0 hc ih1 ih0 =>
    obtain ⟨i0, a0, b0, o0, k0, x0, bb0, i1, a1, b1, o1, k1, x1, bb1, e0, e1, en⟩ :=
      createNode_some _ _ _ _ hc
    rw [en, leaves_interior _ _ _ _ _ _ _ (by rw [e0]; exact BVH_Node.noConfusion)]
    simp only [BVH_Node.nodes, List.length_cons, List.length_append]
    omega

theorem Covers.nodes_length {m : Int} {node : BVH_Node} {seg : List BVH_Item} {base : Nat}
    {added : List Nat} {t t1 : Nat} (h : Covers m node seg base added t t1) :
    node.nodes.length = t1 - t := by
  have := h.ids.length_eq
  rw [List.length_map, List.length_range'] at this
  exact this

/-- C29: for every built tree the node ids are pairwise distinct and are exactly the
integers 0..n-1, where n is the number of nodes of the tree; n equals the final totalNodes
and equals 2 * L - 1, L being the number of leaves. -/
theorem node_ids_exact (env : Platform) (henv : env.Conforms)
    (self : BVH_Accelerator) (hv : self.Valid) (objects : List BoundingBox)
    (maxNodeItems : Int) (fuel : Nat) (hne : objects ≠ []) (hfuel : objects.length ≤ fuel) :
    ∃ s, buildTree env self objects maxNodeItems fuel = Except.ok s ∧
      (s.root.nodes.map BVH_Node.id).Nodup ∧
      (∀ k, k ∈ s.root.nodes.map BVH_Node.id ↔ k < s.root.nodes.length) ∧
      List.Perm (s.root.nodes.map BVH_Node.id) (List.range s.root.nodes.length) ∧
      s.root.nodes.length = s.totalNodes ∧
      s.totalNodes + 1 = 2 * s.root.leaves.length ∧
      s.totalNodes = 2 * s.root.leaves.length - 1 := by
  obtain ⟨node, seg1, added, t1, hrun, hperm, hcov⟩ :=
    buildTree_covers env henv self hv objects maxNodeItems fuel hne hfuel
  have hlen : node.nodes.length = t1 := hcov.nodes_length
  have hids : List.Perm (node.nodes.map BVH_Node.id) (List.range node.nodes.length) := by
    have := hcov.ids
    rw [Nat.sub_zero, ← hlen, ← List.range_eq_range'] at this
    exact this
  have hcount := hcov.node_count
  refine ⟨_, hrun, hids.nodup_iff.mpr (List.nodup_range _), ?_, hids, hlen, ?_, ?_⟩
  · intro k
    rw [hids.mem_iff, List.mem_range]
  · show t1 + 1 = 2 * node.leaves.length
    rw [← hlen]; exact hcount
  · show t1 = 2 * node.leaves.length - 1
    rw [← hlen]; omega

theorem node_ids_exact_witness :
    Platform.reference.Conforms ∧ (BVH_Accelerator.fresh 0).Valid ∧
    exampleObjects ≠ [] ∧ exampleObjects.length ≤ 2 ∧
    ∃ s, buildTree Platform.reference (BVH_Accelerator.fresh 0) exampleObjects 4 2 =
        Except.ok s ∧
      (s.root.nodes.map BVH_Node.id).Nodup ∧
      (∀ k, k ∈ s.root.nodes.map BVH_Node.id ↔ k < s.root.nodes.length) ∧
      List.Perm (s.root.nodes.map BVH_Node.id) (List.range s.root.nodes.length) ∧
      s.root.nodes.length = s.totalNodes ∧
      s.totalNodes + 1 = 2 * s.root.leaves.length ∧
      s.totalNodes = 2 * s.root.leaves.length - 1 :=
  ⟨Platform.reference_conforms, fresh_valid 0, exampleObjects_ne, exampleObjects_length,
    node_ids_exact Platform.reference Platform.reference_conforms
      (BVH_Accelerator.fresh 0) (fresh_valid 0) exampleObjects 4 2 exampleObjects_ne
      exampleObjects_length⟩

/-! ## Leaf sizes of at most four -/

theorem buildTree_of_run (env : Platform) (self : BVH_Accelerator) (hv : self.Valid)
    (objects : List BoundingBox) (m : Int) (fuel : Nat) (node : BVH_Node) (st : BuildState)
    (hrun : recursiveBuild env objects m fuel 0 objects.length ⟨loadItems 0 objects, [], 0⟩ =
      Except.ok (node, st)) :
    buildTree env self objects m fuel =
      Except.ok { items := st.items, orderedObjects := st.orderedObjects, maxNodeItems := m,
                  totalNodes := st.totalNodes, root := node,
                  tree := (self.prepare objects 0).tree } := by
  unfold buildTree
  simp only [prepare_buildState self hv objects m, hrun]
  simp [BVH_Accelerator.withBuildState, BVH_Accelerator.prepare]

theorem CoversLR.covers {m : Int} {node : BVH_Node} {seg : List BVH_Item} {base : Nat}
    {added : List Nat} {t t1 : Nat} (h : CoversLR m node seg base added t t1) :
    Covers m node seg base added t t1 := by
  induction h with
  | leaf it0 rest base t hr => exact Covers.leaf it0 rest base t hr
  | node c0 c1 n segL segR base addL addR t t1 t2 h0 h1 hc ih0 ih1 =>
    exact Covers.nodeLR c0 c1 n segL segR base addL addR t t1 t2 ih0 ih1 hc

theorem CoversLR.added_eq {m : Int} {node : BVH_Node} {seg : List BVH_Item} {base : Nat}
    {added : List Nat} {t t1 : Nat} (h : CoversLR m node seg base added t t1) :
    added = seg.map fun it => it.index := by
  induction h with
  | leaf it0 rest base t hr => rfl
  | node c0 c1 n segL segR base addL addR t t1 t2 h0 h1 hc ih0 ih1 =>
    rw [List.map_append, ih0, ih1]

theorem CoversLR.preorder_ids {m : Int} {node : BVH_Node} {seg : List BVH_Item} {base : Nat}
    {added : List Nat} {t t1 : Nat} (h : CoversLR m node seg base added t t1) :
    node.nodes.map BVH_Node.id = List.range' t (t1 - t) := by
  induction h with
  | leaf it0 rest base t hr =>
    simp [BVH_Node.nodes, BVH_Node.id]
  | node c0 c1 n segL segR base addL addR t t1 t2 h0 h1 hc ih0 ih1 =>
    obtain ⟨_, _, _, _, _, _, _, _, _, _, _, _, _, _, _, _, e⟩ := createNode_some _ _ _ _ hc
    rw [e]
    simp only [BVH_Node.nodes, List.map_cons, List.map_append, BVH_Node.id]
    rw [← range'_cons_append t t1 t2 (by have := h0.covers.counter_lt; omega)
      (le_of_lt h1.covers.counter_lt), ih0, ih1]

theorem CoversLR.leaf_offsets {m : Int} {node : BVH_Node} {seg : List BVH_Item} {base : Nat}
    {added : List Nat} {t t1 : Nat} (h : CoversLR m node seg base added t t1) :
    ∀ s0, ∀ p ∈ BVH_Node.leafSpans node s0, p.1.objectOffset + s0 = base + p.2 := by
  induction h with
  | leaf it0 rest base t hr =>
    intro s0 p hp
    simp only [BVH_Node.leafSpans, BVH_Node.isLeaf, if_true, List.mem_singleton] at hp
    rw [hp]
    simp only [BVH_Node.objectOffset]
  | node c0 c1 n segL segR base addL addR t t1 t2 h0 h1 hc ih0 ih1 =>
    intro s0 p hp
    obtain ⟨i0, a0, b0, o0, k0, x0, bb0, i1, a1, b1, o1, k1, x1, bb1, e0, e1, en⟩ :=
      createNode_some _ _ _ _ hc
    have hnl : BVH_Node.isLeaf (BVH_Node.mk t c0 c1 0 0 0 (getTotalBoundingBox bb0 bb1)) =
        false := isLeaf_of_child0 _ _ _ _ _ _ _ (by rw [e0]; exact BVH_Node.noConfusion)
    rw [en] at hp
    simp only [BVH_Node.leafSpans, hnl, Bool.false_eq_true, if_false, List.mem_append] at hp
    rcases hp with hp | hp
    · exact ih0 s0 p hp
    · have := ih1 (s0 + c0.primCount) p hp
      rw [h0.covers.primCount_eq, ← h0.covers.length_eq] at this
      omega

theorem recursiveBuild_segment_LR (env : Platform) (henv : env.Conforms)
    (hleft : ∀ a b, env.leftFirst a b = true)
    (objects : List BoundingBox) (m : Int) :
    ∀ (fuel start end_ : Nat) (items : List BVH_Item) (ord : List Nat) (t : Nat)
      (pre seg post : List BVH_Item),
      items = pre ++ seg ++ post → start = pre.length → end_ = start + seg.length →
      seg ≠ [] → seg.length ≤ fuel → ItemsOK objects seg →
      ∃ node seg1 added t1,
        recursiveBuild env objects m fuel start end_ ⟨items, ord, t⟩ =
          Except.ok (node, ⟨pre ++ seg1 ++ post, ord ++ added, t1⟩) ∧
        List.Perm seg1 seg ∧ CoversLR m node seg1 ord.length added t t1 := by
  intro fuel
  induction fuel with
  | zero =>
    intro start end_ items ord t pre seg post _ _ _ hne hlen _
    exfalso
    exact hne (List.length_eq_zero.mp (Nat.le_zero.mp hlen))
  | succ fuel ih =>
    intro start end_ items ord t pre seg post hitems hstart hend hne hlen hok
    subst hitems hstart hend
    cases seg with
    | nil => exact absurd rfl hne
    | cons it0 rest =>
      rcases buildStep_segment env henv objects m pre post it0 rest ord t hok with
        ⟨hstep, hreason⟩ | ⟨seg1, k, hstep, hperm, hk0, hklt⟩
      · refine ⟨_, it0 :: rest, _, t + 1, ?_, List.Perm.refl _,
          CoversLR.leaf it0 rest ord.length t hreason⟩
        simp only [recursiveBuild, hstep]
      · have hlen1 : seg1.length = (it0 :: rest).length := hperm.length_eq
        have hsplit : seg1 = seg1.take k ++ seg1.drop k := (List.take_append_drop k seg1).symm
        have hLlen : (seg1.take k).length = k := by
          rw [List.length_take]; simp only [List.length_cons] at *; omega
        have hRlen : (seg1.drop k).length = (it0 :: rest).length - k := by
          rw [List.length_drop]; simp only [List.length_cons] at *; omega
        have hLne : seg1.take k ≠ [] := by
          intro e; rw [e] at hLlen; simp only [List.length_nil] at hLlen; omega
        have hRne : seg1.drop k ≠ [] := by
          intro e; rw [e] at hRlen; simp only [List.length_nil, List.length_cons] at *; omega
        have hok1 : ItemsOK objects seg1 := hok.of_perm hperm
        have hokL : ItemsOK objects (seg1.take k) :=
          hok1.of_subset (fun it h => List.mem_of_mem_take h)
        have hokR : ItemsOK objects (seg1.drop k) :=
          hok1.of_subset (fun it h => List.mem_of_mem_drop h)
        simp only [recursiveBuild, hstep, hleft, if_true]
        obtain ⟨c0, segL1, addL, t1, hrun0, hpermL, hcov0⟩ :=
          ih pre.length (pre.length + k) (pre ++ seg1 ++ post) ord (t + 1)
            pre (seg1.take k) (seg1.drop k ++ post)
            (by rw [List.append_assoc pre, List.append_assoc pre,
                  ← List.append_assoc (seg1.take k), List.take_append_drop])
            rfl (by rw [hLlen]) hLne (by simp only [List.length_cons] at *; omega) hokL
        rw [hrun0]
        simp only []
        obtain ⟨c1, segR1, addR, t2, hrun1, hpermR, hcov1⟩ :=
          ih (pre.length + k) (pre.length + (it0 :: rest).length)
            (pre ++ segL1 ++ (seg1.drop k ++ post)) (ord ++ addL) t1
            (pre ++ segL1) (seg1.drop k) post
            (by simp only [List.append_assoc])
            (by rw [List.length_append, hpermL.length_eq, hLlen])
            (by rw [hRlen]; simp only [List.length_cons] at *; omega) hRne
            (by simp only [List.length_cons] at *; omega) hokR
        rw [hrun1]
        simp only []
        have hcov1b : CoversLR m c1 segR1 (ord.length + addL.length) addR t1 t2 := by
          rw [List.length_append] at hcov1; exact hcov1
        obtain ⟨n, hn⟩ := createNode_of_covers t hcov0.covers hcov1b.covers
        rw [hn]
        refine ⟨n, segL1 ++ segR1, addL ++ addR, t2, ?_, ?_, ?_⟩
        · simp only [List.append_assoc]
        · rw [hsplit] at hperm
          exact (List.Perm.append hpermL hpermR).trans hperm
        · exact CoversLR.node c0 c1 n segL1 segR1 ord.length addL addR t t1 t2 hcov0
            hcov1b hn

/-- C30: on every platform on which each activation evaluates recursiveBuild(start, mid)
before recursiveBuild(mid, end) (source order), ids are assigned in pre-order: the list
returned by getBVHTree() has the node with id k at position k; the root has id 0; each
leaf's objectOffset equals the start index of the working-array range it was created for;
and the permutation lists the primitive indices in the order of the final working array. -/
theorem left_first_preorder_ids (env : Platform) (henv : env.Conforms)
    (hleft : ∀ a b, env.leftFirst a b = true)
    (self : BVH_Accelerator) (hv : self.Valid) (objects : List BoundingBox)
    (maxNodeItems : Int) (fuel : Nat) (hne : objects ≠ []) (hfuel : objects.length ≤ fuel) :
    ∃ s l, buildTree env self objects maxNodeItems fuel = Except.ok s ∧
      s.getBVHTree = some l ∧ l = s.root.nodes ∧ l.length = s.totalNodes ∧
      l.map BVH_Node.id = List.range l.length ∧
      (∀ (k : Nat) (n : BVH_Node), l[k]? = some n → n.id = k) ∧
      s.root.id = 0 ∧
      (∀ p ∈ s.root.leafSpans 0, p.1.objectOffset = p.2) ∧
      s.getOrderedObjects = s.items.map fun it => it.index := by
  have hne2 : loadItems 0 objects ≠ [] := by
    intro e
    have := loadItems_length objects 0
    rw [e] at this
    exact hne (List.length_eq_zero.mp this.symm)
  obtain ⟨node, seg1, added, t1, hrun, hperm, hcov⟩ :=
    recursiveBuild_segment_LR env henv hleft objects maxNodeItems fuel 0 objects.length
      (loadItems 0 objects) [] 0 [] (loadItems 0 objects) []
      (by simp) rfl (by simp [loadItems_length]) hne2
      (by rw [loadItems_length]; exact hfuel) (loadItems_ok_zero objects)
  have hcov2 : CoversLR maxNodeItems node seg1 0 added 0 t1 := by simpa using hcov
  have hlen : node.nodes.length = t1 := hcov2.covers.nodes_length
  have hids : node.nodes.map BVH_Node.id = List.range node.nodes.length := by
    have := hcov2.preorder_ids
    rw [Nat.sub_zero, ← hlen, ← List.range_eq_range'] at this
    exact this
  refine ⟨_, node.nodes, buildTree_of_run env self hv objects maxNodeItems fuel _ _ hrun,
    hcov2.covers.getBVHSubTree_eq, rfl, hlen, hids, ?_, hcov2.covers.root_id, ?_, ?_⟩
  · intro k n hk
    have h1 : (node.nodes.map BVH_Node.id)[k]? = some n.id := by
      rw [List.getElem?_map, hk]; rfl
    rw [hids] at h1
    have hk2 : k < (List.range node.nodes.length).length := by
      by_contra hc
      rw [List.getElem?_eq_none (not_lt.mp hc)] at h1
      exact Option.noConfusion h1
    rw [List.getElem?_eq_getElem hk2, List.getElem_range] at h1
    exact (Option.some.inj h1).symm
  · intro p hp
    have := hcov2.leaf_offsets 0 p hp
    omega
  · have e : ([] : List Nat) ++ added =
        (([] : List BVH_Item) ++ seg1 ++ []).map (fun (it : BVH_Item) => it.index) := by
      rw [List.nil_append, List.nil_append, List.append_nil]
      exact hcov2.added_eq
    exact e

theorem left_first_preorder_ids_witness :
    Platform.reference.Conforms ∧ (∀ a b, Platform.reference.leftFirst a b = true) ∧
    (BVH_Accelerator.fresh 0).Valid ∧ exampleObjects ≠ [] ∧ exampleObjects.length ≤ 2 ∧
    ∃ s l, buildTree Platform.reference (BVH_Accelerator.fresh 0) exampleObjects 4 2 =
        Except.ok s ∧
      s.getBVHTree = some l ∧ l = s.root.nodes ∧ l.length = s.totalNodes ∧
      l.map BVH_Node.id = List.range l.length :=
  ⟨Platform.reference_conforms, fun _ _ => rfl, fresh_valid 0, exampleObjects_ne,
    exampleObjects_length,
    (left_first_preorder_ids Platform.reference Platform.reference_conforms (fun _ _ => rfl)
      (BVH_Accelerator.fresh 0) (fresh_valid 0) exampleObjects 4 2 exampleObjects_ne
      exampleObjects_length).imp
      fun _ h => h.imp fun _ h => ⟨h.1, h.2.1, h.2.2.1, h.2.2.2.1, h.2.2.2.2.1⟩⟩

/-! ## Where binary32 leaves the exact bucket index -/

theorem bucketOfF32_nan (cb : BoundingBox) (dim : Nat) (it : BVH_Item)
    (h : offsetF32 cb it.center dim = FloatVal.nan) : bucketOfF32 cb dim it = none := by
  unfold bucketOfF32
  rw [h]
  rfl

set_option maxRecDepth 100000 in
/-- C20 (the code at the failing input): the five point boxes of `overflowObjects` are
well-formed and finite, the range [0, 5) has nItems = 5 > 4, and its centroid box has
positive extent on the chosen axis 0, so the range reaches the SAH step. In binary32
`Pmax.x - Pmin.x` = 3 * 2^127 overflows to +infinity; for the last descriptor
`center.x - Pmin.x` overflows too, its offset is infinity / infinity = NaN, and the
conversion of 12 * NaN to `int` is undefined: the index b that `buckets[b]` is accessed
with is not in 0..11. Whenever the offset is NaN the index is undefined. -/
theorem bucket_index_out_of_bounds :
    rangeCenterBounds (loadItems 0 overflowObjects) 0 5 =
      some ⟨⟨-(3 * 2 ^ 126), 0, 0⟩, ⟨3 * 2 ^ 126, 0, 0⟩⟩ ∧
    BoundingBox.maximumExtent ⟨⟨-(3 * 2 ^ 126), 0, 0⟩, ⟨3 * 2 ^ 126, 0, 0⟩⟩ = 0 ∧
    (-(3 * 2 ^ 126) : ℚ) < 3 * 2 ^ 126 ∧
    (∀ b ∈ overflowObjects, b.Pmin = b.Pmax) ∧
    F32.sub (FloatVal.finite (3 * 2 ^ 126)) (FloatVal.finite (-(3 * 2 ^ 126))) =
      FloatVal.posInf ∧
    offsetF32 ⟨⟨-(3 * 2 ^ 126), 0, 0⟩, ⟨3 * 2 ^ 126, 0, 0⟩⟩ ⟨3 * 2 ^ 126, 0, 0⟩ 0 =
      FloatVal.nan ∧
    F32.toInt (F32.mul (FloatVal.finite 12) FloatVal.nan) = none ∧
    bucketOfF32 ⟨⟨-(3 * 2 ^ 126), 0, 0⟩, ⟨3 * 2 ^ 126, 0, 0⟩⟩ 0
      (BVH_Item.make 4 ⟨⟨3 * 2 ^ 126, 0, 0⟩, ⟨3 * 2 ^ 126, 0, 0⟩⟩) = none ∧
    (∀ (cb : BoundingBox) (dim : Nat) (it : BVH_Item),
      offsetF32 cb it.center dim = FloatVal.nan → bucketOfF32 cb dim it = none) := by
  refine ⟨by with_unfolding_all rfl, by with_unfolding_all rfl, by norm_num, ?_,
    by with_unfolding_all rfl, by with_unfolding_all rfl, rfl, by with_unfolding_all rfl,
    bucketOfF32_nan⟩
  intro b hb
  simp only [overflowObjects, List.mem_cons, List.mem_singleton, List.not_mem_nil,
    or_false] at hb
  rcases hb with rfl | rfl | rfl | rfl | rfl <;> rfl

set_option maxRecDepth 100000 in
/-- C24 (the code at the failing input): in the range [0, 5) over `overflowObjects`
(nItems = 5 > 4, centroid box of positive extent on axis 0, well-formed boxes) the
descriptor with the largest centroid on the axis is the last one; binary32 gives the
indices 0, 0, 0, 0 to the first four descriptors and no index at all to the last one,
whose offset is NaN: it does not fall in bucket 11, and the loop that fills the buckets
does not get as far as a split. In exact arithmetic the indices would be 0, 5, 6, 6, 11. -/
theorem largest_centroid_has_no_bucket :
    (loadItems 0 overflowObjects).map (fun it => it.center) =
      [⟨-(3 * 2 ^ 126), 0, 0⟩, ⟨-1, 0, 0⟩, ⟨0, 0, 0⟩, ⟨1, 0, 0⟩, ⟨3 * 2 ^ 126, 0, 0⟩] ∧
    (loadItems 0 overflowObjects).map
        (fun it => offsetF32 ⟨⟨-(3 * 2 ^ 126), 0, 0⟩, ⟨3 * 2 ^ 126, 0, 0⟩⟩ it.center 0) =
      [FloatVal.finite 0, FloatVal.finite 0, FloatVal.finite 0, FloatVal.finite 0,
        FloatVal.nan] ∧
    (loadItems 0 overflowObjects).map
        (bucketOfF32 ⟨⟨-(3 * 2 ^ 126), 0, 0⟩, ⟨3 * 2 ^ 126, 0, 0⟩⟩ 0) =
      [some 0, some 0, some 0, some 0, none] ∧
    (loadItems 0 overflowObjects).map
        (bucketOf ⟨⟨-(3 * 2 ^ 126), 0, 0⟩, ⟨3 * 2 ^ 126, 0, 0⟩⟩ 0) =
      [0, 5, 6, 6, 11] := by
  refine ⟨by with_unfolding_all rfl, by with_unfolding_all rfl, by with_unfolding_all rfl,
    by with_unfolding_all rfl⟩

set_option maxRecDepth 100000 in
/-- C1 (the code at the failing input): buildTree over `overflowObjects` enters
recursiveBuild(0, 5); the range is not a single item and not degenerate and has more than
four items, so the loop of lines 143-151 runs. In binary32 that loop, whatever the
uninitialised bucket boxes hold, does not complete: at the fifth descriptor the index is
undefined and `buckets[b]` is written outside the array. The activation faults for every
maxNodeItems and no permutation is produced. -/
theorem bucket_loop_faults_on_overflow :
    rangeBounds (loadItems 0 overflowObjects) 0 5 =
      some ⟨⟨-(3 * 2 ^ 126), 0, 0⟩, ⟨3 * 2 ^ 126, 0, 0⟩⟩ ∧
    rangeCenterBounds (loadItems 0 overflowObjects) 0 5 =
      some ⟨⟨-(3 * 2 ^ 126), 0, 0⟩, ⟨3 * 2 ^ 126, 0, 0⟩⟩ ∧
    BoundingBox.maximumExtent ⟨⟨-(3 * 2 ^ 126), 0, 0⟩, ⟨3 * 2 ^ 126, 0, 0⟩⟩ = 0 ∧
    (3 * 2 ^ 126 : ℚ) ≠ -(3 * 2 ^ 126) ∧
    ¬ (overflowObjects.length ≤ 4) ∧
    (∀ env : Platform,
      fillBucketsF32 env ⟨⟨-(3 * 2 ^ 126), 0, 0⟩, ⟨3 * 2 ^ 126, 0, 0⟩⟩ 0
        (loadItems 0 overflowObjects) 0 5 = none) ∧
    (∀ (env : Platform) (maxNodeItems : Int),
      buildStepF32 env overflowObjects maxNodeItems 0 5
        ⟨loadItems 0 overflowObjects, [], 0⟩ = Except.error Fault.outOfBounds) := by
  refine ⟨by with_unfolding_all rfl, by with_unfolding_all rfl, by with_unfolding_all rfl,
    by norm_num, by decide, ?_, ?_⟩
  · intro env
    with_unfolding_all rfl
  · intro env maxNodeItems
    with_unfolding_all rfl

set_option maxRecDepth 100000 in
/-- C5 (the code at the failing input): in recursiveBuild(0, 5) over `overflowObjects` the
loop of lines 143-151 gets through the first four descriptors, all counted in bucket 0,
and at the fifth the binary32 index is undefined, whatever the buckets hold: the access
`buckets[b]` is outside the array and the activation does not return. -/
theorem recursiveBuild_faults_on_overflow :
    (∀ env : Platform,
      (fillBucketsF32 env ⟨⟨-(3 * 2 ^ 126), 0, 0⟩, ⟨3 * 2 ^ 126, 0, 0⟩⟩ 0
          (loadItems 0 overflowObjects) 0 4).map
        (fun b => (List.range 12).map fun j => (b j).count) =
      some [4, 0, 0, 0, 0, 0, 0, 0, 0, 0, 0, 0]) ∧
    (loadItems 0 overflowObjects)[4]? =
      some (BVH_Item.make 4 ⟨⟨3 * 2 ^ 126, 0, 0⟩, ⟨3 * 2 ^ 126, 0, 0⟩⟩) ∧
    (∀ buckets : Nat → BucketInfo,
      addToBucketF32 ⟨⟨-(3 * 2 ^ 126), 0, 0⟩, ⟨3 * 2 ^ 126, 0, 0⟩⟩ 0 buckets
        (BVH_Item.make 4 ⟨⟨3 * 2 ^ 126, 0, 0⟩, ⟨3 * 2 ^ 126, 0, 0⟩⟩) = none) := by
  refine ⟨?_, by with_unfolding_all rfl, ?_⟩
  · intro env
    with_unfolding_all rfl
  · intro buckets
    with_unfolding_all rfl

/-! ## The uninitialised bucket boxes decide the tree -/

set_option maxRecDepth 100000 in
/-- C8 (the code at the failing input): `Platform.dirtyStack` differs from
`Platform.reference` only in what the uninitialised `buckets[i].boundingBox` hold. The
five boxes of `lineObjects` with maxNodeItems = 8 are built on a fresh builder with the
one contents, giving a tree of 9 nodes, and then again on the same builder with the other
contents, giving a single leaf of 5: the second build of the same input returns another
tree. With maxNodeItems = 4 the root is split 3 + 2 with the one contents and 1 + 4 with
the other. -/
theorem build_depends_on_stack_contents :
    Platform.dirtyStack.nth_element = Platform.reference.nth_element ∧
    Platform.dirtyStack.partition = Platform.reference.partition ∧
    Platform.dirtyStack.leftFirst = Platform.reference.leftFirst ∧
    (∃ s1 s2,
      buildTree Platform.reference (BVH_Accelerator.fresh 0) lineObjects 8 5 =
        Except.ok s1 ∧
      buildTree Platform.dirtyStack s1 lineObjects 8 5 = Except.ok s2 ∧
      s1.root.nodes.length = 9 ∧ s2.root.nodes.length = 1 ∧ s1.root ≠ s2.root) ∧
    (∃ t1 t2 a0 a1 b0 b1 ra rb,
      buildTree Platform.reference (BVH_Accelerator.fresh 0) lineObjects 4 5 =
        Except.ok t1 ∧
      buildTree Platform.dirtyStack t1 lineObjects 4 5 = Except.ok t2 ∧
      t1.root = BVH_Node.mk 0 a0 a1 0 0 0 ra ∧ t2.root = BVH_Node.mk 0 b0 b1 0 0 0 rb ∧
      a0.primCount = 3 ∧ a1.primCount = 2 ∧ b0.primCount = 1 ∧ b1.primCount = 4) := by
  refine ⟨rfl, rfl, rfl, ⟨_, _, by with_unfolding_all rfl, by with_unfolding_all rfl,
    by with_unfolding_all rfl, by with_unfolding_all rfl, ?_⟩,
    ⟨_, _, _, _, _, _, _, _, by with_unfolding_all rfl, by with_unfolding_all rfl,
      by with_unfolding_all rfl, by with_unfolding_all rfl, by with_unfolding_all rfl,
      by with_unfolding_all rfl, by with_unfolding_all rfl, by with_unfolding_all rfl⟩⟩
  intro h
  have h9 : (9 : Nat) = 1 := by
    have e := congrArg (fun n : BVH_Node => n.nodes.length) h
    revert e
    with_unfolding_all decide
  exact absurd h9 (by decide)

end BVH
